import Mathlib

/-!
# Particle Pets: a shallow embedding of `src/main.c`

The simulation state of `main.c` (the static array `groups`, the fixed-step
scheduler of `main`, `spawn_group`, `spawn`, `copy`, `paste` and
`update_particle_rule`) is embedded as pure functions with explicit state
passing.

Conventions of the embedding.

* There are two embeddings of the C `float` and `double` values. In the first
  one they are exact rationals `ℚ` and every arithmetic operation of the source
  is the corresponding exact operation; it carries the statements about the
  scheduler, `spawn_group`, `copy`, `paste`, the force guard and the velocity
  update. In the second one, in the namespace
  `Binary32`, a `float` is an IEEE 754 binary32 datum `F32` (a finite number,
  an infinity or a NaN) and every operation of `update_particle_rule` is
  rounded to nearest, ties to even; it carries the statements about the
  boundary clamp and the sign of the gravity coefficient, where rounding,
  overflow and NaN decide the outcome. The clipboard round trip uses the first
  embedding of the state for states whose fields are binary32 numbers
  (`float_fields`), with `sscanf_f32`, the `%f` conversion of `sscanf` that
  stores the nearest binary32 number.
* `sqrtf`, `rand` with `RAND_MAX`, `snprintf` and `sscanf` are library
  functions, not part of the repository. They are parameters of the functions
  that call them; concrete models of `sqrtf` and of the `%f` conversions are
  given for the statements that need them.
* A pointer into the static array `groups[NUM_GROUPS]` is an index of type
  `Fin NUM_GROUPS`, so that the aliased call `update_particle_rule(g, g, _)` is
  covered; the heap arrays `positions` and `velocities` are lists.
* `int64_t ticks` is an unbounded `Int`; the loop `while (ticks > 0)` is
  embedded with fuel and proved total for every admissible step size.
-/

namespace ParticlePets

/-! ## Data model -/

/-- Embedding of `SDL_FPoint`. -/
structure FPoint where
  x : ℚ
  y : ℚ
deriving DecidableEq, Repr

/-- Embedding of `SDL_Color`. -/
structure Color where
  r : Nat
  g : Nat
  b : Nat
  a : Nat
deriving DecidableEq, Repr

/-- The constant `world_size = { 1280.0f, 720.0f }`. -/
def world_size : FPoint := ⟨1280, 720⟩

/-- The constant `max_distance = world_size.y * 0.25f`. -/
def max_distance : ℚ := world_size.y * (1 / 4)

/-- The enumerator `NUM_GROUPS` that follows `RED, GREEN, BLUE, YELLOW`. -/
abbrev NUM_GROUPS : Nat := 4

/-- Embedding of the `group` struct; `positions` and `velocities` are the heap
arrays the two pointers refer to. -/
structure group where
  name : String
  color : Color
  positions : List FPoint
  velocities : List FPoint
  gravity : Fin NUM_GROUPS → ℚ
  count : Int
  spawn : ℚ

/-- The static array `group groups[NUM_GROUPS]`; a `group *` into it is an index. -/
abbrev Groups : Type := Fin NUM_GROUPS → group

/-- The initializer of the static array `groups`. -/
def initial_groups : Groups
  | 0 => ⟨"RED", ⟨255, 0, 0, 255⟩, [], [], fun _ => 0, 0, 200⟩
  | 1 => ⟨"GREEN", ⟨0, 255, 0, 255⟩, [], [], fun _ => 0, 0, 200⟩
  | 2 => ⟨"BLUE", ⟨0, 0, 255, 255⟩, [], [], fun _ => 0, 0, 200⟩
  | 3 => ⟨"YELLOW", ⟨255, 255, 0, 255⟩, [], [], fun _ => 0, 0, 200⟩

/-- The process state that `spawn` and `paste` read and write: the array
`groups` and the number of calls of `rand()` made so far (the position in the
pseudo-random sequence). -/
structure World where
  groups : Groups
  rand_calls : Nat

/-- The process state before the first call of `spawn`. -/
def initial_world : World := ⟨initial_groups, 0⟩

/-- Conversion of a floating value to an integer type, `(int)x` and
`(int64_t)x`: the fractional part is discarded (truncation toward zero). -/
def trunc_to_int (q : ℚ) : Int := if 0 ≤ q then ⌊q⌋ else ⌈q⌉

/-! ## `spawn_group` and `spawn` -/

/-- The array returned by a successful `SDL_realloc(p, sizeof(SDL_FPoint) * n)`:
the old cells that fit are kept, new cells are uninitialised (embedded as zero;
`spawn_group` overwrites every cell). -/
def realloc (p : List FPoint) (n : Nat) : List FPoint :=
  p.take n ++ List.replicate (n - p.length) ⟨0, 0⟩

/-- The first three statements of `spawn_group`: `g->count = (int)g->spawn` and
the two reallocations to `g->count` cells. -/
def spawn_alloc (g : group) : group :=
  { g with
    count := trunc_to_int g.spawn
    positions := realloc g.positions (trunc_to_int g.spawn).toNat
    velocities := realloc g.velocities (trunc_to_int g.spawn).toNat }

/-- Body of the loop of `spawn_group` for index `i`; the state is the group and
the number of `rand()` calls made. `rand n` is the value returned by the `n`-th
call of `rand()`. -/
def spawn_body (RAND_MAX : Nat) (rand : Nat → Nat) (s : group × Nat) (i : Nat) : group × Nat :=
  ({ s.1 with
      positions := s.1.positions.set i
        ⟨(rand s.2 : ℚ) / (RAND_MAX : ℚ) * world_size.x,
         (rand (s.2 + 1) : ℚ) / (RAND_MAX : ℚ) * world_size.y⟩
      velocities := s.1.velocities.set i ⟨0, 0⟩ },
   s.2 + 2)

/-- Embedding of `spawn_group(g)`, started after `k` calls of `rand()`. -/
def spawn_group (RAND_MAX : Nat) (rand : Nat → Nat) (g : group) (k : Nat) : group × Nat :=
  (List.range (spawn_alloc g).count.toNat).foldl (spawn_body RAND_MAX rand) (spawn_alloc g, k)

/-- One iteration of the loop of `spawn`: `spawn_group(&groups[i])`. -/
def spawn_step (RAND_MAX : Nat) (rand : Nat → Nat) (w : World) (i : Fin NUM_GROUPS) : World :=
  ⟨Function.update w.groups i (spawn_group RAND_MAX rand (w.groups i) w.rand_calls).1,
   (spawn_group RAND_MAX rand (w.groups i) w.rand_calls).2⟩

/-- Embedding of `spawn()`. -/
def spawn (RAND_MAX : Nat) (rand : Nat → Nat) (w : World) : World :=
  (List.finRange NUM_GROUPS).foldl (spawn_step RAND_MAX rand) w

/-! ## `copy` and `paste` -/

/-- The 20 value arguments of the `snprintf` call of `copy`, in order. -/
def copy_args (gs : Groups) : List ℚ :=
  [(gs 0).spawn, (gs 0).gravity 0, (gs 0).gravity 1, (gs 0).gravity 2, (gs 0).gravity 3,
   (gs 1).spawn, (gs 1).gravity 0, (gs 1).gravity 1, (gs 1).gravity 2, (gs 1).gravity 3,
   (gs 2).spawn, (gs 2).gravity 0, (gs 2).gravity 1, (gs 2).gravity 2, (gs 2).gravity 3,
   (gs 3).spawn, (gs 3).gravity 0, (gs 3).gravity 1, (gs 3).gravity 2, (gs 3).gravity 3]

/-- Embedding of `copy()`: the text handed to `SDL_SetClipboardText`.
`snprintf size args` is the content of the buffer of `size` bytes after
`snprintf` with the format of twenty `%f` separated by blanks. -/
def copy (snprintf : Nat → List ℚ → String) (gs : Groups) : String :=
  snprintf 1024 (copy_args gs)

/-- Assignment through the `k`-th pointer argument of the `sscanf` call of
`paste`: `&temp[k / 5].spawn` when `k` is a multiple of 5, otherwise
`&temp[k / 5].gravity[k % 5 - 1]`. -/
def store_arg (temp : Groups) (k : Nat) (v : ℚ) : Groups :=
  if h : k < 20 then
    let i : Fin NUM_GROUPS := ⟨k / 5, by show k / 5 < 4; omega⟩
    if k % 5 = 0 then Function.update temp i { temp i with spawn := v }
    else
      let j : Fin NUM_GROUPS := ⟨k % 5 - 1, by show k % 5 - 1 < 4; omega⟩
      Function.update temp i { temp i with gravity := Function.update (temp i).gravity j v }
  else temp

/-- The array `temp` after `sscanf` assigned the converted values `vals`. -/
def store_args (temp : Groups) (vals : List ℚ) : Groups :=
  (List.range vals.length).foldl (fun t k => store_arg t k (vals.getD k 0)) temp

/-- Embedding of `paste()`. `clipboard` is the clipboard text
(`SDL_HasClipboardText()` is false exactly when it is empty); `sscanf buffer`
is the list of values the call converted and assigned, in argument order, so
its length is the return value `ret`. -/
def paste (sscanf : String → List ℚ) (RAND_MAX : Nat) (rand : Nat → Nat) (clipboard : String)
    (w : World) : World :=
  if clipboard = "" then w
  else
    let temp := store_args w.groups (sscanf clipboard)
    let ret := (sscanf clipboard).length
    if ret = 20 then spawn RAND_MAX rand { w with groups := temp } else w

/-! ## `update_particle_rule` -/

/-- Body of the inner loop of `update_particle_rule`: the force `fa` accumulated
so far for the particle at `pa`, and the source particle at `pb`. -/
def force_step (sqrtf : ℚ → ℚ) (gravity : ℚ) (pa fa pb : FPoint) : FPoint :=
  let v : FPoint := ⟨pa.x - pb.x, pa.y - pb.y⟩
  let d := sqrtf (v.x * v.x + v.y * v.y)
  if d > 0 ∧ d < max_distance then
    let f := gravity * 1 / d
    ⟨fa.x + f * v.x, fa.y + f * v.y⟩
  else fa

/-- The inner loop `for (j = 0; j < b->count; j++)`, started with `fa = {0}`. -/
def accumulate_force (sqrtf : ℚ → ℚ) (gravity : ℚ) (pa : FPoint) (b : group) : FPoint :=
  (List.range b.count.toNat).foldl
    (fun fa j => force_step sqrtf gravity pa fa (b.positions.getD j ⟨0, 0⟩)) ⟨0, 0⟩

/-- The boundary statement of one axis, `if (p < 0) { p = 0; v *= -1; } else if
(p >= dim) { p = dim - 1; v *= -1; }`: the pair (coordinate, velocity component)
stored. -/
def bounce (dim p v : ℚ) : ℚ × ℚ :=
  if p < 0 then (0, v * -1)
  else if p ≥ dim then (dim - 1, v * -1)
  else (p, v)

/-- Body of the outer loop of `update_particle_rule` for particle `i` of group
`a`; the groups are read from and written to the array, so `a = b` is the
aliased call. -/
def update_particle (sqrtf : ℚ → ℚ) (gs : Groups) (a b : Fin NUM_GROUPS) (gravity : ℚ)
    (i : Nat) : Groups :=
  let pa := (gs a).positions.getD i ⟨0, 0⟩
  let fa := accumulate_force sqrtf gravity pa (gs b)
  let va := (gs a).velocities.getD i ⟨0, 0⟩
  let vx := (va.x + fa.x) * (1 / 2)
  let vy := (va.y + fa.y) * (1 / 2)
  let rx := bounce world_size.x (pa.x + vx) vx
  let ry := bounce world_size.y (pa.y + vy) vy
  Function.update gs a
    { gs a with
      positions := (gs a).positions.set i ⟨rx.1, ry.1⟩
      velocities := (gs a).velocities.set i ⟨rx.2, ry.2⟩ }

/-- Embedding of `update_particle_rule(&groups[a], &groups[b], gravity)`. -/
def update_particle_rule (sqrtf : ℚ → ℚ) (gs : Groups) (a b : Fin NUM_GROUPS) (gravity : ℚ) :
    Groups :=
  (List.range (gs a).count.toNat).foldl (fun s i => update_particle sqrtf s a b gravity i) gs

/-- One simulation tick of `main`: `update_particle_rule` for every ordered
pair of groups. -/
def simulate (sqrtf : ℚ → ℚ) (gs : Groups) : Groups :=
  (List.finRange NUM_GROUPS).foldl
    (fun s i =>
      (List.finRange NUM_GROUPS).foldl
        (fun s2 j => update_particle_rule sqrtf s2 i j ((s2 i).gravity j)) s) gs

/-! ## Fixed-step scheduler (`main`, the `while (ticks > 0)` loop) -/

/-- The statement `if ((ticks -= (int64_t)update_interval_ms) > 100) ticks = 100;`
with `step = (int64_t)update_interval_ms`. -/
def drain_body (step : Int) (ticks : Int) : Int :=
  let t := ticks - step
  if t > 100 then 100 else t

/-- The loop `while (ticks > 0) { tick; drain_body }` run with `fuel`
iterations available; `tick` is the simulation of all group pairs acting on
the simulation state `σ`. The result is the accumulator and the state at loop
exit, `none` when the fuel does not suffice. -/
def drain {σ : Type} (tick : σ → σ) (step : Int) : Nat → Int → σ → Option (Int × σ)
  | 0, ticks, s => if ticks > 0 then none else some (ticks, s)
  | fuel + 1, ticks, s =>
    if ticks > 0 then drain tick step fuel (drain_body step ticks) (tick s)
    else some (ticks, s)

/-- One frame of the main loop as far as the simulation is concerned:
`ticks += (int64_t)(now - timer)` with `delta = now - timer`, then the drain
loop with step `(int64_t)update_interval_ms`. -/
def frame {σ : Type} (tick : σ → σ) (update_interval_ms : ℚ) (fuel : Nat)
    (ticks delta : Int) (s : σ) : Option (Int × σ) :=
  drain tick (trunc_to_int update_interval_ms) fuel (ticks + delta) s

/-! ## Library functions: concrete models

`sqrtf`, `snprintf` and `sscanf` are parameters of the embedding. The models
below instantiate them: an exact square root on squares of rationals, and the
`%f` conversions of the C standard on exact rationals (decimal notation;
hexadecimal floats, `inf` and `nan` have no counterpart in `ℚ`). -/

/-- The characters `isspace` accepts in the "C" locale. -/
def is_space (c : Char) : Bool :=
  c = ' ' || c = '\t' || c = '\n' || c = '\x0b' || c = '\x0c' || c = '\r'

/-- The decimal digits `0` to `9`. -/
def is_digit (c : Char) : Bool := decide (48 ≤ c.toNat ∧ c.toNat ≤ 57)

/-- Value of a decimal digit. -/
def digit_val (c : Char) : Nat := c.toNat - 48

/-- The character of a decimal digit. -/
def digit_char (d : Nat) : Char := Char.ofNat (48 + d)

/-- Leading white space is skipped by a `%f` directive. -/
def skip_spaces : List Char → List Char
  | [] => []
  | c :: cs => if is_space c then skip_spaces cs else c :: cs

/-- Reads the longest run of digits: the value accumulated onto `acc`, the
number of digits read added to `n`, and the unread rest. -/
def scan_digits : List Char → Nat → Nat → Nat × Nat × List Char
  | [], acc, n => (acc, n, [])
  | c :: cs, acc, n =>
    if is_digit c then scan_digits cs (acc * 10 + digit_val c) (n + 1) else (acc, n, c :: cs)

/-- Reads an optional sign; the flag is true for `-`. -/
def scan_sign (cs : List Char) : Bool × List Char :=
  match cs with
  | [] => (false, [])
  | c :: rest => if c = '-' then (true, rest) else if c = '+' then (false, rest) else (false, cs)

/-- Reads an optional fraction, a point followed by digits. -/
def scan_fraction (cs : List Char) : Nat × Nat × List Char :=
  match cs with
  | [] => (0, 0, [])
  | c :: rest => if c = '.' then scan_digits rest 0 0 else (0, 0, cs)

/-- Reads an optional exponent, `e` or `E`, an optional sign and at least one digit. -/
def scan_exponent (cs : List Char) : Int × List Char :=
  match cs with
  | [] => (0, [])
  | c :: rest =>
    if c = 'e' ∨ c = 'E' then
      let s := scan_sign rest
      let d := scan_digits s.2 0 0
      if d.2.1 = 0 then (0, cs) else ((if s.1 then -(d.1 : Int) else (d.1 : Int)), d.2.2)
    else (0, cs)

/-- Reads an unsigned decimal floating constant; `none` when there is no digit. -/
def scan_magnitude (cs : List Char) : Option (ℚ × List Char) :=
  let ip := scan_digits cs 0 0
  let fp := scan_fraction ip.2.2
  if ip.2.1 + fp.2.1 = 0 then none
  else
    let e := scan_exponent fp.2.2
    some (((ip.1 : ℚ) + (fp.1 : ℚ) / 10 ^ fp.2.1) * 10 ^ e.1, e.2)

/-- One `%f` directive of `sscanf`: the converted value and the unread rest, or
`none` on a matching failure. -/
def scan_float (cs : List Char) : Option (ℚ × List Char) :=
  let s := scan_sign (skip_spaces cs)
  match scan_magnitude s.2 with
  | none => none
  | some r => some ((if s.1 then -r.1 else r.1), r.2)

/-- A format of `n` directives `%f` separated by blanks: the values converted
up to the first matching failure. -/
def sscanf_floats : Nat → List Char → List ℚ
  | 0, _ => []
  | n + 1, cs =>
    match scan_float cs with
    | none => []
    | some r => r.1 :: sscanf_floats n r.2

/-- Modelled from the spec: `sscanf` of the C library with the format of
`paste`, twenty `%f` separated by blanks; the library is not part of the
repository. -/
def sscanf_f (buffer : String) : List ℚ := sscanf_floats 20 buffer.toList

/-- The last `w` decimal digits of `n`, most significant first. -/
def fixed_digits : Nat → Nat → List Char
  | 0, _ => []
  | w + 1, n => fixed_digits w (n / 10) ++ [digit_char (n % 10)]

/-- Decimal digits of `n`, most significant first, within `f` steps. -/
def nat_chars_aux : Nat → Nat → List Char
  | 0, _ => []
  | f + 1, n =>
    if n < 10 then [digit_char n] else nat_chars_aux f (n / 10) ++ [digit_char (n % 10)]

/-- Decimal notation of a natural number. -/
def nat_chars (n : Nat) : List Char := nat_chars_aux (n + 1) n

/-- Rounding to the nearest integer, ties to even. -/
def round_half_even (q : ℚ) : Int :=
  if q - ⌊q⌋ < 1 / 2 then ⌊q⌋
  else if 1 / 2 < q - ⌊q⌋ then ⌊q⌋ + 1
  else if ⌊q⌋ % 2 = 0 then ⌊q⌋ else ⌊q⌋ + 1

/-- The magnitude of `q` in millionths, rounded: the digits `%f` prints. -/
def micro (q : ℚ) : Nat := (round_half_even (|q| * 1000000)).toNat

/-- One `%f` conversion of `snprintf`: sign, integer part, point, six decimals. -/
def format_f (q : ℚ) : List Char :=
  (if q < 0 then ['-'] else []) ++ nat_chars (micro q / 1000000)
    ++ '.' :: fixed_digits 6 (micro q % 1000000)

/-- The conversions separated by single blanks, as the format of `copy` lays them out. -/
def join_spaces : List (List Char) → List Char
  | [] => []
  | [x] => x
  | x :: y :: t => x ++ ' ' :: join_spaces (y :: t)

/-- Modelled from the spec: `snprintf` of the C library with the format of
`copy`, `%f` conversions separated by blanks, into a buffer of `size` bytes
(at most `size - 1` characters are stored); the library is not part of the
repository. -/
def snprintf_f (size : Nat) (args : List ℚ) : String :=
  String.mk ((join_spaces (args.map format_f)).take (size - 1))

/-! ## IEEE 754 binary32 -/

/-- Exponent of the binary32 binade of a positive magnitude `y`: the largest
`e` with `2 ^ e ≤ y`, and `-126` in the subnormal range. -/
def exp32 (y : ℚ) : Int := max (Int.log 2 y) (-126)

/-- Spacing of the binary32 numbers in the binade of `y` (24-bit significand). -/
def ulp32 (y : ℚ) : ℚ := 2 ^ (exp32 y - 23)

/-- A magnitude rounded to the nearest multiple of its `ulp32`, ties to even. -/
def round32_mag (y : ℚ) : ℚ := (round_half_even (y / ulp32 y) : ℚ) * ulp32 y

/-- Rounding of a rational to binary32 precision, round to nearest, ties to
even, with the exponent range unbounded above. -/
def round32_val (q : ℚ) : ℚ := if q < 0 then -(round32_mag (-q)) else round32_mag q

/-- The rationals that are binary32 numbers: rounding leaves them unchanged
and they are below `2 ^ 128`. -/
def is_binary32 (q : ℚ) : Prop := round32_val q = q ∧ |q| < 2 ^ 128

/-- An IEEE 754 binary32 datum: a finite number, an infinity with its sign
(`true` for negative), or a NaN. The two zeros are identified. -/
inductive F32 where
  | fin (q : ℚ)
  | inf (neg : Bool)
  | nan
deriving DecidableEq, Repr

/-- Rounding of an exact result to binary32: round to nearest, ties to even;
a result whose rounded magnitude reaches `2 ^ 128` overflows to infinity. -/
def round32 (q : ℚ) : F32 :=
  if 2 ^ 128 ≤ |round32_val q| then F32.inf (decide (q < 0)) else F32.fin (round32_val q)

/-- Unary minus of binary32. -/
def F32.neg : F32 → F32
  | F32.fin q => F32.fin (-q)
  | F32.inf s => F32.inf (!s)
  | F32.nan => F32.nan

/-- Addition of binary32. -/
def F32.add : F32 → F32 → F32
  | F32.nan, _ => F32.nan
  | _, F32.nan => F32.nan
  | F32.inf s, F32.inf t => if s = t then F32.inf s else F32.nan
  | F32.inf s, F32.fin _ => F32.inf s
  | F32.fin _, F32.inf t => F32.inf t
  | F32.fin a, F32.fin b => round32 (a + b)

/-- Subtraction of binary32. -/
def F32.sub (a b : F32) : F32 := F32.add a (F32.neg b)

/-- Multiplication of binary32. -/
def F32.mul : F32 → F32 → F32
  | F32.nan, _ => F32.nan
  | _, F32.nan => F32.nan
  | F32.inf s, F32.inf t => F32.inf (xor s t)
  | F32.inf s, F32.fin b => if b = 0 then F32.nan else F32.inf (xor s (decide (b < 0)))
  | F32.fin a, F32.inf t => if a = 0 then F32.nan else F32.inf (xor (decide (a < 0)) t)
  | F32.fin a, F32.fin b => round32 (a * b)

/-- Division of binary32. With the zeros identified, the sign of a quotient by
zero follows the dividend alone; `update_particle_rule` divides only by a
number it has tested to be positive. -/
def F32.div : F32 → F32 → F32
  | F32.nan, _ => F32.nan
  | _, F32.nan => F32.nan
  | F32.inf _, F32.inf _ => F32.nan
  | F32.inf s, F32.fin b => F32.inf (xor s (decide (b < 0)))
  | F32.fin _, F32.inf _ => F32.fin 0
  | F32.fin a, F32.fin b =>
    if b = 0 then (if a = 0 then F32.nan else F32.inf (decide (a < 0))) else round32 (a / b)

/-- The comparison `a < b` of binary32; false when an operand is a NaN. -/
def F32.lt : F32 → F32 → Bool
  | F32.nan, _ => false
  | _, F32.nan => false
  | F32.inf s, F32.inf t => s && !t
  | F32.inf s, F32.fin _ => s
  | F32.fin _, F32.inf t => !t
  | F32.fin a, F32.fin b => decide (a < b)

/-- The comparison `a >= b` of binary32; false when an operand is a NaN. -/
def F32.ge : F32 → F32 → Bool
  | F32.nan, _ => false
  | _, F32.nan => false
  | F32.inf s, F32.inf t => !s || t
  | F32.inf s, F32.fin _ => !s
  | F32.fin _, F32.inf t => t
  | F32.fin a, F32.fin b => decide (b ≤ a)

/-- A datum an operation can return: a NaN, an infinity, or a binary32 number. -/
def F32.rounded : F32 → Prop
  | F32.fin q => is_binary32 q
  | _ => True

/-- The square root of a positive rational correctly rounded to binary32. For
`q` in the binade `[4 ^ h, 4 ^ (h + 1))` the root lies in `[2 ^ h, 2 ^ (h + 1))`;
`m` is its 24-bit significand rounded down, and the comparison of `q` with the
square of the midpoint decides between `m` and `m + 1` (ties to even). -/
def sqrt32_val (q : ℚ) : ℚ :=
  let h : Int := Int.log 2 q / 2
  let u : ℚ := 2 ^ (h - 23)
  let m : Nat := Nat.sqrt ⌊q / (u * u)⌋₊
  let mid : ℚ := (2 * (m : ℚ) + 1) * u / 2
  if q < mid * mid then (m : ℚ) * u
  else if mid * mid < q then ((m : ℚ) + 1) * u
  else if m % 2 = 0 then (m : ℚ) * u else ((m : ℚ) + 1) * u

/-- Modelled from the spec: `sqrtf` of the C library, which is not part of the
repository, correctly rounded as IEEE 754 requires. -/
def sqrt32 : F32 → F32
  | F32.nan => F32.nan
  | F32.inf s => if s then F32.nan else F32.inf false
  | F32.fin q => if q < 0 then F32.nan else if q = 0 then F32.fin 0 else F32.fin (sqrt32_val q)

/-- Modelled from the spec: `sscanf` of the C library with the format of
`paste`, storing through `float *` arguments: each decimal value scanned is
stored as the nearest binary32 number. The library is not part of the
repository. -/
def sscanf_f32 (buffer : String) : List ℚ := (sscanf_f buffer).map round32_val

/-! ## Definitions used to state the properties -/

/-- The value a `%f` conversion denotes: `q` rounded to six decimals. -/
def round6 (q : ℚ) : ℚ := (if q < 0 then -1 else 1) * ((micro q : ℚ) / 1000000)

/-- Value of a run of digits read onto the accumulator `acc`. -/
def digits_value (cs : List Char) (acc : Nat) : Nat :=
  cs.foldl (fun a c => a * 10 + digit_val c) acc

/-- Number of iterations needed to drain an accumulator `t ≤ 100`:
`ceil (t / step)`, and zero when `t ≤ 0`. -/
def iterations (step t : Int) : Nat := ((t + step - 1) / step).toNat

/-- Ticks run by a frame whose accumulator is `t` after the delta was added. -/
def frame_ticks (step t : Int) : Nat :=
  if 0 < t then iterations step (drain_body step t) + 1 else 0

/-- Accumulator left by a frame whose accumulator is `t` after the delta was added. -/
def frame_rest (step t : Int) : Int :=
  if 0 < t then drain_body step t - iterations step (drain_body step t) * step else t

/-- The groups after the first `n` iterations of the outer loop of
`update_particle_rule`, that is the state in which particle `n` is processed. -/
def rule_upto (sqrtf : ℚ → ℚ) (gs : Groups) (a b : Fin NUM_GROUPS) (gravity : ℚ) (n : Nat) :
    Groups :=
  (List.range n).foldl (fun s i => update_particle sqrtf s a b gravity i) gs

/-- The distance `d` that `force_step` computes for a pair of positions. -/
def distance (sqrtf : ℚ → ℚ) (pa pb : FPoint) : ℚ :=
  sqrtf ((pa.x - pb.x) * (pa.x - pb.x) + (pa.y - pb.y) * (pa.y - pb.y))

/-- The raw force `fa` accumulated for particle `i` of group `a` during a call
of `update_particle_rule`. -/
def raw_force (sqrtf : ℚ → ℚ) (gs : Groups) (a b : Fin NUM_GROUPS) (gravity : ℚ) (i : Nat) :
    FPoint :=
  accumulate_force sqrtf gravity ((gs a).positions.getD i ⟨0, 0⟩)
    (rule_upto sqrtf gs a b gravity i b)

/-- The velocity `v' = (v + fa) * 0.5` of particle `i` before the boundary
statements of the same iteration. -/
def damped (sqrtf : ℚ → ℚ) (gs : Groups) (a b : Fin NUM_GROUPS) (gravity : ℚ) (i : Nat) :
    FPoint :=
  ⟨(((gs a).velocities.getD i ⟨0, 0⟩).x + (raw_force sqrtf gs a b gravity i).x) * (1 / 2),
   (((gs a).velocities.getD i ⟨0, 0⟩).y + (raw_force sqrtf gs a b gravity i).y) * (1 / 2)⟩

/-- The state of `spawn_group` after the first `n` iterations of its loop. -/
def spawn_upto (RAND_MAX : Nat) (rand : Nat → Nat) (g : group) (k n : Nat) : group × Nat :=
  (List.range n).foldl (spawn_body RAND_MAX rand) (spawn_alloc g, k)

/-- What a group `h` looks like after it was respawned from `g`. -/
def respawned (g h : group) : Prop :=
  h.spawn = g.spawn ∧ h.gravity = g.gravity ∧ h.name = g.name ∧ h.color = g.color ∧
  h.count = trunc_to_int g.spawn ∧
  h.positions.length = (trunc_to_int g.spawn).toNat ∧
  h.velocities.length = (trunc_to_int g.spawn).toNat

/-- The slider ranges: `spawn` in `[1, 500]`, every gravity cell in `[-1, 1]`. -/
def in_ranges (gs : Groups) : Prop :=
  ∀ i : Fin NUM_GROUPS, (1 ≤ (gs i).spawn ∧ (gs i).spawn ≤ 500) ∧
    ∀ j : Fin NUM_GROUPS, -1 ≤ (gs i).gravity j ∧ (gs i).gravity j ≤ 1

/-! ## Concrete states used as inputs -/

/-- A group of one particle at `p` with velocity `v`. -/
def particle (name : String) (p v : FPoint) : group :=
  ⟨name, ⟨255, 255, 255, 255⟩, [p], [v], fun _ => 0, 1, 1⟩

/-- A RED particle at rest at `(103, 104)`; every other group is one particle
at rest at `(100, 100)`, at distance 5. -/
def pair_groups : Groups := fun k =>
  if k = 0 then particle "RED" ⟨103, 104⟩ ⟨0, 0⟩ else particle "GREEN" ⟨100, 100⟩ ⟨0, 0⟩

/-- The initial state after the RED spawn slider was set to 1.5. -/
def fractional_world : World :=
  ⟨Function.update initial_groups 0 { initial_groups 0 with spawn := 3 / 2 }, 0⟩

/-- A clipboard text of 20 numeric fields whose first two lie outside the slider ranges. -/
def out_of_range_text : String := "1000 2 0 0 0 200 0 0 0 0 200 0 0 0 0 200 0 0 0 0"

/-- Every `spawn` field and gravity cell holds a value of the type `float`. -/
def float_fields (gs : Groups) : Prop :=
  ∀ i : Fin NUM_GROUPS, is_binary32 (gs i).spawn ∧
    ∀ j : Fin NUM_GROUPS, is_binary32 ((gs i).gravity j)

namespace Binary32

/-! ## `update_particle_rule` in binary32 arithmetic

The same statements of the source as in the exact embedding, with every
`float` operation replaced by the binary32 operation: each operation is rounded
on its own (as with `FLT_EVAL_METHOD == 0` and without contraction of a product
and a sum into one fused operation). -/

/-- Embedding of `SDL_FPoint` with binary32 coordinates. -/
structure FPoint where
  x : F32
  y : F32
deriving DecidableEq, Repr

/-- Embedding of the `group` struct with binary32 fields. -/
structure group where
  name : String
  color : Color
  positions : List FPoint
  velocities : List FPoint
  gravity : Fin NUM_GROUPS → F32
  count : Int
  spawn : F32

/-- The static array `group groups[NUM_GROUPS]`. -/
abbrev Groups : Type := Fin NUM_GROUPS → group

/-- The constant `world_size = { 1280.0f, 720.0f }`. -/
def world_size : FPoint := ⟨F32.fin 1280, F32.fin 720⟩

/-- The constant `max_distance = world_size.y * 0.25f`. -/
def max_distance : F32 := F32.mul world_size.y (F32.fin (1 / 4))

/-- Body of the inner loop of `update_particle_rule`. -/
def force_step (sqrtf : F32 → F32) (gravity : F32) (pa fa pb : FPoint) : FPoint :=
  let v : FPoint := ⟨F32.sub pa.x pb.x, F32.sub pa.y pb.y⟩
  let d := sqrtf (F32.add (F32.mul v.x v.x) (F32.mul v.y v.y))
  if F32.lt (F32.fin 0) d && F32.lt d max_distance then
    let f := F32.div (F32.mul gravity (F32.fin 1)) d
    ⟨F32.add fa.x (F32.mul f v.x), F32.add fa.y (F32.mul f v.y)⟩
  else fa

/-- The inner loop `for (j = 0; j < b->count; j++)`, started with `fa = {0}`. -/
def accumulate_force (sqrtf : F32 → F32) (gravity : F32) (pa : FPoint) (b : group) : FPoint :=
  (List.range b.count.toNat).foldl
    (fun fa j => force_step sqrtf gravity pa fa (b.positions.getD j ⟨F32.fin 0, F32.fin 0⟩))
    ⟨F32.fin 0, F32.fin 0⟩

/-- The boundary statement of one axis, `if (p < 0.0f) { p = 0.0f; v *= -1.0f; }
else if (p >= dim) { p = dim - 1.0f; v *= -1.0f; }`: the pair (coordinate,
velocity component) stored. -/
def bounce (dim p v : F32) : F32 × F32 :=
  if F32.lt p (F32.fin 0) then (F32.fin 0, F32.mul v (F32.fin (-1)))
  else if F32.ge p dim then (F32.sub dim (F32.fin 1), F32.mul v (F32.fin (-1)))
  else (p, v)

/-- Body of the outer loop of `update_particle_rule` for particle `i` of group `a`. -/
def update_particle (sqrtf : F32 → F32) (gs : Groups) (a b : Fin NUM_GROUPS) (gravity : F32)
    (i : Nat) : Groups :=
  let pa := (gs a).positions.getD i ⟨F32.fin 0, F32.fin 0⟩
  let fa := accumulate_force sqrtf gravity pa (gs b)
  let va := (gs a).velocities.getD i ⟨F32.fin 0, F32.fin 0⟩
  let vx := F32.mul (F32.add va.x fa.x) (F32.fin (1 / 2))
  let vy := F32.mul (F32.add va.y fa.y) (F32.fin (1 / 2))
  let rx := bounce world_size.x (F32.add pa.x vx) vx
  let ry := bounce world_size.y (F32.add pa.y vy) vy
  Function.update gs a
    { gs a with
      positions := (gs a).positions.set i ⟨rx.1, ry.1⟩
      velocities := (gs a).velocities.set i ⟨rx.2, ry.2⟩ }

/-- Embedding of `update_particle_rule(&groups[a], &groups[b], gravity)`. -/
def update_particle_rule (sqrtf : F32 → F32) (gs : Groups) (a b : Fin NUM_GROUPS)
    (gravity : F32) : Groups :=
  (List.range (gs a).count.toNat).foldl (fun s i => update_particle sqrtf s a b gravity i) gs

/-- The groups after the first `n` iterations of the outer loop. -/
def rule_upto (sqrtf : F32 → F32) (gs : Groups) (a b : Fin NUM_GROUPS) (gravity : F32)
    (n : Nat) : Groups :=
  (List.range n).foldl (fun s i => update_particle sqrtf s a b gravity i) gs

/-- The raw force `fa` accumulated for particle `i` of group `a` during a call. -/
def raw_force (sqrtf : F32 → F32) (gs : Groups) (a b : Fin NUM_GROUPS) (gravity : F32)
    (i : Nat) : FPoint :=
  accumulate_force sqrtf gravity ((gs a).positions.getD i ⟨F32.fin 0, F32.fin 0⟩)
    (rule_upto sqrtf gs a b gravity i b)

/-- The velocity `v' = (v + fa) * 0.5f` of particle `i` before the boundary
statements of the same iteration. -/
def damped (sqrtf : F32 → F32) (gs : Groups) (a b : Fin NUM_GROUPS) (gravity : F32)
    (i : Nat) : FPoint :=
  ⟨F32.mul (F32.add ((gs a).velocities.getD i ⟨F32.fin 0, F32.fin 0⟩).x
      (raw_force sqrtf gs a b gravity i).x) (F32.fin (1 / 2)),
   F32.mul (F32.add ((gs a).velocities.getD i ⟨F32.fin 0, F32.fin 0⟩).y
      (raw_force sqrtf gs a b gravity i).y) (F32.fin (1 / 2))⟩

/-- The integrated position `pos + v'` of particle `i`, as the code computes
it before the boundary tests. -/
def integrated (sqrtf : F32 → F32) (gs : Groups) (a b : Fin NUM_GROUPS) (gravity : F32)
    (i : Nat) : FPoint :=
  ⟨F32.add ((gs a).positions.getD i ⟨F32.fin 0, F32.fin 0⟩).x (damped sqrtf gs a b gravity i).x,
   F32.add ((gs a).positions.getD i ⟨F32.fin 0, F32.fin 0⟩).y (damped sqrtf gs a b gravity i).y⟩

/-- The distance `d` that `force_step` computes for a pair of positions. -/
def distance (sqrtf : F32 → F32) (pa pb : FPoint) : F32 :=
  sqrtf (F32.add (F32.mul (F32.sub pa.x pb.x) (F32.sub pa.x pb.x))
    (F32.mul (F32.sub pa.y pb.y) (F32.sub pa.y pb.y)))

/-- The exact squared Euclidean distance of the points `(px, py)` and
`(qx, qy)`, given by their finite coordinates. -/
def dist_sq (px py qx qy : ℚ) : ℚ := (px - qx) * (px - qx) + (py - qy) * (py - qy)

/-- A group of one particle at `p` with velocity `v`. -/
def particle (name : String) (p v : FPoint) : group :=
  ⟨name, ⟨255, 255, 255, 255⟩, [p], [v], fun _ => F32.fin 0, 1, F32.fin 1⟩

/-- A RED particle at rest at `(10, 10)`; every other group is one particle at
rest at `(9.5, 10)`, at distance 0.5 on the same horizontal line. -/
def near_groups : Groups := fun k =>
  if k = 0 then particle "RED" ⟨F32.fin 10, F32.fin 10⟩ ⟨F32.fin 0, F32.fin 0⟩
  else particle "GREEN" ⟨F32.fin (19 / 2), F32.fin 10⟩ ⟨F32.fin 0, F32.fin 0⟩

/-- A RED particle at rest at `(104, 100)`; every other group is one particle
at rest at `(100, 100)`, at distance 4. -/
def pair_groups : Groups := fun k =>
  if k = 0 then particle "RED" ⟨F32.fin 104, F32.fin 100⟩ ⟨F32.fin 0, F32.fin 0⟩
  else particle "GREEN" ⟨F32.fin 100, F32.fin 100⟩ ⟨F32.fin 0, F32.fin 0⟩

/-- The largest binary32 number, `FLT_MAX = (2 ^ 24 - 1) * 2 ^ 104`. -/
def FLT_MAX : ℚ := 16777215 * 2 ^ 104

end Binary32

/-! ## Scheduler -/

theorem iterations_nonpos (step t : Int) (hs : 0 < step) (ht : t ≤ 0) :
    iterations step t = 0 := by
  unfold iterations
  have : (t + step - 1) / step ≤ 0 := by
    have h1 : t + step - 1 < step := by omega
    have := Int.ediv_lt_of_lt_mul hs (by simpa using h1 : t + step - 1 < 1 * step)
    omega
  omega

theorem iterations_pos (step t : Int) (hs : 0 < step) (ht : 0 < t) :
    iterations step t = iterations step (t - step) + 1 := by
  unfold iterations
  have h1 : t + step - 1 = (t - step + step - 1) + 1 * step := by ring
  rw [h1, Int.add_mul_ediv_right _ _ (ne_of_gt hs)]
  have h2 : 0 ≤ (t - step + step - 1) / step := by
    apply Int.ediv_nonneg <;> omega
  omega

theorem iterations_mul_le (step t : Int) (hs : 0 < step) (ht : 0 < t) :
    ((iterations step t : Int) - 1) * step ≤ t - 1 := by
  unfold iterations
  have h0 : 0 ≤ (t + step - 1) / step := Int.ediv_nonneg (by omega) (le_of_lt hs)
  have h1 : (t + step - 1) / step * step ≤ t + step - 1 := Int.ediv_mul_le _ (ne_of_gt hs)
  rw [Int.toNat_of_nonneg h0]
  linarith

theorem iterations_bound (step t : Int) (hs : 0 < step) (ht : t ≤ 100) :
    (iterations step t : Int) ≤ ⌈(100 : ℚ) / step⌉ := by
  have hsq : (0 : ℚ) < step := by exact_mod_cast hs
  by_cases h : 0 < t
  · have h1 := iterations_mul_le step t hs h
    have h2 : ((iterations step t : Int) - 1 : Int) < ⌈(100 : ℚ) / step⌉ := by
      rw [Int.lt_ceil, lt_div_iff₀ hsq]
      have : ((iterations step t : Int) - 1) * step < 100 := by omega
      exact_mod_cast this
    omega
  · rw [iterations_nonpos step t hs (not_lt.mp h)]
    have : (0 : ℚ) ≤ 100 / step := by positivity
    exact_mod_cast Int.ceil_nonneg this

theorem iterations_le_seven (step t : Int) (hs : 16 ≤ step) (ht : t ≤ 100) :
    iterations step t ≤ 7 := by
  by_cases h : 0 < t
  · have h1 := iterations_mul_le step t (by omega) h
    by_contra hc
    have h2 : (7 : Int) ≤ (iterations step t : Int) - 1 := by omega
    have h3 : 7 * step ≤ ((iterations step t : Int) - 1) * step :=
      Int.mul_le_mul_of_nonneg_right h2 (by omega)
    omega
  · rw [iterations_nonpos step t (by omega) (not_lt.mp h)]
    omega

theorem trunc_to_int_bounds (q : ℚ) (hlo : 16 ≤ q) (hhi : q ≤ 480) :
    16 ≤ trunc_to_int q ∧ trunc_to_int q ≤ 480 := by
  have h0 : (0 : ℚ) ≤ q := by linarith
  unfold trunc_to_int
  rw [if_pos h0]
  constructor
  · exact Int.le_floor.mpr (by exact_mod_cast hlo)
  · have : (⌊q⌋ : ℚ) ≤ 480 := le_trans (Int.floor_le q) hhi
    exact_mod_cast this

theorem trunc_to_int_33 : trunc_to_int 33 = 33 := by decide

theorem drain_body_le (step t : Int) : drain_body step t ≤ 100 := by
  unfold drain_body
  simp only []
  split <;> omega

theorem drain_nonpos {σ : Type} (tick : σ → σ) (step : Int) (fuel : Nat) (t : Int) (s : σ)
    (ht : t ≤ 0) : drain tick step fuel t s = some (t, s) := by
  cases fuel <;> simp [drain, not_lt.mpr ht]

theorem drain_small {σ : Type} (tick : σ → σ) (step : Int) (hs : 0 < step) :
    ∀ (fuel : Nat) (t : Int) (s : σ), t ≤ 100 → t ≤ fuel * step →
      drain tick step fuel t s
        = some (t - iterations step t * step, tick^[iterations step t] s) := by
  intro fuel
  induction fuel with
  | zero =>
    intro t s _ h2
    have ht : t ≤ 0 := by simpa using h2
    simp [drain, iterations_nonpos step t hs ht, not_lt.mpr ht]
  | succ k ih =>
    intro t s h1 h2
    by_cases ht : 0 < t
    · have hb : drain_body step t = t - step := by
        unfold drain_body
        simp only []
        rw [if_neg]; omega
      have h3 : t - step ≤ k * step := by
        push_cast at h2; linarith
      rw [drain, if_pos ht, hb, ih (t - step) (tick s) (by omega) h3,
        iterations_pos step t hs ht]
      simp only [Function.iterate_succ, Function.comp, Nat.cast_add, Nat.cast_one]
      congr 2
      ring
    · have ht2 : t ≤ 0 := not_lt.mp ht
      simp [drain, iterations_nonpos step t hs ht2, ht]

theorem drain_total {σ : Type} (tick : σ → σ) (step : Int) (hs : 16 ≤ step) (t : Int) (s : σ)
    (fuel : Nat) (hf : 8 ≤ fuel) :
    drain tick step fuel t s = some (frame_rest step t, tick^[frame_ticks step t] s) := by
  obtain ⟨k, rfl⟩ : ∃ k, fuel = k + 1 := ⟨fuel - 1, by omega⟩
  unfold frame_rest frame_ticks
  by_cases ht : 0 < t
  · have hb := drain_body_le step t
    have hk : drain_body step t ≤ k * step := by
      have : (7 : Int) ≤ k := by omega
      have := Int.mul_le_mul_of_nonneg_right this (by omega : (0 : Int) ≤ step)
      omega
    rw [drain, if_pos ht, drain_small tick step (by omega) k _ _ hb hk, if_pos ht, if_pos ht]
    simp [Function.iterate_succ]
  · simp [drain, ht]

theorem drain_exit_nonpos {σ : Type} (tick : σ → σ) (step : Int) :
    ∀ (fuel : Nat) (t : Int) (s : σ) (r : Int) (s2 : σ),
      drain tick step fuel t s = some (r, s2) → r ≤ 0 := by
  intro fuel
  induction fuel with
  | zero =>
    intro t s r s2 h
    by_cases ht : t > 0
    · simp [drain, ht] at h
    · simp only [drain, if_neg ht, Option.some.injEq, Prod.mk.injEq] at h
      omega
  | succ k ih =>
    intro t s r s2 h
    by_cases ht : t > 0
    · rw [drain, if_pos ht] at h
      exact ih _ _ _ _ h
    · simp only [drain, if_neg ht, Option.some.injEq, Prod.mk.injEq] at h
      omega

/-- C2: for every accumulator value `ticks`, every wall-clock `delta` (negative
ones included) and every `update_interval_ms` in `[16, 480]`, truncated to the
integer step, the drain loop of one frame terminates: with any fuel of at
least 8 iterations it returns, and it has applied the simulation tick exactly
`n` times, where `n ≤ 1 + ceil (100 / step)` and `n ≤ 8`. The count `n` and
the accumulator `r` left behind are the same for every frame with the same
`ticks + delta` and the same truncated step, whatever the simulation state. -/
theorem frame_terminates_bounded (ticks delta : Int) (update_interval_ms : ℚ)
    (hlo : 16 ≤ update_interval_ms) (hhi : update_interval_ms ≤ 480) :
    ∃ (n : Nat) (r : Int),
      (∀ (σ : Type) (tick : σ → σ) (s : σ) (fuel : Nat), 8 ≤ fuel →
        frame tick update_interval_ms fuel ticks delta s = some (r, tick^[n] s)) ∧
      (n : Int) ≤ 1 + ⌈(100 : ℚ) / (trunc_to_int update_interval_ms)⌉ ∧
      n ≤ 8 ∧
      (∀ (ticks2 delta2 : Int) (interval2 : ℚ),
        ticks2 + delta2 = ticks + delta →
        trunc_to_int interval2 = trunc_to_int update_interval_ms →
        ∀ (σ : Type) (tick : σ → σ) (s : σ) (fuel : Nat), 8 ≤ fuel →
          frame tick interval2 fuel ticks2 delta2 s = some (r, tick^[n] s)) := by
  obtain ⟨h16, _⟩ := trunc_to_int_bounds update_interval_ms hlo hhi
  refine ⟨frame_ticks (trunc_to_int update_interval_ms) (ticks + delta),
    frame_rest (trunc_to_int update_interval_ms) (ticks + delta), ?_, ?_, ?_, ?_⟩
  · intro σ tick s fuel hf
    exact drain_total tick _ h16 _ s fuel hf
  · unfold frame_ticks
    split
    · have := iterations_bound (trunc_to_int update_interval_ms) _ (by omega)
        (drain_body_le (trunc_to_int update_interval_ms) (ticks + delta))
      push_cast
      omega
    · have h0 : (0 : ℚ) ≤ 100 / (trunc_to_int update_interval_ms : ℚ) := by
        have : (0 : ℚ) < (trunc_to_int update_interval_ms : ℚ) := by
          exact_mod_cast (by omega : 0 < trunc_to_int update_interval_ms)
        positivity
      have := Int.ceil_nonneg h0
      push_cast
      omega
  · unfold frame_ticks
    split
    · have := iterations_le_seven (trunc_to_int update_interval_ms) _ h16
        (drain_body_le (trunc_to_int update_interval_ms) (ticks + delta))
      omega
    · omega
  · intro ticks2 delta2 interval2 he hi σ tick s fuel hf
    unfold frame
    rw [he, hi]
    exact drain_total tick _ h16 _ s fuel hf

/-- Witness of C2 at accumulator 0, delta 1000 ms and the default interval of 33 ms. -/
theorem frame_terminates_bounded_witness :
    ∃ (n : Nat) (r : Int),
      (∀ (σ : Type) (tick : σ → σ) (s : σ) (fuel : Nat), 8 ≤ fuel →
        frame tick 33 fuel 0 1000 s = some (r, tick^[n] s)) ∧
      (n : Int) ≤ 1 + ⌈(100 : ℚ) / (trunc_to_int 33)⌉ ∧
      n ≤ 8 ∧
      (∀ (ticks2 delta2 : Int) (interval2 : ℚ),
        ticks2 + delta2 = 0 + 1000 →
        trunc_to_int interval2 = trunc_to_int 33 →
        ∀ (σ : Type) (tick : σ → σ) (s : σ) (fuel : Nat), 8 ≤ fuel →
          frame tick interval2 fuel ticks2 delta2 s = some (r, tick^[n] s)) :=
  frame_terminates_bounded 0 1000 33 (by norm_num) (by norm_num)

/-- C3 as stated fails: from accumulator 0 with step 33 and delta 1000 the cap
fires after the first tick (967 becomes 100), yet the frame runs 5 ticks and
ends with accumulator -32; no amount of fuel makes the frame leave its tick
loop with a positive accumulator, so it is the test `ticks > 0`, never the cap,
that ends the loop. -/
theorem catch_up_loop_not_ended_by_cap :
    drain_body (trunc_to_int 33) (0 + 1000) = 100 ∧
    frame Nat.succ 33 8 0 1000 0 = some (-32, 5) ∧
    frame Nat.succ 33 8 0 1000 0 ≠ some (100, 1) ∧
    ¬ ∃ (fuel : Nat) (r : Int) (n : Nat),
      frame Nat.succ 33 fuel 0 1000 0 = some (r, n) ∧ 0 < r := by
  refine ⟨by decide, by decide, by decide, ?_⟩
  rintro ⟨fuel, r, n, h, hr⟩
  have := drain_exit_nonpos _ _ _ _ _ _ _ h
  omega

/-- C3 amended: from accumulator 0 with step 33 and delta 1000 the first tick
leaves 967, which the cap replaces by 100; the loop goes on while the
accumulator is positive (100, 67, 34, 1) and ends by the test `ticks > 0`
after exactly 5 ticks with accumulator -32. -/
theorem catch_up_runs_five_ticks :
    (∀ (σ : Type) (tick : σ → σ) (s : σ) (fuel : Nat), 5 ≤ fuel →
      frame tick 33 fuel 0 1000 s = some (-32, tick^[5] s)) ∧
    (∀ (σ : Type) (tick : σ → σ) (s : σ) (fuel : Nat), fuel < 5 →
      frame tick 33 fuel 0 1000 s = none) ∧
    0 + 1000 - trunc_to_int 33 = 967 ∧
    drain_body (trunc_to_int 33) (0 + 1000) = 100 ∧
    drain_body (trunc_to_int 33) 100 = 67 ∧
    drain_body (trunc_to_int 33) 67 = 34 ∧
    drain_body (trunc_to_int 33) 34 = 1 ∧
    drain_body (trunc_to_int 33) 1 = -32 := by
  refine ⟨?_, ?_, by decide, by decide, by decide, by decide, by decide, by decide⟩
  · intro σ tick s fuel hf
    obtain ⟨k, rfl⟩ : ∃ k, fuel = k + 5 := ⟨fuel - 5, by omega⟩
    simp [frame, drain, drain_body, trunc_to_int_33, drain_nonpos]
  · intro σ tick s fuel hf
    interval_cases fuel <;> simp [frame, drain, drain_body, trunc_to_int_33]

/-! ## Force model and integration -/

theorem update_particle_other (sqrtf : ℚ → ℚ) (gs : Groups) (a b c : Fin NUM_GROUPS)
    (gravity : ℚ) (i : Nat) (h : c ≠ a) : update_particle sqrtf gs a b gravity i c = gs c := by
  simp [update_particle, Function.update_noteq h]

theorem getD_set_ne (l : List FPoint) (i k : Nat) (p d : FPoint) (h : k ≠ i) :
    (l.set i p).getD k d = l.getD k d := by
  simp [List.getD_eq_getElem?_getD, List.getElem?_set_ne (Ne.symm h)]

theorem getD_set_eq (l : List FPoint) (i : Nat) (p d : FPoint) (h : i < l.length) :
    (l.set i p).getD i d = p := by
  simp [List.getD_eq_getElem?_getD, List.getElem?_set_self, h]

theorem rule_upto_succ (sqrtf : ℚ → ℚ) (gs : Groups) (a b : Fin NUM_GROUPS) (gravity : ℚ)
    (n : Nat) :
    rule_upto sqrtf gs a b gravity (n + 1)
      = update_particle sqrtf (rule_upto sqrtf gs a b gravity n) a b gravity n := by
  simp [rule_upto, List.range_succ, List.foldl_append]

theorem rule_upto_other (sqrtf : ℚ → ℚ) (gs : Groups) (a b c : Fin NUM_GROUPS) (gravity : ℚ)
    (h : c ≠ a) (n : Nat) : rule_upto sqrtf gs a b gravity n c = gs c := by
  induction n with
  | zero => simp [rule_upto]
  | succ k ih => rw [rule_upto_succ, update_particle_other _ _ _ _ _ _ _ h, ih]

theorem realloc_length (p : List FPoint) (n : Nat) : (realloc p n).length = n := by
  simp only [realloc, List.length_append, List.length_take, List.length_replicate]
  omega

theorem spawn_upto_succ (RAND_MAX : Nat) (rand : Nat → Nat) (g : group) (k n : Nat) :
    spawn_upto RAND_MAX rand g k (n + 1)
      = spawn_body RAND_MAX rand (spawn_upto RAND_MAX rand g k n) n := by
  simp [spawn_upto, List.range_succ, List.foldl_append]

theorem spawn_upto_spec (RAND_MAX : Nat) (rand : Nat → Nat) (g : group) (k : Nat) :
    ∀ n, n ≤ (trunc_to_int g.spawn).toNat →
      (spawn_upto RAND_MAX rand g k n).2 = k + 2 * n ∧
      (spawn_upto RAND_MAX rand g k n).1.count = trunc_to_int g.spawn ∧
      (spawn_upto RAND_MAX rand g k n).1.spawn = g.spawn ∧
      (spawn_upto RAND_MAX rand g k n).1.gravity = g.gravity ∧
      (spawn_upto RAND_MAX rand g k n).1.name = g.name ∧
      (spawn_upto RAND_MAX rand g k n).1.color = g.color ∧
      (spawn_upto RAND_MAX rand g k n).1.positions.length = (trunc_to_int g.spawn).toNat ∧
      (spawn_upto RAND_MAX rand g k n).1.velocities.length = (trunc_to_int g.spawn).toNat ∧
      ∀ j, j < n →
        (spawn_upto RAND_MAX rand g k n).1.positions.getD j ⟨0, 0⟩
          = ⟨(rand (k + 2 * j) : ℚ) / (RAND_MAX : ℚ) * world_size.x,
             (rand (k + 2 * j + 1) : ℚ) / (RAND_MAX : ℚ) * world_size.y⟩ ∧
        (spawn_upto RAND_MAX rand g k n).1.velocities.getD j ⟨0, 0⟩ = ⟨0, 0⟩ := by
  intro n
  induction n with
  | zero =>
    intro _
    simp [spawn_upto, spawn_alloc, realloc_length]
  | succ m ih =>
    intro h
    obtain ⟨i1, i2, i3, i4, i5, i6, i7, i8, i9⟩ := ih (by omega)
    rw [spawn_upto_succ]
    refine ⟨?_, i2, i3, i4, i5, i6, ?_, ?_, ?_⟩
    · simp only [spawn_body, i1]; omega
    · simp only [spawn_body, List.length_set, i7]
    · simp only [spawn_body, List.length_set, i8]
    · intro j hj
      by_cases hjm : j = m
      · subst hjm
        simp only [spawn_body]
        rw [getD_set_eq _ _ _ _ (by omega), getD_set_eq _ _ _ _ (by omega), i1]
        exact ⟨rfl, rfl⟩
      · simp only [spawn_body]
        rw [getD_set_ne _ _ _ _ _ hjm, getD_set_ne _ _ _ _ _ hjm]
        exact i9 j (by omega)

theorem spawn_group_eq_upto (RAND_MAX : Nat) (rand : Nat → Nat) (g : group) (k : Nat) :
    spawn_group RAND_MAX rand g k
      = spawn_upto RAND_MAX rand g k (trunc_to_int g.spawn).toNat := rfl

theorem spawn_group_spec (RAND_MAX : Nat) (rand : Nat → Nat) (g : group) (k : Nat) :
    (spawn_group RAND_MAX rand g k).2 = k + 2 * (trunc_to_int g.spawn).toNat ∧
    (spawn_group RAND_MAX rand g k).1.count = trunc_to_int g.spawn ∧
    (spawn_group RAND_MAX rand g k).1.spawn = g.spawn ∧
    (spawn_group RAND_MAX rand g k).1.gravity = g.gravity ∧
    (spawn_group RAND_MAX rand g k).1.name = g.name ∧
    (spawn_group RAND_MAX rand g k).1.color = g.color ∧
    (spawn_group RAND_MAX rand g k).1.positions.length = (trunc_to_int g.spawn).toNat ∧
    (spawn_group RAND_MAX rand g k).1.velocities.length = (trunc_to_int g.spawn).toNat ∧
    ∀ j, j < (trunc_to_int g.spawn).toNat →
      (spawn_group RAND_MAX rand g k).1.positions.getD j ⟨0, 0⟩
        = ⟨(rand (k + 2 * j) : ℚ) / (RAND_MAX : ℚ) * world_size.x,
           (rand (k + 2 * j + 1) : ℚ) / (RAND_MAX : ℚ) * world_size.y⟩ ∧
      (spawn_group RAND_MAX rand g k).1.velocities.getD j ⟨0, 0⟩ = ⟨0, 0⟩ := by
  rw [spawn_group_eq_upto]
  exact spawn_upto_spec RAND_MAX rand g k _ (le_refl _)

theorem spawn_step_groups (RAND_MAX : Nat) (rand : Nat → Nat) (w : World)
    (j i : Fin NUM_GROUPS) :
    (i = j → respawned (w.groups i) ((spawn_step RAND_MAX rand w j).groups i)) ∧
    (i ≠ j → (spawn_step RAND_MAX rand w j).groups i = w.groups i) := by
  constructor
  · intro h
    subst h
    obtain ⟨-, s2, s3, s4, s5, s6, s7, s8, -⟩ :=
      spawn_group_spec RAND_MAX rand (w.groups i) w.rand_calls
    simp only [spawn_step, Function.update_same]
    exact ⟨s3, s4, s5, s6, s2, s7, s8⟩
  · intro h
    simp only [spawn_step, Function.update_noteq h]

theorem spawn_fold_groups (RAND_MAX : Nat) (rand : Nat → Nat) (i : Fin NUM_GROUPS) :
    ∀ (l : List (Fin NUM_GROUPS)) (w : World),
      (i ∈ l → respawned (w.groups i) ((l.foldl (spawn_step RAND_MAX rand) w).groups i)) ∧
      (i ∉ l → (l.foldl (spawn_step RAND_MAX rand) w).groups i = w.groups i) := by
  intro l
  induction l with
  | nil => intro w; simp
  | cons j t ih =>
    intro w
    obtain ⟨ih1, ih2⟩ := ih (spawn_step RAND_MAX rand w j)
    obtain ⟨s1, s2⟩ := spawn_step_groups RAND_MAX rand w j i
    rw [List.foldl_cons]
    constructor
    · intro hmem
      by_cases hit : i ∈ t
      · obtain ⟨r1, r2, r3, r4, r5, r6, r7⟩ := ih1 hit
        by_cases hij : i = j
        · obtain ⟨q1, q2, q3, q4, -, -, -⟩ := s1 hij
          rw [q1] at r1 r5 r6 r7
          exact ⟨r1, r2.trans q2, r3.trans q3, r4.trans q4, r5, r6, r7⟩
        · rw [s2 hij] at r1 r2 r3 r4 r5 r6 r7
          exact ⟨r1, r2, r3, r4, r5, r6, r7⟩
      · rw [ih2 hit]
        have hij : i = j := by
          rcases List.mem_cons.mp hmem with h | h
          · exact h
          · exact absurd h hit
        exact s1 hij
    · intro hmem
      have hit : i ∉ t := fun h => hmem (List.mem_cons_of_mem _ h)
      have hij : i ≠ j := fun h => hmem (by rw [h]; exact List.mem_cons_self _ _)
      rw [ih2 hit, s2 hij]

theorem spawn_fields (RAND_MAX : Nat) (rand : Nat → Nat) (w : World) (i : Fin NUM_GROUPS) :
    respawned (w.groups i) ((spawn RAND_MAX rand w).groups i) :=
  (spawn_fold_groups RAND_MAX rand i (List.finRange NUM_GROUPS) w).1 (List.mem_finRange i)

/-! ## The `%f` conversions: printing then scanning -/

theorem digit_char_spec : ∀ d, d < 10 →
    is_digit (digit_char d) = true ∧ digit_val (digit_char d) = d ∧
    digit_char d ≠ '-' ∧ digit_char d ≠ '+' ∧ is_space (digit_char d) = false := by
  decide


theorem scan_digits_append (xs : List Char) (hx : ∀ c ∈ xs, is_digit c = true) :
    ∀ (ys : List Char) (acc n : Nat),
      scan_digits (xs ++ ys) acc n = scan_digits ys (digits_value xs acc) (n + xs.length) := by
  induction xs with
  | nil => intro ys acc n; simp [digits_value]
  | cons c t ih =>
    intro ys acc n
    have hc : is_digit c = true := hx c (List.mem_cons_self c t)
    have ht : ∀ c ∈ t, is_digit c = true := fun c hc => hx c (List.mem_cons_of_mem _ hc)
    rw [List.cons_append, scan_digits, if_pos hc, ih ht]
    simp only [digits_value, List.foldl_cons, List.length_cons]
    congr 1
    omega

theorem scan_digits_stop (ys : List Char) (acc n : Nat)
    (h : ys = [] ∨ ∃ c t, ys = c :: t ∧ is_digit c = false) :
    scan_digits ys acc n = (acc, n, ys) := by
  rcases h with h | ⟨c, t, h, hc⟩
  · subst h; rfl
  · subst h
    rw [scan_digits, if_neg (by simp [hc])]

theorem fixed_digits_spec : ∀ (w n : Nat),
    (∀ c ∈ fixed_digits w n, is_digit c = true) ∧ (fixed_digits w n).length = w ∧
    ∀ acc, digits_value (fixed_digits w n) acc = acc * 10 ^ w + n % 10 ^ w := by
  intro w
  induction w with
  | zero => intro n; simp [fixed_digits, digits_value, Nat.mod_one]
  | succ k ih =>
    intro n
    obtain ⟨h1, h2, h3⟩ := ih (n / 10)
    obtain ⟨d1, d2, -⟩ := digit_char_spec (n % 10) (Nat.mod_lt _ (by decide))
    refine ⟨?_, ?_, ?_⟩
    · intro c hc
      simp only [fixed_digits, List.mem_append, List.mem_singleton] at hc
      rcases hc with hc | hc
      · exact h1 c hc
      · rw [hc]; exact d1
    · simp [fixed_digits, h2]
    · intro acc
      have h3a := h3 acc
      simp only [digits_value] at h3a
      simp only [fixed_digits, digits_value, List.foldl_append, List.foldl_cons, List.foldl_nil,
        h3a, d2]
      have e : n % 10 ^ (k + 1) = (n / 10) % 10 ^ k * 10 + n % 10 := by
        rw [pow_succ, mul_comm (10 ^ k) 10, Nat.mod_mul, Nat.add_comm, Nat.mul_comm]
      rw [e, pow_succ]
      ring

theorem nat_chars_aux_spec : ∀ (f n : Nat), n < f →
    (∀ c ∈ nat_chars_aux f n, is_digit c = true) ∧ nat_chars_aux f n ≠ [] ∧
    digits_value (nat_chars_aux f n) 0 = n := by
  intro f
  induction f with
  | zero => intro n h; omega
  | succ k ih =>
    intro n h
    by_cases hn : n < 10
    · obtain ⟨d1, d2, -⟩ := digit_char_spec n hn
      simp [nat_chars_aux, hn, d1, d2, digits_value]
    · obtain ⟨h1, h2, h3⟩ := ih (n / 10) (by omega)
      obtain ⟨d1, d2, -⟩ := digit_char_spec (n % 10) (Nat.mod_lt _ (by decide))
      simp only [digits_value] at h3
      refine ⟨?_, ?_, ?_⟩
      · intro c hc
        simp only [nat_chars_aux, if_neg hn, List.mem_append, List.mem_singleton] at hc
        rcases hc with hc | hc
        · exact h1 c hc
        · rw [hc]; exact d1
      · simp [nat_chars_aux, hn]
      · simp only [nat_chars_aux, if_neg hn, digits_value, List.foldl_append, List.foldl_cons,
          List.foldl_nil, h3, d2]
        omega

theorem nat_chars_spec (n : Nat) :
    (∀ c ∈ nat_chars n, is_digit c = true) ∧ nat_chars n ≠ [] ∧
    digits_value (nat_chars n) 0 = n :=
  nat_chars_aux_spec (n + 1) n (Nat.lt_succ_self n)

theorem is_digit_not_sign (c : Char) (h : is_digit c = true) :
    c ≠ '-' ∧ c ≠ '+' ∧ is_space c = false := by
  simp only [is_digit, decide_eq_true_eq] at h
  refine ⟨?_, ?_, ?_⟩
  · rintro rfl; revert h; decide
  · rintro rfl; revert h; decide
  · by_contra hs
    simp only [Bool.not_eq_false, is_space, Bool.or_eq_true, decide_eq_true_eq] at hs
    rcases hs with ((((rfl | rfl) | rfl) | rfl) | rfl) | rfl <;> revert h <;> decide

theorem micro_split (q : ℚ) :
    ((micro q / 1000000 : Nat) : ℚ) + ((micro q % 1000000 : Nat) : ℚ) / 1000000
      = (micro q : ℚ) / 1000000 := by
  have h := Nat.div_add_mod (micro q) 1000000
  have h2 : (micro q : ℚ) = 1000000 * ((micro q / 1000000 : Nat) : ℚ)
      + ((micro q % 1000000 : Nat) : ℚ) := by exact_mod_cast h.symm
  rw [eq_div_iff (by norm_num : (1000000 : ℚ) ≠ 0), h2]
  ring

theorem scan_magnitude_format (q : ℚ) (rest : List Char)
    (hrest : rest = [] ∨ ∃ t, rest = ' ' :: t) :
    scan_magnitude (nat_chars (micro q / 1000000)
        ++ '.' :: fixed_digits 6 (micro q % 1000000) ++ rest)
      = some ((micro q : ℚ) / 1000000, rest) := by
  obtain ⟨n1, -, n3⟩ := nat_chars_spec (micro q / 1000000)
  obtain ⟨f1, f2, f3⟩ := fixed_digits_spec 6 (micro q % 1000000)
  have hstop : rest = [] ∨ ∃ c t, rest = c :: t ∧ is_digit c = false := by
    rcases hrest with h | ⟨t, h⟩
    · exact Or.inl h
    · exact Or.inr ⟨' ', t, h, by decide⟩
  have hexp : scan_exponent rest = (0, rest) := by
    rcases hrest with h | ⟨t, h⟩
    · subst h; rfl
    · subst h; simp [scan_exponent]
  have e1 : scan_digits (nat_chars (micro q / 1000000)
      ++ '.' :: fixed_digits 6 (micro q % 1000000) ++ rest) 0 0
      = (micro q / 1000000, 0 + (nat_chars (micro q / 1000000)).length,
          '.' :: fixed_digits 6 (micro q % 1000000) ++ rest) := by
    rw [List.append_assoc, scan_digits_append _ n1, n3]
    exact scan_digits_stop _ _ _ (Or.inr ⟨'.', _, rfl, by decide⟩)
  have e2 : scan_fraction ('.' :: fixed_digits 6 (micro q % 1000000) ++ rest)
      = (micro q % 1000000, 6, rest) := by
    simp only [scan_fraction, List.cons_append, if_true]
    rw [scan_digits_append _ f1, f3, f2, scan_digits_stop _ _ _ hstop]
    have : micro q % 1000000 % 10 ^ 6 = micro q % 1000000 := by
      norm_num
    simp [this]
  unfold scan_magnitude
  simp only [e1, e2, hexp]
  rw [if_neg (by omega)]
  have hm := micro_split q
  simp only [zpow_zero, mul_one]
  have h6 : ((10 : ℚ) ^ 6) = 1000000 := by norm_num
  rw [h6, hm]

theorem scan_float_format (q : ℚ) (rest : List Char)
    (hrest : rest = [] ∨ ∃ t, rest = ' ' :: t) :
    scan_float (format_f q ++ rest) = some (round6 q, rest) := by
  obtain ⟨n1, n2, -⟩ := nat_chars_spec (micro q / 1000000)
  obtain ⟨c, t, hN⟩ : ∃ c t, nat_chars (micro q / 1000000) = c :: t := by
    cases h : nat_chars (micro q / 1000000) with
    | nil => exact absurd h n2
    | cons c t => exact ⟨c, t, rfl⟩
  have hc : is_digit c = true := n1 c (by rw [hN]; exact List.mem_cons_self c t)
  obtain ⟨c1, c2, c3⟩ := is_digit_not_sign c hc
  have hmag := scan_magnitude_format q rest hrest
  unfold scan_float
  by_cases hq : q < 0
  · have hl : format_f q ++ rest = '-' :: (nat_chars (micro q / 1000000)
        ++ '.' :: fixed_digits 6 (micro q % 1000000) ++ rest) := by
      simp [format_f, hq]
    have hs : scan_sign (skip_spaces (format_f q ++ rest))
        = (true, nat_chars (micro q / 1000000)
            ++ '.' :: fixed_digits 6 (micro q % 1000000) ++ rest) := by
      rw [hl]
      simp [skip_spaces, scan_sign, is_space]
    simp only [hs, hmag]
    simp [round6, hq]
  · have hl : format_f q ++ rest
        = c :: (t ++ '.' :: fixed_digits 6 (micro q % 1000000) ++ rest) := by
      simp [format_f, hq, hN]
    have hs : scan_sign (skip_spaces (format_f q ++ rest))
        = (false, nat_chars (micro q / 1000000)
            ++ '.' :: fixed_digits 6 (micro q % 1000000) ++ rest) := by
      rw [hl]
      simp [skip_spaces, scan_sign, c1, c2, c3, hN]
    simp only [hs, hmag]
    simp [round6, hq]

theorem scan_float_space (cs : List Char) : scan_float (' ' :: cs) = scan_float cs := by
  simp [scan_float, skip_spaces, is_space]

theorem sscanf_floats_space (n : Nat) (cs : List Char) :
    sscanf_floats n (' ' :: cs) = sscanf_floats n cs := by
  cases n with
  | zero => rfl
  | succ m => simp only [sscanf_floats, scan_float_space]

theorem sscanf_floats_nil (n : Nat) : sscanf_floats n [] = [] := by
  cases n with
  | zero => rfl
  | succ m => rfl

theorem sscanf_floats_join : ∀ (vs : List ℚ) (n : Nat), vs.length ≤ n →
    sscanf_floats n (join_spaces (vs.map format_f)) = vs.map round6 := by
  intro vs
  induction vs with
  | nil => intro n _; simp [join_spaces, sscanf_floats_nil]
  | cons x t ih =>
    intro n hn
    obtain ⟨m, rfl⟩ : ∃ m, n = m + 1 := ⟨n - 1, by simp at hn; omega⟩
    cases t with
    | nil =>
      have h := scan_float_format x [] (Or.inl rfl)
      rw [List.append_nil] at h
      simp [join_spaces, sscanf_floats, h, sscanf_floats_nil]
    | cons y t2 =>
      have h := scan_float_format x (' ' :: join_spaces ((y :: t2).map format_f))
        (Or.inr ⟨_, rfl⟩)
      have ih2 := ih m (by simp at hn ⊢; omega)
      simp only [List.map_cons, join_spaces] at h ih2 ⊢
      simp only [sscanf_floats, h, sscanf_floats_space, ih2]

theorem round_half_even_close (x : ℚ) : |(round_half_even x : ℚ) - x| ≤ 1 / 2 := by
  have h1 := Int.floor_le x
  have h2 := Int.lt_floor_add_one x
  unfold round_half_even
  rw [abs_le]
  split_ifs with a b c
  · constructor <;> linarith
  · push_cast; constructor <;> linarith
  · constructor <;> linarith
  · push_cast; constructor <;> linarith

theorem round_half_even_nonneg (x : ℚ) (hx : 0 ≤ x) : 0 ≤ round_half_even x := by
  have h0 : 0 ≤ ⌊x⌋ := Int.floor_nonneg.mpr hx
  unfold round_half_even
  split_ifs <;> omega

theorem micro_cast (q : ℚ) : (micro q : ℚ) = (round_half_even (|q| * 1000000) : ℚ) := by
  have h := round_half_even_nonneg (|q| * 1000000) (by positivity)
  unfold micro
  exact_mod_cast congrArg (Int.cast : Int → ℚ) (Int.toNat_of_nonneg h)

theorem round6_close (q : ℚ) : |round6 q - q| ≤ 1 / 2000000 := by
  have h := round_half_even_close (|q| * 1000000)
  rw [← micro_cast, abs_le] at h
  unfold round6
  rw [abs_le]
  by_cases hq : q < 0
  · rw [if_pos hq]
    rw [abs_of_neg hq] at h
    constructor <;> linarith
  · rw [if_neg hq]
    rw [abs_of_nonneg (not_lt.mp hq)] at h
    constructor <;> linarith

theorem round_half_even_int (n : Int) : round_half_even (n : ℚ) = n := by
  unfold round_half_even
  simp

theorem nat_chars_aux_length : ∀ (f n k : Nat), n < 10 ^ (k + 1) →
    (nat_chars_aux f n).length ≤ k + 1 := by
  intro f
  induction f with
  | zero => intro n k _; simp [nat_chars_aux]
  | succ g ih =>
    intro n k h
    by_cases hn : n < 10
    · simp [nat_chars_aux, hn]
    · obtain ⟨j, rfl⟩ : ∃ j, k = j + 1 := by
        cases k with
        | zero => simp at h; omega
        | succ j => exact ⟨j, rfl⟩
      have h2 : n / 10 < 10 ^ (j + 1) := by
        rw [Nat.div_lt_iff_lt_mul (by decide)]
        rw [pow_succ] at h
        exact h
      have := ih (n / 10) j h2
      simp only [nat_chars_aux, if_neg hn, List.length_append, List.length_singleton]
      omega

theorem micro_le (q : ℚ) (B : Nat) (h : |q| ≤ B) : micro q ≤ B * 1000000 := by
  have h1 := round_half_even_close (|q| * 1000000)
  rw [← micro_cast, abs_le] at h1
  have h2 : (micro q : ℚ) ≤ (B : ℚ) * 1000000 + 1 / 2 := by linarith
  by_contra hc
  have h3 : B * 1000000 + 1 ≤ micro q := by omega
  have h4 : ((B * 1000000 + 1 : Nat) : ℚ) ≤ (micro q : ℚ) := by exact_mod_cast h3
  push_cast at h4
  linarith

theorem format_f_length (q : ℚ) (h : |q| ≤ 500) : (format_f q).length ≤ 11 := by
  have hm := micro_le q 500 (by exact_mod_cast h)
  have hd : micro q / 1000000 < 10 ^ (2 + 1) := by omega
  have h1 := nat_chars_aux_length (micro q / 1000000 + 1) (micro q / 1000000) 2 hd
  obtain ⟨-, f2, -⟩ := fixed_digits_spec 6 (micro q % 1000000)
  unfold format_f nat_chars
  simp only [List.length_append, List.length_cons, f2]
  split <;> simp <;> omega

theorem join_spaces_length : ∀ (l : List (List Char)), (∀ x ∈ l, x.length ≤ 11) →
    (join_spaces l).length ≤ 12 * l.length := by
  intro l
  induction l with
  | nil => intro _; simp [join_spaces]
  | cons x t ih =>
    intro h
    have hx := h x (List.mem_cons_self x t)
    have ht := ih (fun y hy => h y (List.mem_cons_of_mem _ hy))
    cases t with
    | nil => simp [join_spaces]; omega
    | cons y t2 =>
      simp only [join_spaces, List.length_append, List.length_cons] at ht ⊢
      omega

theorem format_f_ne_nil (q : ℚ) : format_f q ≠ [] := by
  simp [format_f]

theorem join_spaces_ne_nil (x : List Char) (t : List (List Char)) (hx : x ≠ []) :
    join_spaces (x :: t) ≠ [] := by
  cases t with
  | nil => simpa [join_spaces] using hx
  | cons y t2 => simp [join_spaces, hx]

/-! ## Clipboard export and import -/

theorem store_upto_succ (temp : Groups) (vals : List ℚ) (n : Nat) :
    (List.range (n + 1)).foldl (fun t k => store_arg t k (vals.getD k 0)) temp
      = store_arg ((List.range n).foldl (fun t k => store_arg t k (vals.getD k 0)) temp) n
          (vals.getD n 0) := by
  simp [List.range_succ, List.foldl_append]

theorem store_arg_spec (t : Groups) (n : Nat) (v : ℚ) (hn : n < 20) (i : Fin NUM_GROUPS) :
    (store_arg t n v i).spawn = (if 5 * i.val = n then v else (t i).spawn) ∧
    (∀ j : Fin NUM_GROUPS,
      (store_arg t n v i).gravity j
        = (if 5 * i.val + 1 + j.val = n then v else (t i).gravity j)) ∧
    (store_arg t n v i).name = (t i).name ∧
    (store_arg t n v i).color = (t i).color ∧
    (store_arg t n v i).count = (t i).count ∧
    (store_arg t n v i).positions = (t i).positions ∧
    (store_arg t n v i).velocities = (t i).velocities := by
  have hi : i.val < 4 := i.isLt
  unfold store_arg
  rw [dif_pos hn]
  by_cases h0 : n % 5 = 0
  · simp only [if_pos h0]
    by_cases hi5 : i = ⟨n / 5, by show n / 5 < 4; omega⟩
    · have hv : i.val = n / 5 := congrArg Fin.val hi5
      rw [← hi5, Function.update_same]
      refine ⟨?_, ?_, rfl, rfl, rfl, rfl, rfl⟩
      · rw [if_pos (by omega)]
      · intro j
        have hj : j.val < 4 := j.isLt
        rw [if_neg (by omega)]
    · have hv : i.val ≠ n / 5 := fun h => hi5 (Fin.ext h)
      rw [Function.update_noteq hi5]
      clear hi5
      refine ⟨?_, ?_, rfl, rfl, rfl, rfl, rfl⟩
      · rw [if_neg (by omega)]
      · intro j
        have hj : j.val < 4 := j.isLt
        rw [if_neg (by omega)]
  · simp only [if_neg h0]
    by_cases hi5 : i = ⟨n / 5, by show n / 5 < 4; omega⟩
    · have hv : i.val = n / 5 := congrArg Fin.val hi5
      rw [← hi5, Function.update_same]
      refine ⟨?_, ?_, rfl, rfl, rfl, rfl, rfl⟩
      · rw [if_neg (by omega)]
      · intro j
        have hj : j.val < 4 := j.isLt
        by_cases hj5 : j = ⟨n % 5 - 1, by show n % 5 - 1 < 4; omega⟩
        · have hjv : j.val = n % 5 - 1 := congrArg Fin.val hj5
          rw [← hj5]
          simp only [Function.update_same]
          rw [if_pos (by omega)]
        · have hjv : j.val ≠ n % 5 - 1 := fun h => hj5 (Fin.ext h)
          simp only [Function.update_noteq hj5]
          clear hj5
          rw [if_neg (by omega)]
    · have hv : i.val ≠ n / 5 := fun h => hi5 (Fin.ext h)
      rw [Function.update_noteq hi5]
      clear hi5
      refine ⟨?_, ?_, rfl, rfl, rfl, rfl, rfl⟩
      · rw [if_neg (by omega)]
      · intro j
        have hj : j.val < 4 := j.isLt
        rw [if_neg (by omega)]

theorem store_upto_spec (temp : Groups) (vals : List ℚ) (i : Fin NUM_GROUPS) :
    ∀ n, n ≤ 20 →
      ((List.range n).foldl (fun t k => store_arg t k (vals.getD k 0)) temp i).spawn
        = (if 5 * i.val < n then vals.getD (5 * i.val) 0 else (temp i).spawn) ∧
      (∀ j : Fin NUM_GROUPS,
        ((List.range n).foldl (fun t k => store_arg t k (vals.getD k 0)) temp i).gravity j
          = (if 5 * i.val + 1 + j.val < n then vals.getD (5 * i.val + 1 + j.val) 0
             else (temp i).gravity j)) ∧
      ((List.range n).foldl (fun t k => store_arg t k (vals.getD k 0)) temp i).name
        = (temp i).name ∧
      ((List.range n).foldl (fun t k => store_arg t k (vals.getD k 0)) temp i).color
        = (temp i).color ∧
      ((List.range n).foldl (fun t k => store_arg t k (vals.getD k 0)) temp i).count
        = (temp i).count ∧
      ((List.range n).foldl (fun t k => store_arg t k (vals.getD k 0)) temp i).positions
        = (temp i).positions ∧
      ((List.range n).foldl (fun t k => store_arg t k (vals.getD k 0)) temp i).velocities
        = (temp i).velocities := by
  intro n
  induction n with
  | zero => intro _; simp
  | succ m ih =>
    intro h
    obtain ⟨i1, i2, i3, i4, i5, i6, i7⟩ := ih (by omega)
    rw [store_upto_succ]
    obtain ⟨s1, s2, s3, s4, s5, s6, s7⟩ :=
      store_arg_spec ((List.range m).foldl (fun t k => store_arg t k (vals.getD k 0)) temp) m
        (vals.getD m 0) (by omega) i
    refine ⟨?_, ?_, s3.trans i3, s4.trans i4, s5.trans i5, s6.trans i6, s7.trans i7⟩
    · rw [s1, i1]
      by_cases e : 5 * i.val = m
      · rw [if_pos e, if_pos (by omega), e]
      · rw [if_neg e]
        by_cases e2 : 5 * i.val < m
        · rw [if_pos e2, if_pos (by omega)]
        · rw [if_neg e2, if_neg (by omega)]
    · intro j
      have hj : j.val < 4 := j.isLt
      rw [s2 j, i2 j]
      by_cases e : 5 * i.val + 1 + j.val = m
      · rw [if_pos e, if_pos (by omega), e]
      · rw [if_neg e]
        by_cases e2 : 5 * i.val + 1 + j.val < m
        · rw [if_pos e2, if_pos (by omega)]
        · rw [if_neg e2, if_neg (by omega)]

theorem store_args_spec (temp : Groups) (vals : List ℚ) (hlen : vals.length = 20)
    (i : Fin NUM_GROUPS) :
    (store_args temp vals i).spawn = vals.getD (5 * i.val) 0 ∧
    (∀ j : Fin NUM_GROUPS,
      (store_args temp vals i).gravity j = vals.getD (5 * i.val + 1 + j.val) 0) ∧
    (store_args temp vals i).name = (temp i).name ∧
    (store_args temp vals i).color = (temp i).color ∧
    (store_args temp vals i).count = (temp i).count ∧
    (store_args temp vals i).positions = (temp i).positions ∧
    (store_args temp vals i).velocities = (temp i).velocities := by
  have hi : i.val < 4 := i.isLt
  obtain ⟨s1, s2, s3, s4, s5, s6, s7⟩ := store_upto_spec temp vals i 20 (le_refl _)
  unfold store_args
  rw [hlen]
  refine ⟨?_, ?_, s3, s4, s5, s6, s7⟩
  · rw [s1, if_pos (by omega)]
  · intro j
    have hj : j.val < 4 := j.isLt
    rw [s2 j, if_pos (by omega)]

theorem copy_args_getD (gs : Groups) (f : ℚ → ℚ) (i : Fin NUM_GROUPS) :
    ((copy_args gs).map f).getD (5 * i.val) 0 = f (gs i).spawn ∧
    ∀ j : Fin NUM_GROUPS,
      ((copy_args gs).map f).getD (5 * i.val + 1 + j.val) 0 = f ((gs i).gravity j) := by
  constructor
  · fin_cases i <;> rfl
  · intro j
    have hj : j.val < 4 := j.isLt
    fin_cases i <;> fin_cases j <;> rfl

theorem copy_args_mem (gs : Groups) (q : ℚ) (h : q ∈ copy_args gs) :
    ∃ i : Fin NUM_GROUPS, q = (gs i).spawn ∨ ∃ j : Fin NUM_GROUPS, q = (gs i).gravity j := by
  simp only [copy_args, List.mem_cons, List.mem_singleton, List.not_mem_nil, or_false] at h
  rcases h with h | h | h | h | h | h | h | h | h | h | h | h | h | h | h | h | h | h | h | h
  · exact ⟨0, Or.inl h⟩
  · exact ⟨0, Or.inr ⟨0, h⟩⟩
  · exact ⟨0, Or.inr ⟨1, h⟩⟩
  · exact ⟨0, Or.inr ⟨2, h⟩⟩
  · exact ⟨0, Or.inr ⟨3, h⟩⟩
  · exact ⟨1, Or.inl h⟩
  · exact ⟨1, Or.inr ⟨0, h⟩⟩
  · exact ⟨1, Or.inr ⟨1, h⟩⟩
  · exact ⟨1, Or.inr ⟨2, h⟩⟩
  · exact ⟨1, Or.inr ⟨3, h⟩⟩
  · exact ⟨2, Or.inl h⟩
  · exact ⟨2, Or.inr ⟨0, h⟩⟩
  · exact ⟨2, Or.inr ⟨1, h⟩⟩
  · exact ⟨2, Or.inr ⟨2, h⟩⟩
  · exact ⟨2, Or.inr ⟨3, h⟩⟩
  · exact ⟨3, Or.inl h⟩
  · exact ⟨3, Or.inr ⟨0, h⟩⟩
  · exact ⟨3, Or.inr ⟨1, h⟩⟩
  · exact ⟨3, Or.inr ⟨2, h⟩⟩
  · exact ⟨3, Or.inr ⟨3, h⟩⟩

theorem copy_text (gs : Groups) (h : in_ranges gs) :
    copy snprintf_f gs = String.mk (join_spaces ((copy_args gs).map format_f)) := by
  unfold copy snprintf_f
  congr 1
  apply List.take_of_length_le
  have hl : ∀ x ∈ (copy_args gs).map format_f, x.length ≤ 11 := by
    intro x hx
    obtain ⟨q, hq, rfl⟩ := List.mem_map.mp hx
    apply format_f_length
    obtain ⟨i, hq | ⟨j, hq⟩⟩ := copy_args_mem gs q hq
    · rw [hq, abs_le]
      obtain ⟨⟨h1, h2⟩, -⟩ := h i
      constructor <;> linarith
    · rw [hq, abs_le]
      obtain ⟨-, h3⟩ := h i
      obtain ⟨h1, h2⟩ := h3 j
      constructor <;> linarith
  have := join_spaces_length _ hl
  have hlen : ((copy_args gs).map format_f).length = 20 := rfl
  omega

theorem sscanf_copy (gs : Groups) (h : in_ranges gs) :
    sscanf_f (copy snprintf_f gs) = (copy_args gs).map round6 := by
  rw [copy_text gs h]
  unfold sscanf_f
  exact sscanf_floats_join (copy_args gs) 20 (le_of_eq rfl)

theorem copy_ne_empty (gs : Groups) (h : in_ranges gs) : copy snprintf_f gs ≠ "" := by
  rw [copy_text gs h]
  intro hc
  have hd := congrArg String.data hc
  exact join_spaces_ne_nil _ _ (format_f_ne_nil _) hd

/-- C4: `paste` leaves the whole state unchanged (every field of every group
and the position in the `rand()` sequence, so no respawn took place) whenever
fewer than 20 fields were scanned, and whenever the clipboard holds no text.
The state changes only if exactly 20 fields were scanned, and in that case it
is the respawn of all groups from the 20 stored values. -/
theorem paste_malformed_is_noop (sscanf : String → List ℚ) (RAND_MAX : Nat) (rand : Nat → Nat)
    (clipboard : String) (w : World) :
    ((sscanf clipboard).length < 20 → paste sscanf RAND_MAX rand clipboard w = w) ∧
    (clipboard = "" → paste sscanf RAND_MAX rand clipboard w = w) ∧
    (paste sscanf RAND_MAX rand clipboard w ≠ w → (sscanf clipboard).length = 20) ∧
    (clipboard ≠ "" → (sscanf clipboard).length = 20 →
      paste sscanf RAND_MAX rand clipboard w
        = spawn RAND_MAX rand { w with groups := store_args w.groups (sscanf clipboard) }) := by
  refine ⟨?_, ?_, ?_, ?_⟩
  · intro h
    unfold paste
    split
    · rfl
    · simp only []
      rw [if_neg (by omega)]
  · intro h
    unfold paste
    rw [if_pos h]
  · intro h
    by_contra hc
    apply h
    unfold paste
    split
    · rfl
    · simp only []
      rw [if_neg hc]
  · intro h1 h2
    unfold paste
    rw [if_neg h1]
    simp only []
    rw [if_pos h2]

/-- Instances of C4 with the `%f` scanner: a text of 19 numeric fields, a text
that is not numeric and the empty clipboard leave the initial state unchanged. -/
theorem paste_malformed_is_noop_examples :
    (sscanf_f "1 2 3 4 5 6 7 8 9 10 11 12 13 14 15 16 17 18 19").length = 19 ∧
    paste sscanf_f 32767 (fun _ => 0) "1 2 3 4 5 6 7 8 9 10 11 12 13 14 15 16 17 18 19"
      initial_world = initial_world ∧
    (sscanf_f "not a number").length = 0 ∧
    paste sscanf_f 32767 (fun _ => 0) "not a number" initial_world = initial_world ∧
    paste sscanf_f 32767 (fun _ => 0) "" initial_world = initial_world :=
  ⟨by decide,
   (paste_malformed_is_noop sscanf_f 32767 (fun _ => 0)
      "1 2 3 4 5 6 7 8 9 10 11 12 13 14 15 16 17 18 19" initial_world).1 (by decide),
   by decide,
   (paste_malformed_is_noop sscanf_f 32767 (fun _ => 0) "not a number" initial_world).1
      (by decide),
   (paste_malformed_is_noop sscanf_f 32767 (fun _ => 0) "" initial_world).2.1 rfl⟩

theorem initial_groups_fields (i : Fin NUM_GROUPS) :
    (initial_groups i).spawn = 200 ∧ ∀ j, (initial_groups i).gravity j = 0 := by
  fin_cases i <;> exact ⟨rfl, fun _ => rfl⟩

theorem in_ranges_initial : in_ranges initial_groups := by
  intro i
  obtain ⟨h1, h2⟩ := initial_groups_fields i
  rw [h1]
  refine ⟨by norm_num, fun j => ?_⟩
  rw [h2 j]
  norm_num

theorem in_ranges_fractional : in_ranges fractional_world.groups := by
  intro i
  obtain ⟨h1, h2⟩ := initial_groups_fields i
  obtain ⟨-, h3⟩ := initial_groups_fields 0
  by_cases hi : i = 0
  · subst hi
    simp only [fractional_world, Function.update_same]
    refine ⟨by norm_num, fun j => ?_⟩
    rw [h3 j]
    norm_num
  · simp only [fractional_world, Function.update_noteq hi]
    rw [h1]
    refine ⟨by norm_num, fun j => ?_⟩
    rw [h2 j]
    norm_num

theorem round6_three_halves : round6 (3 / 2) = 3 / 2 := by
  have h : |(3 / 2 : ℚ)| * 1000000 = ((1500000 : Int) : ℚ) := by
    rw [abs_of_pos (by norm_num)]; norm_num
  have hm : micro (3 / 2) = 1500000 := by
    unfold micro
    rw [h, round_half_even_int]
    rfl
  unfold round6
  rw [hm]
  norm_num

theorem trunc_three_halves : trunc_to_int (3 / 2) = 1 := by
  norm_num [trunc_to_int]

/-- C6 at the failing input: when `rand()` returns `RAND_MAX`, the particle of
a group with spawn 1 is placed at `(1280, 720)`, so its `x` is not below 1280. -/
theorem spawn_group_reaches_far_edge :
    (spawn_group 2147483647 (fun _ => 2147483647) (particle "RED" ⟨0, 0⟩ ⟨0, 0⟩) 0).1.count = 1 ∧
    (spawn_group 2147483647 (fun _ => 2147483647)
        (particle "RED" ⟨0, 0⟩ ⟨0, 0⟩) 0).1.positions.getD 0 ⟨0, 0⟩ = ⟨1280, 720⟩ ∧
    ¬ ((spawn_group 2147483647 (fun _ => 2147483647)
        (particle "RED" ⟨0, 0⟩ ⟨0, 0⟩) 0).1.positions.getD 0 ⟨0, 0⟩).x < 1280 := by
  have ht : trunc_to_int (particle "RED" ⟨0, 0⟩ ⟨0, 0⟩).spawn = 1 := by decide
  obtain ⟨-, s2, -, -, -, -, -, -, s9⟩ :=
    spawn_group_spec 2147483647 (fun _ => 2147483647) (particle "RED" ⟨0, 0⟩ ⟨0, 0⟩) 0
  rw [ht] at s2 s9
  obtain ⟨hp, -⟩ := s9 0 (by decide)
  have hv : (spawn_group 2147483647 (fun _ => 2147483647)
      (particle "RED" ⟨0, 0⟩ ⟨0, 0⟩) 0).1.positions.getD 0 ⟨0, 0⟩ = ⟨1280, 720⟩ := by
    rw [hp]
    norm_num [world_size]
  refine ⟨s2, hv, ?_⟩
  rw [hv]
  norm_num

/-- The part of the respawn property that holds for every `rand` sequence and
whole spawn value: count equals spawn, both arrays have `count` cells, every
velocity is zero and every position lies in the closed rectangle. -/
theorem spawn_group_sizing (RAND_MAX : Nat) (rand : Nat → Nat) (g : group) (k : Nat)
    (hR : 0 < RAND_MAX) (hrand : ∀ n, rand n ≤ RAND_MAX)
    (hwhole : g.spawn = (trunc_to_int g.spawn : ℚ)) :
    ((spawn_group RAND_MAX rand g k).1.count : ℚ) = (spawn_group RAND_MAX rand g k).1.spawn ∧
    (spawn_group RAND_MAX rand g k).1.positions.length
      = (spawn_group RAND_MAX rand g k).1.count.toNat ∧
    (spawn_group RAND_MAX rand g k).1.velocities.length
      = (spawn_group RAND_MAX rand g k).1.count.toNat ∧
    ∀ j, j < (spawn_group RAND_MAX rand g k).1.count.toNat →
      (spawn_group RAND_MAX rand g k).1.velocities.getD j ⟨0, 0⟩ = ⟨0, 0⟩ ∧
      0 ≤ ((spawn_group RAND_MAX rand g k).1.positions.getD j ⟨0, 0⟩).x ∧
      ((spawn_group RAND_MAX rand g k).1.positions.getD j ⟨0, 0⟩).x ≤ 1280 ∧
      0 ≤ ((spawn_group RAND_MAX rand g k).1.positions.getD j ⟨0, 0⟩).y ∧
      ((spawn_group RAND_MAX rand g k).1.positions.getD j ⟨0, 0⟩).y ≤ 720 := by
  obtain ⟨-, s2, s3, -, -, -, s7, s8, s9⟩ := spawn_group_spec RAND_MAX rand g k
  have hRq : (0 : ℚ) < (RAND_MAX : ℚ) := by exact_mod_cast hR
  refine ⟨by rw [s2, s3]; exact hwhole.symm, by rw [s7, s2], by rw [s8, s2], ?_⟩
  intro j hj
  rw [s2] at hj
  obtain ⟨hp, hv⟩ := s9 j hj
  rw [hp]
  have b1 : (0 : ℚ) ≤ (rand (k + 2 * j) : ℚ) / RAND_MAX := by positivity
  have b2 : (rand (k + 2 * j) : ℚ) / RAND_MAX ≤ 1 := by
    rw [div_le_one hRq]; exact_mod_cast hrand _
  have b3 : (0 : ℚ) ≤ (rand (k + 2 * j + 1) : ℚ) / RAND_MAX := by positivity
  have b4 : (rand (k + 2 * j + 1) : ℚ) / RAND_MAX ≤ 1 := by
    rw [div_le_one hRq]; exact_mod_cast hrand _
  have wx : world_size.x = 1280 := rfl
  have wy : world_size.y = 720 := rfl
  simp only [wx, wy]
  exact ⟨hv, by nlinarith, by nlinarith, by nlinarith, by nlinarith⟩

theorem scan_example_values :
    (sscanf_f out_of_range_text).length = 20 ∧
    (sscanf_f out_of_range_text).getD 0 0 = 1000 ∧
    (sscanf_f out_of_range_text).getD 1 0 = 2 := by
  refine ⟨by decide, ?_, ?_⟩
  · simp [out_of_range_text, sscanf_f, sscanf_floats, scan_float, scan_magnitude, scan_sign, skip_spaces,
      scan_digits, scan_fraction, scan_exponent, is_space, is_digit, digit_val]
  · simp [out_of_range_text, sscanf_f, sscanf_floats, scan_float, scan_magnitude, scan_sign, skip_spaces,
      scan_digits, scan_fraction, scan_exponent, is_space, is_digit, digit_val]

/-- C9 at the failing input: a clipboard text of 20 fields that starts with
`1000 2` is imported; afterwards group 0 has spawn 1000, its first gravity cell
is 2, and the respawn ran with a count of 1000. -/
theorem paste_accepts_out_of_range :
    out_of_range_text ≠ "" ∧
    (sscanf_f out_of_range_text).length = 20 ∧
    ((paste sscanf_f 32767 (fun _ => 0) out_of_range_text initial_world).groups 0).spawn
      = 1000 ∧
    ((paste sscanf_f 32767 (fun _ => 0) out_of_range_text initial_world).groups 0).gravity 0
      = 2 ∧
    ((paste sscanf_f 32767 (fun _ => 0) out_of_range_text initial_world).groups 0).count
      = 1000 ∧
    ((paste sscanf_f 32767 (fun _ => 0) out_of_range_text initial_world).groups 0).positions.length = 1000 := by
  obtain ⟨hl, h0, h1⟩ := scan_example_values
  have hne : out_of_range_text ≠ "" := by decide
  have hp : paste sscanf_f 32767 (fun _ => 0) out_of_range_text initial_world
      = spawn 32767 (fun _ => 0) { initial_world with
            groups := (store_args initial_world.groups (sscanf_f out_of_range_text)) } := by
    unfold paste
    rw [if_neg hne]
    simp only []
    rw [if_pos hl]
  obtain ⟨r1, r2, -, -, r5, r6, -⟩ := spawn_fields 32767 (fun _ => 0)
    { initial_world with
      groups := (store_args initial_world.groups (sscanf_f out_of_range_text)) } 0
  obtain ⟨s1, s2, -⟩ := store_args_spec initial_world.groups (sscanf_f out_of_range_text) hl 0
  have s2' := s2 0
  simp only [] at r1 r2 r5 r6
  have e0 : 5 * (0 : Fin NUM_GROUPS).val = 0 := rfl
  have e1 : 5 * (0 : Fin NUM_GROUPS).val + 1 + (0 : Fin NUM_GROUPS).val = 1 := rfl
  rw [e0, h0] at s1
  rw [e1, h1] at s2'
  have ht : trunc_to_int 1000 = 1000 := by decide
  rw [s1, ht] at r5 r6
  rw [hp]
  refine ⟨hne, hl, r1.trans s1, ?_, r5, r6⟩
  rw [r2]
  exact s2'

/-! ## Instances at concrete inputs -/

theorem round_half_even_nearest (t : ℚ) (n : Int) :
    |(round_half_even t : ℚ) - t| ≤ |(n : ℚ) - t| := by
  have h1 := Int.floor_le t
  have h2 := Int.lt_floor_add_one t
  have hc := round_half_even_close t
  by_cases hn : n ≤ ⌊t⌋
  · have hnq : (n : ℚ) ≤ (⌊t⌋ : ℚ) := by exact_mod_cast hn
    have e1 : |(n : ℚ) - t| = t - n := by
      rw [abs_sub_comm, abs_of_nonneg (by linarith)]
    rw [e1]
    unfold round_half_even
    split_ifs with a b c
    · rw [abs_sub_comm, abs_of_nonneg (by linarith)]; linarith
    · push_cast; rw [abs_of_nonneg (by linarith)]; linarith
    · rw [abs_sub_comm, abs_of_nonneg (by linarith)]; linarith
    · push_cast; rw [abs_of_nonneg (by linarith)]; linarith
  · have hn2 : ⌊t⌋ + 1 ≤ n := by omega
    have hnq : (⌊t⌋ : ℚ) + 1 ≤ (n : ℚ) := by exact_mod_cast hn2
    have e1 : |(n : ℚ) - t| = n - t := abs_of_nonneg (by linarith)
    rw [e1]
    unfold round_half_even
    split_ifs with a b c
    · rw [abs_sub_comm, abs_of_nonneg (by linarith)]; linarith
    · push_cast; rw [abs_of_nonneg (by linarith)]; linarith
    · rw [abs_sub_comm, abs_of_nonneg (by linarith)]; linarith
    · push_cast; rw [abs_of_nonneg (by linarith)]; linarith

theorem ulp32_pos (y : ℚ) : 0 < ulp32 y := by
  unfold ulp32
  positivity

theorem round32_mag_zero : round32_mag 0 = 0 := by
  simp [round32_mag, round_half_even]

theorem round32_mag_nonneg (y : ℚ) (hy : 0 ≤ y) : 0 ≤ round32_mag y := by
  unfold round32_mag
  have hu := ulp32_pos y
  have ht : 0 ≤ y / ulp32 y := div_nonneg hy (le_of_lt hu)
  have h0 : 0 ≤ ⌊y / ulp32 y⌋ := Int.floor_nonneg.mpr ht
  have hr : 0 ≤ round_half_even (y / ulp32 y) := by
    unfold round_half_even
    split_ifs <;> omega
  have : (0 : ℚ) ≤ (round_half_even (y / ulp32 y) : ℚ) := by exact_mod_cast hr
  positivity

theorem round32_mag_grid (y : ℚ) (n : Int) :
    |round32_mag y - y| ≤ |(n : ℚ) * ulp32 y - y| := by
  have hu := ulp32_pos y
  have h := round_half_even_nearest (y / ulp32 y) n
  have e1 : round32_mag y - y = ((round_half_even (y / ulp32 y) : ℚ) - y / ulp32 y) * ulp32 y := by
    unfold round32_mag
    field_simp
  have e2 : (n : ℚ) * ulp32 y - y = ((n : ℚ) - y / ulp32 y) * ulp32 y := by
    field_simp
  rw [e1, e2, abs_mul, abs_mul, abs_of_pos hu]
  exact mul_le_mul_of_nonneg_right h (le_of_lt hu)

theorem two_cast : ((2 : ℕ) : ℚ) = 2 := by norm_num

theorem lt_pow_exp32 (y : ℚ) : y < 2 ^ (exp32 y + 1) := by
  have h := Int.lt_zpow_succ_log_self (b := 2) (by norm_num) y
  rw [two_cast] at h
  have hle : Int.log 2 y + 1 ≤ exp32 y + 1 := by
    unfold exp32
    have := le_max_left (Int.log 2 y) (-126)
    omega
  exact lt_of_lt_of_le h (zpow_le_zpow_right₀ (by norm_num) hle)

theorem pow_exp32_le (y : ℚ) (hy : 0 < y) (he : -126 < exp32 y) : 2 ^ exp32 y ≤ y := by
  have h := Int.zpow_log_le_self (b := 2) (by norm_num) hy
  rw [two_cast] at h
  have : exp32 y = Int.log 2 y := by
    unfold exp32 at he ⊢
    rcases max_cases (Int.log 2 y) (-126) with ⟨h1, _⟩ | ⟨h1, _⟩
    · exact h1
    · rw [h1] at he; omega
  rw [this]
  exact h

theorem exp32_ge (y : ℚ) : -126 ≤ exp32 y := le_max_right _ _

theorem exp32_eq (y : ℚ) (e : Int) (h1 : 2 ^ e ≤ y) (h2 : y < 2 ^ (e + 1)) (h3 : -126 ≤ e) :
    exp32 y = e := by
  have hy : 0 < y := lt_of_lt_of_le (by positivity) h1
  have a : e ≤ Int.log 2 y := by
    rw [← Int.zpow_le_iff_le_log (by norm_num) hy, two_cast]
    exact h1
  have b : Int.log 2 y < e + 1 := by
    rw [← Int.lt_zpow_iff_log_lt (by norm_num) hy, two_cast]
    exact h2
  unfold exp32
  have : Int.log 2 y = e := by omega
  rw [this]
  exact max_eq_left h3

theorem pow_exp32_eq (y : ℚ) : (2 : ℚ) ^ exp32 y = 8388608 * ulp32 y := by
  unfold ulp32
  rw [zpow_sub₀ (by norm_num)]
  norm_num
  field_simp

theorem zpow_nonneg_int (k : Int) (hk : 0 ≤ k) : ∃ n : Int, (2 : ℚ) ^ k = (n : ℚ) := by
  lift k to ℕ using hk
  exact ⟨2 ^ k, by rw [zpow_natCast]; push_cast; rfl⟩

theorem ulp32_mul_of_le (b y : ℚ) (h : exp32 y ≤ exp32 b) :
    ∃ n : Int, ulp32 b = (n : ℚ) * ulp32 y := by
  obtain ⟨n, hn⟩ := zpow_nonneg_int (exp32 b - exp32 y) (by omega)
  refine ⟨n, ?_⟩
  rw [← hn]
  unfold ulp32
  rw [← zpow_add₀ (by norm_num)]
  congr 1
  ring

theorem round32_mag_nearest (y b : ℚ) (hy : 0 ≤ y) (hfix : round32_mag b = b) :
    |round32_mag y - y| ≤ |b - y| := by
  by_cases hy0ne : y = 0
  · rw [hy0ne, round32_mag_zero, sub_zero, abs_zero]
    exact abs_nonneg _
  by_cases hle : exp32 y ≤ exp32 b
  · obtain ⟨n, hn⟩ := ulp32_mul_of_le b y hle
    have hg := round32_mag_grid y (round_half_even (b / ulp32 b) * n)
    have e : ((round_half_even (b / ulp32 b) * n : Int) : ℚ) * ulp32 y = b := by
      have h1 : (round_half_even (b / ulp32 b) : ℚ) * ulp32 b = b := hfix
      push_cast
      calc (round_half_even (b / ulp32 b) : ℚ) * (n : ℚ) * ulp32 y
          = (round_half_even (b / ulp32 b) : ℚ) * ((n : ℚ) * ulp32 y) := by ring
        _ = (round_half_even (b / ulp32 b) : ℚ) * ulp32 b := by rw [hn]
        _ = b := h1
    rw [e] at hg
    exact hg
  · have hlt : exp32 b < exp32 y := not_le.mp hle
    have hy0 : 0 < y := by
      rcases eq_or_lt_of_le hy with h | h
      · exact absurd h.symm hy0ne
      · exact h
    have h1 : (2 : ℚ) ^ exp32 y ≤ y := pow_exp32_le y hy0 (by have := exp32_ge b; omega)
    have h2 : b < 2 ^ (exp32 b + 1) := lt_pow_exp32 b
    have h3 : (2 : ℚ) ^ (exp32 b + 1) ≤ 2 ^ exp32 y :=
      zpow_le_zpow_right₀ (by norm_num) (by omega)
    have hg := round32_mag_grid y 8388608
    have e : ((8388608 : Int) : ℚ) * ulp32 y = 2 ^ exp32 y := by
      rw [pow_exp32_eq]; norm_num
    rw [e] at hg
    have e2 : |(2 : ℚ) ^ exp32 y - y| = y - 2 ^ exp32 y := by
      rw [abs_sub_comm, abs_of_nonneg (by linarith)]
    have e3 : |b - y| = y - b := by
      rw [abs_sub_comm, abs_of_nonneg (by linarith)]
    rw [e2] at hg
    rw [e3]
    linarith

theorem round32_mag_le_double (y : ℚ) (hy : 0 ≤ y) : |round32_mag y - y| ≤ y := by
  have h := round32_mag_nearest y 0 hy round32_mag_zero
  rwa [zero_sub, abs_neg, abs_of_nonneg hy] at h

theorem round32_val_zero : round32_val 0 = 0 := by
  simp [round32_val, round32_mag_zero]

theorem round32_val_neg (q : ℚ) : round32_val (-q) = -round32_val q := by
  unfold round32_val
  rcases lt_trichotomy q 0 with h | h | h
  · rw [if_neg (by linarith), if_pos h, neg_neg]
  · subst h; simp [round32_mag_zero]
  · rw [if_pos (by linarith), if_neg (by linarith), neg_neg]

theorem round32_val_sign (q : ℚ) :
    (0 ≤ q → 0 ≤ round32_val q) ∧ (q ≤ 0 → round32_val q ≤ 0) := by
  unfold round32_val
  constructor
  · intro h
    rw [if_neg (by linarith)]
    exact round32_mag_nonneg q h
  · intro h
    split_ifs with h2
    · have := round32_mag_nonneg (-q) (by linarith)
      linarith
    · have : q = 0 := by linarith
      rw [this, round32_mag_zero]

theorem round32_val_nearest (x a : ℚ) (ha : round32_val a = a) :
    |round32_val x - x| ≤ |a - x| := by
  rcases le_or_lt 0 x with hx | hx
  · have e : round32_val x = round32_mag x := by
      unfold round32_val; rw [if_neg (by linarith)]
    rw [e]
    rcases le_or_lt 0 a with h0 | h0
    · have ea : round32_mag a = a := by
        unfold round32_val at ha; rwa [if_neg (by linarith)] at ha
      exact round32_mag_nearest x a hx ea
    · have h1 := round32_mag_le_double x hx
      have h2 : |a - x| = x - a := by
        rw [abs_sub_comm, abs_of_nonneg (by linarith)]
      rw [h2]; linarith
  · have e : round32_val x = -round32_mag (-x) := by
      unfold round32_val; rw [if_pos hx]
    have e1 : |round32_val x - x| = |round32_mag (-x) - -x| := by
      rw [e, ← abs_neg]; congr 1; ring
    rw [e1]
    rcases le_or_lt a 0 with h0 | h0
    · have ea : round32_mag (-a) = -a := by
        have := round32_val_neg a
        rw [ha] at this
        unfold round32_val at this
        rwa [if_neg (by linarith)] at this
      have h := round32_mag_nearest (-x) (-a) (by linarith) ea
      have e2 : |a - x| = |-a - -x| := by
        rw [← abs_neg]; congr 1; ring
      rw [e2]; exact h
    · have h1 := round32_mag_le_double (-x) (by linarith)
      have h2 : |a - x| = a - x := abs_of_nonneg (by linarith)
      rw [h2]; linarith

theorem round32_val_ge_anchor (x a : ℚ) (ha : round32_val a = a) (h : a ≤ x) :
    a ≤ round32_val x := by
  by_contra hc
  have hlt : round32_val x < a := not_le.mp hc
  have hn := round32_val_nearest x a ha
  rw [abs_sub_comm, abs_of_nonneg (by linarith), abs_sub_comm, abs_of_nonneg (by linarith)] at hn
  linarith

theorem round32_val_le_anchor (x a : ℚ) (ha : round32_val a = a) (h : x ≤ a) :
    round32_val x ≤ a := by
  by_contra hc
  have hlt : a < round32_val x := not_le.mp hc
  have hn := round32_val_nearest x a ha
  rw [abs_of_nonneg (by linarith), abs_of_nonneg (by linarith)] at hn
  linarith

theorem round32_mag_exact (y : ℚ) (e n : Int) (h1 : 2 ^ e ≤ y) (h2 : y < 2 ^ (e + 1))
    (h3 : -126 ≤ e) (h4 : y = (n : ℚ) * 2 ^ (e - 23)) : round32_mag y = y := by
  have he := exp32_eq y e h1 h2 h3
  unfold round32_mag ulp32
  rw [he]
  have hp : (0 : ℚ) < 2 ^ (e - 23) := by positivity
  have : y / 2 ^ (e - 23) = (n : ℚ) := by
    rw [h4]; field_simp
  rw [this, round_half_even_int]
  exact h4.symm

theorem round32_val_exact (q : ℚ) (e n : Int) (h1 : 2 ^ e ≤ |q|) (h2 : |q| < 2 ^ (e + 1))
    (h3 : -126 ≤ e) (h4 : |q| = (n : ℚ) * 2 ^ (e - 23)) : round32_val q = q := by
  unfold round32_val
  split_ifs with h
  · rw [abs_of_neg h] at h1 h2 h4
    rw [round32_mag_exact (-q) e n h1 h2 h3 h4]; ring
  · rw [abs_of_nonneg (not_lt.mp h)] at h1 h2 h4
    exact round32_mag_exact q e n h1 h2 h3 h4

theorem round32_mag_exact_subnormal (y : ℚ) (n : Int) (h0 : 0 < y) (h2 : y < 2 ^ (-126 : Int))
    (h4 : y = (n : ℚ) * 2 ^ (-149 : Int)) : round32_mag y = y := by
  have hl : Int.log 2 y < -126 := by
    rw [← Int.lt_zpow_iff_log_lt (by norm_num) h0, two_cast]
    exact h2
  have he : exp32 y = -126 := by
    unfold exp32
    exact max_eq_right (by omega)
  unfold round32_mag ulp32
  rw [he]
  have e149 : ((-126 : Int) - 23) = -149 := by norm_num
  rw [e149]
  have hp : (0 : ℚ) < 2 ^ (-149 : Int) := by positivity
  have : y / 2 ^ (-149 : Int) = (n : ℚ) := by
    rw [h4]; field_simp
  rw [this, round_half_even_int]
  exact h4.symm

theorem round32_mag_idem (y : ℚ) (hy : 0 ≤ y) :
    round32_mag (round32_mag y) = round32_mag y := by
  rcases eq_or_lt_of_le hy with hy0 | hy0
  · rw [← hy0, round32_mag_zero, round32_mag_zero]
  have hu := ulp32_pos y
  have hpe := pow_exp32_eq y
  have hlt := lt_pow_exp32 y
  have hge := exp32_ge y
  have hc := round_half_even_close (y / ulp32 y)
  rw [abs_le] at hc
  have hM0 : (0 : ℚ) ≤ (round_half_even (y / ulp32 y) : ℚ) := by
    have := round32_mag_nonneg y hy
    unfold round32_mag at this
    by_contra hneg
    have : (round_half_even (y / ulp32 y) : ℚ) * ulp32 y < 0 :=
      mul_neg_of_neg_of_pos (not_le.mp hneg) hu
    linarith
  have hr : round32_mag y = (round_half_even (y / ulp32 y) : ℚ) * ulp32 y := rfl
  have hsucc : (2 : ℚ) ^ (exp32 y + 1) = 16777216 * ulp32 y := by
    rw [zpow_add₀ (by norm_num), hpe]; norm_num; ring
  have ht : y / ulp32 y < 16777216 := by
    rw [div_lt_iff₀ hu]; linarith
  have hMle : round_half_even (y / ulp32 y) ≤ 16777216 := by
    have : (round_half_even (y / ulp32 y) : ℚ) < 16777216 + 1 := by linarith
    have : round_half_even (y / ulp32 y) < 16777216 + 1 := by exact_mod_cast this
    omega
  rcases eq_or_lt_of_le hMle with hM | hM
  · -- the significand rounded up to the next binade
    have e1 : round32_mag y = 2 ^ (exp32 y + 1) := by
      rw [hr, hM, hsucc]; norm_num
    rw [e1]
    apply round32_mag_exact _ (exp32 y + 1) 8388608 (le_refl _)
    · exact zpow_lt_zpow_right₀ (by norm_num) (by omega)
    · omega
    · have h23 : ((8388608 : Int) : ℚ) = 2 ^ (23 : Int) := by norm_num
      rw [h23, ← zpow_add₀ (by norm_num)]
      congr 1
      ring
  · have hMq : (round_half_even (y / ulp32 y) : ℚ) < 16777216 := by exact_mod_cast hM
    have hrlt : round32_mag y < 2 ^ (exp32 y + 1) := by
      rw [hr, hsucc]
      exact mul_lt_mul_of_pos_right hMq hu
    by_cases hbig : 8388608 ≤ round_half_even (y / ulp32 y)
    · have hbq : (8388608 : ℚ) ≤ (round_half_even (y / ulp32 y) : ℚ) := by exact_mod_cast hbig
      apply round32_mag_exact _ (exp32 y) (round_half_even (y / ulp32 y)) _ hrlt hge
      · rw [hr]; rfl
      · rw [hr, hpe]
        exact mul_le_mul_of_nonneg_right hbq (le_of_lt hu)
    · have hsm : round_half_even (y / ulp32 y) < 8388608 := not_le.mp hbig
      have hsmq : (round_half_even (y / ulp32 y) : ℚ) < 8388608 := by exact_mod_cast hsm
      have he : exp32 y = -126 := by
        by_contra hne
        have h1 := pow_exp32_le y hy0 (by omega)
        rw [hpe] at h1
        have : (8388608 : ℚ) ≤ y / ulp32 y := by
          rw [le_div_iff₀ hu]; exact h1
        have hM7 : (round_half_even (y / ulp32 y) : ℚ) ≤ 8388607 := by
          exact_mod_cast (by omega : round_half_even (y / ulp32 y) ≤ 8388607)
        linarith
      rcases eq_or_lt_of_le hM0 with hz | hz
      · rw [hr, ← hz, zero_mul, round32_mag_zero]
      · have hu149 : ulp32 y = 2 ^ (-149 : Int) := by
          unfold ulp32; rw [he]; norm_num
        apply round32_mag_exact_subnormal _ (round_half_even (y / ulp32 y))
        · rw [hr]; exact mul_pos hz hu
        · have h126 : (2 : ℚ) ^ (-126 : Int) = 8388608 * ulp32 y := by
            rw [← he]; exact hpe
          rw [hr, h126]
          exact mul_lt_mul_of_pos_right hsmq hu
        · rw [hr, hu149]

theorem round32_val_idem (q : ℚ) : round32_val (round32_val q) = round32_val q := by
  rcases le_or_lt 0 q with h | h
  · have e : round32_val q = round32_mag q := by
      unfold round32_val; rw [if_neg (by linarith)]
    have h0 := round32_mag_nonneg q h
    rw [e]
    unfold round32_val
    rw [if_neg (by linarith)]
    exact round32_mag_idem q h
  · have e : round32_val q = -round32_mag (-q) := by
      unfold round32_val; rw [if_pos h]
    have h0 := round32_mag_nonneg (-q) (by linarith)
    rw [e, round32_val_neg]
    congr 1
    unfold round32_val
    rw [if_neg (by linarith)]
    exact round32_mag_idem (-q) (by linarith)

theorem round_half_even_below (q : ℚ) (n : Int) (h1 : (n : ℚ) ≤ q) (h2 : q < n + 1 / 2) :
    round_half_even q = n := by
  have hf : ⌊q⌋ = n := Int.floor_eq_iff.mpr ⟨h1, by linarith⟩
  unfold round_half_even
  rw [hf, if_pos (by linarith)]

theorem round_half_even_tie (q : ℚ) (n : Int) (h : q = n + 1 / 2) (he : n % 2 = 0) :
    round_half_even q = n := by
  have hf : ⌊q⌋ = n := Int.floor_eq_iff.mpr ⟨by linarith, by linarith⟩
  unfold round_half_even
  rw [hf, if_neg (by linarith), if_neg (by linarith), if_pos he]

theorem round32_val_eval (y : ℚ) (e n : Int) (h1 : 2 ^ e ≤ y) (h2 : y < 2 ^ (e + 1))
    (h3 : -126 ≤ e) (hn : round_half_even (y / 2 ^ (e - 23)) = n) :
    round32_val y = (n : ℚ) * 2 ^ (e - 23) := by
  have hy : 0 < y := lt_of_lt_of_le (by positivity) h1
  unfold round32_val
  rw [if_neg (by linarith)]
  unfold round32_mag ulp32
  rw [exp32_eq y e h1 h2 h3, hn]

/-! ## `update_particle_rule` in binary32 arithmetic -/

namespace Binary32

theorem getD_set_other {α : Type} (l : List α) (i k : Nat) (p d : α) (h : k ≠ i) :
    (l.set i p).getD k d = l.getD k d := by
  simp [List.getD_eq_getElem?_getD, List.getElem?_set_ne (Ne.symm h)]

theorem getD_set_same {α : Type} (l : List α) (i : Nat) (p d : α) (h : i < l.length) :
    (l.set i p).getD i d = p := by
  simp [List.getD_eq_getElem?_getD, List.getElem?_set_self, h]

theorem update_particle_other32 (sqrtf : F32 → F32) (gs : Groups) (a b c : Fin NUM_GROUPS)
    (gravity : F32) (i : Nat) (h : c ≠ a) : update_particle sqrtf gs a b gravity i c = gs c := by
  simp [update_particle, Function.update_noteq h]

theorem update_particle_frame32 (sqrtf : F32 → F32) (gs : Groups) (a b : Fin NUM_GROUPS)
    (gravity : F32) (i : Nat) :
    (update_particle sqrtf gs a b gravity i a).count = (gs a).count ∧
    (update_particle sqrtf gs a b gravity i a).positions.length = (gs a).positions.length ∧
    (update_particle sqrtf gs a b gravity i a).velocities.length
      = (gs a).velocities.length := by
  simp [update_particle]

theorem update_particle_ne32 (sqrtf : F32 → F32) (gs : Groups) (a b : Fin NUM_GROUPS)
    (gravity : F32) (i k : Nat) (d : FPoint) (h : k ≠ i) :
    (update_particle sqrtf gs a b gravity i a).positions.getD k d = (gs a).positions.getD k d ∧
    (update_particle sqrtf gs a b gravity i a).velocities.getD k d
      = (gs a).velocities.getD k d := by
  unfold update_particle
  simp only [Function.update_same]
  exact ⟨getD_set_other _ _ _ _ _ h, getD_set_other _ _ _ _ _ h⟩

theorem rule_upto_succ32 (sqrtf : F32 → F32) (gs : Groups) (a b : Fin NUM_GROUPS)
    (gravity : F32) (n : Nat) :
    rule_upto sqrtf gs a b gravity (n + 1)
      = update_particle sqrtf (rule_upto sqrtf gs a b gravity n) a b gravity n := by
  simp [rule_upto, List.range_succ, List.foldl_append]

theorem rule_upto_other32 (sqrtf : F32 → F32) (gs : Groups) (a b c : Fin NUM_GROUPS)
    (gravity : F32) (h : c ≠ a) (n : Nat) : rule_upto sqrtf gs a b gravity n c = gs c := by
  induction n with
  | zero => simp [rule_upto]
  | succ k ih => rw [rule_upto_succ32, update_particle_other32 _ _ _ _ _ _ _ h, ih]

theorem rule_upto_frame32 (sqrtf : F32 → F32) (gs : Groups) (a b : Fin NUM_GROUPS)
    (gravity : F32) (n : Nat) :
    (rule_upto sqrtf gs a b gravity n a).count = (gs a).count ∧
    (rule_upto sqrtf gs a b gravity n a).positions.length = (gs a).positions.length ∧
    (rule_upto sqrtf gs a b gravity n a).velocities.length = (gs a).velocities.length := by
  induction n with
  | zero => simp [rule_upto]
  | succ k ih =>
    rw [rule_upto_succ32]
    obtain ⟨h1, h2, h3⟩ :=
      update_particle_frame32 sqrtf (rule_upto sqrtf gs a b gravity k) a b gravity k
    obtain ⟨i1, i2, i3⟩ := ih
    exact ⟨h1.trans i1, h2.trans i2, h3.trans i3⟩

theorem rule_upto_untouched32 (sqrtf : F32 → F32) (gs : Groups) (a b : Fin NUM_GROUPS)
    (gravity : F32) (d : FPoint) (n k : Nat) (h : n ≤ k) :
    (rule_upto sqrtf gs a b gravity n a).positions.getD k d = (gs a).positions.getD k d ∧
    (rule_upto sqrtf gs a b gravity n a).velocities.getD k d
      = (gs a).velocities.getD k d := by
  induction n with
  | zero => simp [rule_upto]
  | succ m ih =>
    rw [rule_upto_succ32]
    obtain ⟨h1, h2⟩ := update_particle_ne32 sqrtf (rule_upto sqrtf gs a b gravity m) a b gravity
      m k d (by omega)
    obtain ⟨i1, i2⟩ := ih (by omega)
    exact ⟨h1.trans i1, h2.trans i2⟩

theorem rule_upto_settled32 (sqrtf : F32 → F32) (gs : Groups) (a b : Fin NUM_GROUPS)
    (gravity : F32) (d : FPoint) (k n : Nat) (h : k < n) :
    (rule_upto sqrtf gs a b gravity n a).positions.getD k d
      = (rule_upto sqrtf gs a b gravity (k + 1) a).positions.getD k d ∧
    (rule_upto sqrtf gs a b gravity n a).velocities.getD k d
      = (rule_upto sqrtf gs a b gravity (k + 1) a).velocities.getD k d := by
  induction n with
  | zero => omega
  | succ m ih =>
    by_cases hm : k = m
    · subst hm
      exact ⟨rfl, rfl⟩
    · rw [rule_upto_succ32]
      obtain ⟨h1, h2⟩ := update_particle_ne32 sqrtf (rule_upto sqrtf gs a b gravity m) a b
        gravity m k d hm
      obtain ⟨i1, i2⟩ := ih (by omega)
      exact ⟨h1.trans i1, h2.trans i2⟩

theorem update_particle_rule_eq_upto32 (sqrtf : F32 → F32) (gs : Groups)
    (a b : Fin NUM_GROUPS) (gravity : F32) :
    update_particle_rule sqrtf gs a b gravity
      = rule_upto sqrtf gs a b gravity (gs a).count.toNat := rfl

/-- The cells written for particle `i` by a whole call. -/
theorem update_particle_rule_cell32 (sqrtf : F32 → F32) (gs : Groups) (a b : Fin NUM_GROUPS)
    (gravity : F32) (i : Nat) (hi : i < (gs a).count.toNat)
    (hp : (gs a).positions.length = (gs a).count.toNat)
    (hv : (gs a).velocities.length = (gs a).count.toNat) (d : FPoint) :
    (update_particle_rule sqrtf gs a b gravity a).positions.getD i d
      = ⟨(bounce world_size.x (integrated sqrtf gs a b gravity i).x
            (damped sqrtf gs a b gravity i).x).1,
         (bounce world_size.y (integrated sqrtf gs a b gravity i).y
            (damped sqrtf gs a b gravity i).y).1⟩ ∧
    (update_particle_rule sqrtf gs a b gravity a).velocities.getD i d
      = ⟨(bounce world_size.x (integrated sqrtf gs a b gravity i).x
            (damped sqrtf gs a b gravity i).x).2,
         (bounce world_size.y (integrated sqrtf gs a b gravity i).y
            (damped sqrtf gs a b gravity i).y).2⟩ := by
  rw [update_particle_rule_eq_upto32]
  obtain ⟨s1, s2⟩ := rule_upto_settled32 sqrtf gs a b gravity d i _ hi
  rw [s1, s2, rule_upto_succ32]
  obtain ⟨u1, u2⟩ := rule_upto_untouched32 sqrtf gs a b gravity ⟨F32.fin 0, F32.fin 0⟩ i i
    (le_refl i)
  obtain ⟨-, f2, f3⟩ := rule_upto_frame32 sqrtf gs a b gravity i
  have hip : i < (rule_upto sqrtf gs a b gravity i a).positions.length := by omega
  have hiv : i < (rule_upto sqrtf gs a b gravity i a).velocities.length := by omega
  unfold update_particle
  simp only [Function.update_same]
  rw [getD_set_same _ _ _ _ hip, getD_set_same _ _ _ _ hiv, u1, u2]
  exact ⟨rfl, rfl⟩

end Binary32

theorem round32_of_binary32 (q : ℚ) (h : is_binary32 q) : round32 q = F32.fin q := by
  unfold round32
  rw [h.1, if_neg (not_le.mpr h.2)]

theorem round32_rounded (q : ℚ) : (round32 q).rounded := by
  unfold round32
  split_ifs with h
  · trivial
  · exact ⟨round32_val_idem q, not_le.mp h⟩

theorem is_binary32_neg (q : ℚ) (h : is_binary32 q) : is_binary32 (-q) := by
  refine ⟨?_, ?_⟩
  · rw [round32_val_neg, h.1]
  · rw [abs_neg]; exact h.2

theorem is_binary32_of_exact (q : ℚ) (e n : Int) (h1 : 2 ^ e ≤ |q|) (h2 : |q| < 2 ^ (e + 1))
    (h3 : -126 ≤ e) (h5 : e ≤ 127) (h4 : |q| = (n : ℚ) * 2 ^ (e - 23)) : is_binary32 q := by
  refine ⟨round32_val_exact q e n h1 h2 h3 h4, lt_of_lt_of_le h2 ?_⟩
  have h128 : (2 : ℚ) ^ (128 : ℕ) = 2 ^ ((128 : ℕ) : Int) := (zpow_natCast 2 128).symm
  rw [h128]
  exact zpow_le_zpow_right₀ (by norm_num) (by push_cast; omega)

theorem is_binary32_of_nonneg (q : ℚ) (e n : Int) (h0 : 0 ≤ q) (h1 : 2 ^ e ≤ q)
    (h2 : q < 2 ^ (e + 1)) (h3 : -126 ≤ e) (h5 : e ≤ 127) (h4 : q = (n : ℚ) * 2 ^ (e - 23)) :
    is_binary32 q := by
  apply is_binary32_of_exact q e n _ _ h3 h5
  · rw [abs_of_nonneg h0]; exact h4
  · rw [abs_of_nonneg h0]; exact h1
  · rw [abs_of_nonneg h0]; exact h2

theorem is_binary32_zero : is_binary32 0 := by
  refine ⟨round32_val_zero, ?_⟩
  rw [abs_zero]
  positivity

theorem F32.mul_rounded (a b : F32) : (F32.mul a b).rounded := by
  cases a <;> cases b <;> simp only [F32.mul] <;> first
    | trivial
    | exact round32_rounded _
    | (split_ifs <;> trivial)

theorem F32.add_rounded (a b : F32) (ha : a.rounded) (hb : b.rounded) :
    (F32.add a b).rounded := by
  cases a <;> cases b <;> simp only [F32.add] <;> first
    | trivial
    | exact round32_rounded _
    | (split_ifs <;> trivial)

theorem F32.mul_minus_one (x : F32) (h : x.rounded) : F32.mul x (F32.fin (-1)) = F32.neg x := by
  cases x with
  | fin q =>
    have hn := is_binary32_neg q h
    simp only [F32.mul, F32.neg]
    rw [mul_neg, mul_one]
    exact round32_of_binary32 _ hn
  | inf s =>
    simp [F32.mul, F32.neg]
  | nan => rfl

namespace Binary32

theorem bounce_spec32 (D : ℚ) (p v : F32) (hD : 1 ≤ D) (hb : is_binary32 (D - 1)) :
    (p = F32.nan → bounce (F32.fin D) p v = (F32.nan, v)) ∧
    (p ≠ F32.nan → ∃ q, (bounce (F32.fin D) p v).1 = F32.fin q ∧ 0 ≤ q ∧ q < D) ∧
    (F32.lt p (F32.fin 0) = true →
      bounce (F32.fin D) p v = (F32.fin 0, F32.mul v (F32.fin (-1)))) ∧
    (F32.lt p (F32.fin 0) = false → F32.ge p (F32.fin D) = true →
      bounce (F32.fin D) p v = (F32.fin (D - 1), F32.mul v (F32.fin (-1)))) ∧
    (F32.lt p (F32.fin 0) = false → F32.ge p (F32.fin D) = false →
      bounce (F32.fin D) p v = (p, v)) := by
  have hsub : F32.sub (F32.fin D) (F32.fin 1) = F32.fin (D - 1) := by
    simp only [F32.sub, F32.neg, F32.add]
    rw [← sub_eq_add_neg]
    exact round32_of_binary32 _ hb
  refine ⟨?_, ?_, ?_, ?_, ?_⟩
  · intro h
    subst h
    simp [bounce, F32.lt, F32.ge]
  · intro h
    unfold bounce
    cases p with
    | nan => exact absurd rfl h
    | inf s =>
      cases s
      · refine ⟨D - 1, ?_, by linarith, by linarith⟩
        simp [F32.lt, F32.ge, hsub]
      · exact ⟨0, by simp [F32.lt], le_refl 0, by linarith⟩
    | fin q =>
      by_cases h1 : q < 0
      · exact ⟨0, by simp [F32.lt, h1], le_refl 0, by linarith⟩
      · by_cases h2 : D ≤ q
        · refine ⟨D - 1, ?_, by linarith, by linarith⟩
          simp [F32.lt, F32.ge, h1, h2, hsub]
        · exact ⟨q, by simp [F32.lt, F32.ge, h1, h2], not_lt.mp h1, not_le.mp h2⟩
  · intro h
    simp [bounce, h]
  · intro h1 h2
    simp [bounce, h1, h2, hsub]
  · intro h1 h2
    simp [bounce, h1, h2]

end Binary32

theorem is_binary32_half : is_binary32 (1 / 2) :=
  is_binary32_of_nonneg _ (-1) 8388608 (by norm_num) (by norm_num) (by norm_num) (by norm_num) (by norm_num)
    (by norm_num)

theorem is_binary32_quarter : is_binary32 (1 / 4) :=
  is_binary32_of_nonneg _ (-2) 8388608 (by norm_num) (by norm_num) (by norm_num) (by norm_num) (by norm_num)
    (by norm_num)

theorem is_binary32_1279 : is_binary32 1279 :=
  is_binary32_of_nonneg _ 10 10477568 (by norm_num) (by norm_num) (by norm_num) (by norm_num) (by norm_num)
    (by norm_num)

theorem is_binary32_719 : is_binary32 719 :=
  is_binary32_of_nonneg _ 9 11780096 (by norm_num) (by norm_num) (by norm_num) (by norm_num) (by norm_num)
    (by norm_num)

theorem is_binary32_180 : is_binary32 180 :=
  is_binary32_of_nonneg _ 7 11796480 (by norm_num) (by norm_num) (by norm_num) (by norm_num) (by norm_num)
    (by norm_num)

theorem is_binary32_FLT_MAX : is_binary32 Binary32.FLT_MAX :=
  is_binary32_of_nonneg _ 127 16777215 (by norm_num [Binary32.FLT_MAX])
    (by norm_num [Binary32.FLT_MAX])
    (by norm_num [Binary32.FLT_MAX]) (by norm_num) (by norm_num)
    (by norm_num [Binary32.FLT_MAX])

theorem round32_overflow : round32 (Binary32.FLT_MAX / (1 / 2)) = F32.inf false := by
  have hv : round32_val (Binary32.FLT_MAX / (1 / 2)) = Binary32.FLT_MAX / (1 / 2) :=
    round32_val_exact _ 128 16777215 (by norm_num [Binary32.FLT_MAX])
      (by norm_num [Binary32.FLT_MAX]) (by norm_num) (by norm_num [Binary32.FLT_MAX])
  unfold round32
  rw [hv, if_pos (by norm_num [Binary32.FLT_MAX])]
  simp
  norm_num [Binary32.FLT_MAX]

theorem log_two_zpow (z : Int) : Int.log 2 ((2 : ℚ) ^ z) = z := by
  have h := Int.log_zpow (R := ℚ) (b := 2) (by norm_num) z
  rwa [two_cast] at h

theorem sqrt_two_pow_46 : Nat.sqrt 70368744177664 = 8388608 := by
  have h : (70368744177664 : ℕ) = 8388608 * 8388608 := by norm_num
  rw [h]
  exact Nat.sqrt_eq 8388608

theorem sqrt32_quarter : sqrt32 (F32.fin (1 / 4)) = F32.fin (1 / 2) := by
  have hl : Int.log 2 (1 / 4 : ℚ) = -2 := by
    have h := log_two_zpow (-2)
    norm_num at h ⊢
    exact h
  have hv : sqrt32_val (1 / 4) = 1 / 2 := by
    unfold sqrt32_val
    rw [hl]
    norm_num [sqrt_two_pow_46]
  simp only [sqrt32]
  rw [if_neg (by norm_num), if_neg (by norm_num), hv]

theorem sqrt32_sixteen : sqrt32 (F32.fin 16) = F32.fin 4 := by
  have hl : Int.log 2 (16 : ℚ) = 4 := by
    have h := log_two_zpow 4
    norm_num at h ⊢
    exact h
  have hv : sqrt32_val 16 = 4 := by
    unfold sqrt32_val
    rw [hl]
    norm_num [sqrt_two_pow_46]
  simp only [sqrt32]
  rw [if_neg (by norm_num), if_neg (by norm_num), hv]

namespace Binary32

theorem max_distance_eq : max_distance = F32.fin 180 := by
  simp only [max_distance, world_size, F32.mul]
  have h : (720 : ℚ) * (1 / 4) = 180 := by norm_num
  rw [h]
  exact round32_of_binary32 _ is_binary32_180

theorem damped_rounded (sqrtf : F32 → F32) (gs : Groups) (a b : Fin NUM_GROUPS) (gravity : F32)
    (i : Nat) :
    (damped sqrtf gs a b gravity i).x.rounded ∧ (damped sqrtf gs a b gravity i).y.rounded :=
  ⟨F32.mul_rounded _ _, F32.mul_rounded _ _⟩

/-- C1 amended: after `update_particle_rule(a, b, gravity)` in binary32
arithmetic, for any groups (also `a = b`) whose arrays have `count` cells and
any gravity, every particle `i` of `a` has on each axis a coordinate inside
`[0, dimension)` unless the integrated coordinate `pos + v'` the code computed
is a NaN, in which case the NaN is stored. Per axis, with `pos + v'` the
binary32 sum and `v'` the damped velocity: if `pos + v' < 0` the stored
coordinate is 0, otherwise if `pos + v' >= dimension` it is `dimension - 1`,
and in both cases the stored velocity component is `-v'`; if neither test
holds the stored coordinate is `pos + v'` and the stored velocity component
is `v'`. The count and the array length of `a` are unchanged. -/
theorem boundary_clamp_unless_nan (sqrtf : F32 → F32) (gs : Groups) (a b : Fin NUM_GROUPS)
    (gravity : F32) (i : Nat) (hi : i < (gs a).count.toNat)
    (hp : (gs a).positions.length = (gs a).count.toNat)
    (hv : (gs a).velocities.length = (gs a).count.toNat) :
    (update_particle_rule sqrtf gs a b gravity a).count = (gs a).count ∧
    (update_particle_rule sqrtf gs a b gravity a).positions.length = (gs a).count.toNat ∧
    ((integrated sqrtf gs a b gravity i).x = F32.nan →
      ((update_particle_rule sqrtf gs a b gravity a).positions.getD i
        ⟨F32.fin 0, F32.fin 0⟩).x = F32.nan) ∧
    ((integrated sqrtf gs a b gravity i).x ≠ F32.nan →
      ∃ q, ((update_particle_rule sqrtf gs a b gravity a).positions.getD i
        ⟨F32.fin 0, F32.fin 0⟩).x = F32.fin q ∧ 0 ≤ q ∧ q < 1280) ∧
    (F32.lt (integrated sqrtf gs a b gravity i).x (F32.fin 0) = true →
      ((update_particle_rule sqrtf gs a b gravity a).positions.getD i
        ⟨F32.fin 0, F32.fin 0⟩).x = F32.fin 0 ∧
      ((update_particle_rule sqrtf gs a b gravity a).velocities.getD i
        ⟨F32.fin 0, F32.fin 0⟩).x = F32.neg (damped sqrtf gs a b gravity i).x) ∧
    (F32.lt (integrated sqrtf gs a b gravity i).x (F32.fin 0) = false →
      F32.ge (integrated sqrtf gs a b gravity i).x (F32.fin 1280) = true →
      ((update_particle_rule sqrtf gs a b gravity a).positions.getD i
        ⟨F32.fin 0, F32.fin 0⟩).x = F32.fin 1279 ∧
      ((update_particle_rule sqrtf gs a b gravity a).velocities.getD i
        ⟨F32.fin 0, F32.fin 0⟩).x = F32.neg (damped sqrtf gs a b gravity i).x) ∧
    (F32.lt (integrated sqrtf gs a b gravity i).x (F32.fin 0) = false →
      F32.ge (integrated sqrtf gs a b gravity i).x (F32.fin 1280) = false →
      ((update_particle_rule sqrtf gs a b gravity a).positions.getD i
        ⟨F32.fin 0, F32.fin 0⟩).x = (integrated sqrtf gs a b gravity i).x ∧
      ((update_particle_rule sqrtf gs a b gravity a).velocities.getD i
        ⟨F32.fin 0, F32.fin 0⟩).x = (damped sqrtf gs a b gravity i).x) ∧
    ((integrated sqrtf gs a b gravity i).y = F32.nan →
      ((update_particle_rule sqrtf gs a b gravity a).positions.getD i
        ⟨F32.fin 0, F32.fin 0⟩).y = F32.nan) ∧
    ((integrated sqrtf gs a b gravity i).y ≠ F32.nan →
      ∃ q, ((update_particle_rule sqrtf gs a b gravity a).positions.getD i
        ⟨F32.fin 0, F32.fin 0⟩).y = F32.fin q ∧ 0 ≤ q ∧ q < 720) ∧
    (F32.lt (integrated sqrtf gs a b gravity i).y (F32.fin 0) = true →
      ((update_particle_rule sqrtf gs a b gravity a).positions.getD i
        ⟨F32.fin 0, F32.fin 0⟩).y = F32.fin 0 ∧
      ((update_particle_rule sqrtf gs a b gravity a).velocities.getD i
        ⟨F32.fin 0, F32.fin 0⟩).y = F32.neg (damped sqrtf gs a b gravity i).y) ∧
    (F32.lt (integrated sqrtf gs a b gravity i).y (F32.fin 0) = false →
      F32.ge (integrated sqrtf gs a b gravity i).y (F32.fin 720) = true →
      ((update_particle_rule sqrtf gs a b gravity a).positions.getD i
        ⟨F32.fin 0, F32.fin 0⟩).y = F32.fin 719 ∧
      ((update_particle_rule sqrtf gs a b gravity a).velocities.getD i
        ⟨F32.fin 0, F32.fin 0⟩).y = F32.neg (damped sqrtf gs a b gravity i).y) ∧
    (F32.lt (integrated sqrtf gs a b gravity i).y (F32.fin 0) = false →
      F32.ge (integrated sqrtf gs a b gravity i).y (F32.fin 720) = false →
      ((update_particle_rule sqrtf gs a b gravity a).positions.getD i
        ⟨F32.fin 0, F32.fin 0⟩).y = (integrated sqrtf gs a b gravity i).y ∧
      ((update_particle_rule sqrtf gs a b gravity a).velocities.getD i
        ⟨F32.fin 0, F32.fin 0⟩).y = (damped sqrtf gs a b gravity i).y) := by
  obtain ⟨c1, c2⟩ :=
    update_particle_rule_cell32 sqrtf gs a b gravity i hi hp hv ⟨F32.fin 0, F32.fin 0⟩
  obtain ⟨f1, f2, -⟩ := rule_upto_frame32 sqrtf gs a b gravity (gs a).count.toNat
  obtain ⟨rx, ry⟩ := damped_rounded sqrtf gs a b gravity i
  have nx := F32.mul_minus_one _ rx
  have ny := F32.mul_minus_one _ ry
  have e1279 : (1280 : ℚ) - 1 = 1279 := by norm_num
  have e719 : (720 : ℚ) - 1 = 719 := by norm_num
  obtain ⟨x1, x2, x3, x4, x5⟩ := bounce_spec32 1280 (integrated sqrtf gs a b gravity i).x
    (damped sqrtf gs a b gravity i).x (by norm_num) (by rw [e1279]; exact is_binary32_1279)
  obtain ⟨y1, y2, y3, y4, y5⟩ := bounce_spec32 720 (integrated sqrtf gs a b gravity i).y
    (damped sqrtf gs a b gravity i).y (by norm_num) (by rw [e719]; exact is_binary32_719)
  rw [e1279, nx] at x4
  rw [e719, ny] at y4
  rw [nx] at x3
  rw [ny] at y3
  have wx : world_size.x = F32.fin 1280 := rfl
  have wy : world_size.y = F32.fin 720 := rfl
  rw [c1, c2, wx, wy]
  refine ⟨f1, by rw [update_particle_rule_eq_upto32, f2, hp], ?_, x2, ?_, ?_, ?_, ?_, y2,
    ?_, ?_, ?_⟩
  · intro h; rw [x1 h]
  · intro h; rw [x3 h]; exact ⟨rfl, rfl⟩
  · intro h1 h2; rw [x4 h1 h2]; exact ⟨rfl, rfl⟩
  · intro h1 h2; rw [x5 h1 h2]; exact ⟨rfl, rfl⟩
  · intro h; rw [y1 h]
  · intro h; rw [y3 h]; exact ⟨rfl, rfl⟩
  · intro h1 h2; rw [y4 h1 h2]; exact ⟨rfl, rfl⟩
  · intro h1 h2; rw [y5 h1 h2]; exact ⟨rfl, rfl⟩

theorem force_step_in_range (sqrtf : F32 → F32) (gravity : F32) (pa fa pb : FPoint)
    (h1 : F32.lt (F32.fin 0) (distance sqrtf pa pb) = true)
    (h2 : F32.lt (distance sqrtf pa pb) max_distance = true) :
    force_step sqrtf gravity pa fa pb =
      ⟨F32.add fa.x (F32.mul (F32.div (F32.mul gravity (F32.fin 1)) (distance sqrtf pa pb))
          (F32.sub pa.x pb.x)),
       F32.add fa.y (F32.mul (F32.div (F32.mul gravity (F32.fin 1)) (distance sqrtf pa pb))
          (F32.sub pa.y pb.y))⟩ := by
  unfold distance at h1 h2
  unfold force_step distance
  simp only [h1, h2, Bool.and_self, if_true]

theorem near_force_step :
    force_step sqrt32 (F32.fin FLT_MAX) ⟨F32.fin 10, F32.fin 10⟩ ⟨F32.fin 0, F32.fin 0⟩
      ⟨F32.fin (19 / 2), F32.fin 10⟩ = ⟨F32.inf false, F32.nan⟩ := by
  have h1 : (10 : ℚ) + -(19 / 2) = 1 / 2 := by norm_num
  have h2 : (10 : ℚ) + -10 = 0 := by norm_num
  have h3 : (1 / 2 : ℚ) * (1 / 2) = 1 / 4 := by norm_num
  have h4 : (1 / 4 : ℚ) + 0 = 1 / 4 := by norm_num
  have r0 := round32_of_binary32 _ is_binary32_zero
  have rh := round32_of_binary32 _ is_binary32_half
  have rq := round32_of_binary32 _ is_binary32_quarter
  have rm := round32_of_binary32 _ is_binary32_FLT_MAX
  have sx : F32.sub (F32.fin 10) (F32.fin (19 / 2)) = F32.fin (1 / 2) := by
    simp only [F32.sub, F32.neg, F32.add]; rw [h1]; exact rh
  have sy : F32.sub (F32.fin 10) (F32.fin 10) = F32.fin 0 := by
    simp only [F32.sub, F32.neg, F32.add]; rw [h2]; exact r0
  have mx : F32.mul (F32.fin (1 / 2)) (F32.fin (1 / 2)) = F32.fin (1 / 4) := by
    simp only [F32.mul]; rw [h3]; exact rq
  have my : F32.mul (F32.fin 0) (F32.fin 0) = F32.fin 0 := by
    simp only [F32.mul]; rw [mul_zero]; exact r0
  have ad : F32.add (F32.fin (1 / 4)) (F32.fin 0) = F32.fin (1 / 4) := by
    simp only [F32.add]; rw [h4]; exact rq
  have mg : F32.mul (F32.fin FLT_MAX) (F32.fin 1) = F32.fin FLT_MAX := by
    simp only [F32.mul]; rw [mul_one]; exact rm
  have dv : F32.div (F32.fin FLT_MAX) (F32.fin (1 / 2)) = F32.inf false := by
    have hne : ¬ ((1 / 2 : ℚ) = 0) := by norm_num
    simp only [F32.div, if_neg hne]; exact round32_overflow
  have fx : F32.mul (F32.inf false) (F32.fin (1 / 2)) = F32.inf false := by
    have hne : ¬ ((1 / 2 : ℚ) = 0) := by norm_num
    have hlt : ¬ ((1 / 2 : ℚ) < 0) := by norm_num
    simp only [F32.mul, if_neg hne, decide_eq_false hlt, Bool.xor_false]
  have fy : F32.mul (F32.inf false) (F32.fin 0) = F32.nan := by
    simp only [F32.mul, if_true]
  have ax : F32.add (F32.fin 0) (F32.inf false) = F32.inf false := by
    simp only [F32.add]
  have ay : F32.add (F32.fin 0) F32.nan = F32.nan := by
    simp only [F32.add]
  have hd : distance sqrt32 ⟨F32.fin 10, F32.fin 10⟩ ⟨F32.fin (19 / 2), F32.fin 10⟩ =
      F32.fin (1 / 2) := by
    unfold distance
    show sqrt32 (F32.add
      (F32.mul (F32.sub (F32.fin 10) (F32.fin (19 / 2))) (F32.sub (F32.fin 10) (F32.fin (19 / 2))))
      (F32.mul (F32.sub (F32.fin 10) (F32.fin 10)) (F32.sub (F32.fin 10) (F32.fin 10)))) = _
    rw [sx, sy, mx, my, ad]
    exact sqrt32_quarter
  have l1 : F32.lt (F32.fin 0) (F32.fin (1 / 2)) = true := by
    have : (0 : ℚ) < 1 / 2 := by norm_num
    simp only [F32.lt, decide_eq_true this]
  have l2 : F32.lt (F32.fin (1 / 2)) (F32.fin 180) = true := by
    have : (1 / 2 : ℚ) < 180 := by norm_num
    simp only [F32.lt, decide_eq_true this]
  rw [force_step_in_range _ _ _ _ _ (by rw [hd]; exact l1)
    (by rw [hd, max_distance_eq]; exact l2), hd]
  show (⟨F32.add (F32.fin 0) (F32.mul (F32.div (F32.mul (F32.fin FLT_MAX) (F32.fin 1))
      (F32.fin (1 / 2))) (F32.sub (F32.fin 10) (F32.fin (19 / 2)))),
    F32.add (F32.fin 0) (F32.mul (F32.div (F32.mul (F32.fin FLT_MAX) (F32.fin 1))
      (F32.fin (1 / 2))) (F32.sub (F32.fin 10) (F32.fin 10)))⟩ : FPoint) = _
  rw [mg, dv, sx, sy, fx, fy, ax, ay]

theorem near_groups_rule_zero :
    rule_upto sqrt32 near_groups 0 1 (F32.fin FLT_MAX) 0 = near_groups := by
  simp only [rule_upto, List.range_zero, List.foldl_nil]

theorem near_groups_red_position :
    (near_groups 0).positions.getD 0 ⟨F32.fin 0, F32.fin 0⟩ = ⟨F32.fin 10, F32.fin 10⟩ := by
  simp only [near_groups, particle, if_true, List.getD_cons_zero]

theorem near_groups_green_count : (near_groups 1).count.toNat = 1 := by
  simp only [near_groups, particle, Fin.isValue, one_ne_zero, if_false, Int.toNat_one]

theorem near_groups_green_positions :
    (near_groups 1).positions = [⟨F32.fin (19 / 2), F32.fin 10⟩] := by
  simp only [near_groups, particle, Fin.isValue, one_ne_zero, if_false]

theorem accumulate_force_single (sqrtf : F32 → F32) (gravity : F32) (pa : FPoint) (b : group)
    (hc : b.count.toNat = 1) :
    accumulate_force sqrtf gravity pa b =
      force_step sqrtf gravity pa ⟨F32.fin 0, F32.fin 0⟩
        (b.positions.getD 0 ⟨F32.fin 0, F32.fin 0⟩) := by
  unfold accumulate_force
  rw [hc]
  rfl

theorem near_groups_accumulate :
    accumulate_force sqrt32 (F32.fin FLT_MAX) ⟨F32.fin 10, F32.fin 10⟩ (near_groups 1) =
      ⟨F32.inf false, F32.nan⟩ := by
  rw [accumulate_force_single _ _ _ _ near_groups_green_count, near_groups_green_positions,
    List.getD_cons_zero]
  exact near_force_step

theorem near_groups_raw_force :
    raw_force sqrt32 near_groups 0 1 (F32.fin FLT_MAX) 0 = ⟨F32.inf false, F32.nan⟩ := by
  unfold raw_force
  rw [near_groups_rule_zero, near_groups_red_position]
  exact near_groups_accumulate

theorem near_groups_damped :
    damped sqrt32 near_groups 0 1 (F32.fin FLT_MAX) 0 = ⟨F32.inf false, F32.nan⟩ := by
  have hv : (near_groups 0).velocities.getD 0 ⟨F32.fin 0, F32.fin 0⟩ =
      ⟨F32.fin 0, F32.fin 0⟩ := rfl
  have hne : ¬ ((1 / 2 : ℚ) = 0) := by norm_num
  have hlt : ¬ ((1 / 2 : ℚ) < 0) := by norm_num
  unfold damped
  rw [near_groups_raw_force, hv]
  simp only [F32.add, F32.mul, if_neg hne, decide_eq_false hlt, Bool.xor_false]

theorem near_groups_integrated :
    integrated sqrt32 near_groups 0 1 (F32.fin FLT_MAX) 0 = ⟨F32.inf false, F32.nan⟩ := by
  unfold integrated
  rw [near_groups_damped, near_groups_red_position]
  simp only [F32.add]

theorem near_groups_lengths :
    0 < (near_groups 0).count.toNat ∧
    (near_groups 0).positions.length = (near_groups 0).count.toNat ∧
    (near_groups 0).velocities.length = (near_groups 0).count.toNat := by
  simp only [near_groups, particle, if_true, List.length_singleton, Int.toNat_one, and_self,
    zero_lt_one]

/-- C1 counterexample: a RED particle at rest at `(10, 10)` and a GREEN particle
at `(9.5, 10)`, with the gravity `FLT_MAX` (a finite value a pasted
configuration can store): the force factor `FLT_MAX / 0.5` overflows to
infinity, the vertical force `inf * 0` is a NaN, and after the update the
stored vertical coordinate of the RED particle is a NaN, not a number of
`[0, 720)`. -/
theorem update_stores_nan_coordinate :
    raw_force sqrt32 near_groups 0 1 (F32.fin FLT_MAX) 0 = ⟨F32.inf false, F32.nan⟩ ∧
    ((update_particle_rule sqrt32 near_groups 0 1 (F32.fin FLT_MAX) 0).positions.getD 0
      ⟨F32.fin 0, F32.fin 0⟩).y = F32.nan ∧
    ¬ ∃ q, ((update_particle_rule sqrt32 near_groups 0 1 (F32.fin FLT_MAX) 0).positions.getD 0
      ⟨F32.fin 0, F32.fin 0⟩).y = F32.fin q ∧ 0 ≤ q ∧ q < 720 := by
  obtain ⟨c1, -⟩ := update_particle_rule_cell32 sqrt32 near_groups 0 1 (F32.fin FLT_MAX) 0
    near_groups_lengths.1 near_groups_lengths.2.1 near_groups_lengths.2.2 ⟨F32.fin 0, F32.fin 0⟩
  have hy : ((update_particle_rule sqrt32 near_groups 0 1 (F32.fin FLT_MAX) 0).positions.getD 0
      ⟨F32.fin 0, F32.fin 0⟩).y = F32.nan := by
    rw [c1, near_groups_integrated]
    rfl
  refine ⟨near_groups_raw_force, hy, ?_⟩
  rintro ⟨q, h, -⟩
  rw [hy] at h
  exact F32.noConfusion h

/-- Witness of C1 amended at the RED particle of `near_groups` with the gravity
`FLT_MAX`: the horizontal integrated coordinate is `+inf`, the second boundary
test holds, and the coordinate stored is 1279. -/
theorem boundary_clamp_unless_nan_witness :
    0 < (near_groups 0).count.toNat ∧
    (near_groups 0).positions.length = (near_groups 0).count.toNat ∧
    (near_groups 0).velocities.length = (near_groups 0).count.toNat ∧
    (integrated sqrt32 near_groups 0 1 (F32.fin FLT_MAX) 0).x = F32.inf false ∧
    ((update_particle_rule sqrt32 near_groups 0 1 (F32.fin FLT_MAX) 0).positions.getD 0
      ⟨F32.fin 0, F32.fin 0⟩).x = F32.fin 1279 ∧
    ((update_particle_rule sqrt32 near_groups 0 1 (F32.fin FLT_MAX) 0).velocities.getD 0
      ⟨F32.fin 0, F32.fin 0⟩).x = F32.neg (damped sqrt32 near_groups 0 1 (F32.fin FLT_MAX) 0).x :=
  ⟨near_groups_lengths.1, near_groups_lengths.2.1, near_groups_lengths.2.2,
   by rw [near_groups_integrated],
   (boundary_clamp_unless_nan sqrt32 near_groups 0 1 (F32.fin FLT_MAX) 0 near_groups_lengths.1
      near_groups_lengths.2.1 near_groups_lengths.2.2).2.2.2.2.2.1
      (by rw [near_groups_integrated]; rfl) (by rw [near_groups_integrated]; rfl)⟩

end Binary32

theorem round32_eq_fin (q Z : ℚ) (h : round32 q = F32.fin Z) : Z = round32_val q := by
  unfold round32 at h
  split_ifs at h
  exact (F32.fin.inj h).symm

theorem F32.add_eq_fin (x y : F32) (Z : ℚ) (h : F32.add x y = F32.fin Z) :
    ∃ a b, x = F32.fin a ∧ y = F32.fin b ∧ Z = round32_val (a + b) := by
  cases x with
  | nan => simp [F32.add] at h
  | inf s =>
    cases y with
    | nan => simp [F32.add] at h
    | inf t => simp only [F32.add] at h; split_ifs at h
    | fin b => simp [F32.add] at h
  | fin a =>
    cases y with
    | nan => simp [F32.add] at h
    | inf t => simp [F32.add] at h
    | fin b => exact ⟨a, b, rfl, rfl, round32_eq_fin _ _ h⟩

theorem F32.mul_eq_fin (x y : F32) (Z : ℚ) (h : F32.mul x y = F32.fin Z) :
    ∃ a b, x = F32.fin a ∧ y = F32.fin b ∧ Z = round32_val (a * b) := by
  cases x with
  | nan => simp [F32.mul] at h
  | inf s =>
    cases y with
    | nan => simp [F32.mul] at h
    | inf t => simp [F32.mul] at h
    | fin b => simp only [F32.mul] at h; split_ifs at h
  | fin a =>
    cases y with
    | nan => simp [F32.mul] at h
    | inf t => simp only [F32.mul] at h; split_ifs at h
    | fin b => exact ⟨a, b, rfl, rfl, round32_eq_fin _ _ h⟩

theorem F32.div_eq_fin (x : F32) (d Z : ℚ) (hd : d ≠ 0) (h : F32.div x (F32.fin d) = F32.fin Z) :
    ∃ a, x = F32.fin a ∧ Z = round32_val (a / d) := by
  cases x with
  | nan => simp [F32.div] at h
  | inf s => simp [F32.div] at h
  | fin a =>
    simp only [F32.div, if_neg hd] at h
    exact ⟨a, rfl, round32_eq_fin _ _ h⟩

theorem F32.lt_between (d : F32) (hi : ℚ) (h0 : F32.lt (F32.fin 0) d = true)
    (h1 : F32.lt d (F32.fin hi) = true) : ∃ q, d = F32.fin q ∧ 0 < q ∧ q < hi := by
  cases d with
  | nan => simp [F32.lt] at h0
  | inf s =>
    cases s
    · simp [F32.lt] at h1
    · simp [F32.lt] at h0
  | fin q =>
    simp only [F32.lt, decide_eq_true_eq] at h0 h1
    exact ⟨q, rfl, h0, h1⟩

theorem F32.add_fin (a b c : ℚ) (h : a + b = c) (hc : is_binary32 c) :
    F32.add (F32.fin a) (F32.fin b) = F32.fin c := by
  simp only [F32.add]
  rw [h]
  exact round32_of_binary32 _ hc

theorem F32.sub_fin (a b c : ℚ) (h : a - b = c) (hc : is_binary32 c) :
    F32.sub (F32.fin a) (F32.fin b) = F32.fin c := by
  simp only [F32.sub, F32.neg]
  exact F32.add_fin _ _ _ (by rw [← h]; ring) hc

theorem F32.mul_fin (a b c : ℚ) (h : a * b = c) (hc : is_binary32 c) :
    F32.mul (F32.fin a) (F32.fin b) = F32.fin c := by
  simp only [F32.mul]
  rw [h]
  exact round32_of_binary32 _ hc

theorem F32.div_fin (a b c : ℚ) (hb : b ≠ 0) (h : a / b = c) (hc : is_binary32 c) :
    F32.div (F32.fin a) (F32.fin b) = F32.fin c := by
  simp only [F32.div, if_neg hb]
  rw [h]
  exact round32_of_binary32 _ hc

namespace Binary32

theorem axis_chain_sign (f s : ℚ) :
    (0 ≤ f →
      (0 ≤ s → 0 ≤ round32_val (round32_val (0 + round32_val (0 +
        round32_val (f * round32_val s))) * (1 / 2))) ∧
      (s ≤ 0 → round32_val (round32_val (0 + round32_val (0 +
        round32_val (f * round32_val s))) * (1 / 2)) ≤ 0)) ∧
    (f ≤ 0 →
      (0 ≤ s → round32_val (round32_val (0 + round32_val (0 +
        round32_val (f * round32_val s))) * (1 / 2)) ≤ 0) ∧
      (s ≤ 0 → 0 ≤ round32_val (round32_val (0 + round32_val (0 +
        round32_val (f * round32_val s))) * (1 / 2)))) := by
  have nn : ∀ q : ℚ, 0 ≤ q → 0 ≤ round32_val q := fun q => (round32_val_sign q).1
  have np : ∀ q : ℚ, q ≤ 0 → round32_val q ≤ 0 := fun q => (round32_val_sign q).2
  have up : ∀ m : ℚ, 0 ≤ m →
      0 ≤ round32_val (round32_val (0 + round32_val (0 + round32_val m)) * (1 / 2)) := by
    intro m hm
    have a1 := nn _ hm
    have a2 := nn (0 + round32_val m) (by linarith)
    have a3 := nn (0 + round32_val (0 + round32_val m)) (by linarith)
    exact nn _ (by linarith)
  have dn : ∀ m : ℚ, m ≤ 0 →
      round32_val (round32_val (0 + round32_val (0 + round32_val m)) * (1 / 2)) ≤ 0 := by
    intro m hm
    have a1 := np _ hm
    have a2 := np (0 + round32_val m) (by linarith)
    have a3 := np (0 + round32_val (0 + round32_val m)) (by linarith)
    exact np _ (by linarith)
  refine ⟨fun hf => ⟨fun hs => up _ ?_, fun hs => dn _ ?_⟩,
    fun hf => ⟨fun hs => dn _ ?_, fun hs => up _ ?_⟩⟩
  · exact mul_nonneg hf (nn s hs)
  · exact mul_nonpos_iff.mpr (Or.inl ⟨hf, np s hs⟩)
  · exact mul_nonpos_iff.mpr (Or.inr ⟨hf, nn s hs⟩)
  · exact mul_nonneg_iff.mpr (Or.inr ⟨hf, np s hs⟩)

theorem axis_displacement (f px qx : ℚ) (hp : round32_val px = px) :
    (0 ≤ f →
      (qx ≤ px → px ≤ round32_val (px + round32_val (round32_val (0 + round32_val (0 +
        round32_val (f * round32_val (px + -qx)))) * (1 / 2)))) ∧
      (px ≤ qx → round32_val (px + round32_val (round32_val (0 + round32_val (0 +
        round32_val (f * round32_val (px + -qx)))) * (1 / 2))) ≤ px)) ∧
    (f ≤ 0 →
      (qx ≤ px → round32_val (px + round32_val (round32_val (0 + round32_val (0 +
        round32_val (f * round32_val (px + -qx)))) * (1 / 2))) ≤ px) ∧
      (px ≤ qx → px ≤ round32_val (px + round32_val (round32_val (0 + round32_val (0 +
        round32_val (f * round32_val (px + -qx)))) * (1 / 2))))) := by
  obtain ⟨c1, c2⟩ := axis_chain_sign f (px + -qx)
  generalize round32_val (round32_val (0 + round32_val (0 +
    round32_val (f * round32_val (px + -qx)))) * (1 / 2)) = V at c1 c2 ⊢
  have up : 0 ≤ V → px ≤ round32_val (px + V) := fun h =>
    round32_val_ge_anchor _ _ hp (by linarith)
  have dn : V ≤ 0 → round32_val (px + V) ≤ px := fun h =>
    round32_val_le_anchor _ _ hp (by linarith)
  refine ⟨fun hf => ⟨fun h => up ((c1 hf).1 (by linarith)), fun h => dn ((c1 hf).2 (by linarith))⟩,
    fun hf => ⟨fun h => dn ((c2 hf).1 (by linarith)), fun h => up ((c2 hf).2 (by linarith))⟩⟩

theorem factor_sign (g d : ℚ) (hd : 0 < d) :
    (0 ≤ g → 0 ≤ round32_val (round32_val (g * 1) / d)) ∧
    (g ≤ 0 → round32_val (round32_val (g * 1) / d) ≤ 0) := by
  constructor
  · intro h
    have a1 := (round32_val_sign (g * 1)).1 (by linarith)
    exact (round32_val_sign _).1 (div_nonneg a1 (le_of_lt hd))
  · intro h
    have a1 := (round32_val_sign (g * 1)).2 (by linarith)
    exact (round32_val_sign _).2 (div_nonpos_of_nonpos_of_nonneg a1 (le_of_lt hd))

theorem axis_eval (g d px qx X : ℚ) (hd : d ≠ 0)
    (h : F32.add (F32.fin px) (F32.mul (F32.add (F32.fin 0) (F32.add (F32.fin 0)
      (F32.mul (F32.div (F32.mul (F32.fin g) (F32.fin 1)) (F32.fin d))
        (F32.sub (F32.fin px) (F32.fin qx))))) (F32.fin (1 / 2))) = F32.fin X) :
    X = round32_val (px + round32_val (round32_val (0 + round32_val (0 +
      round32_val (round32_val (round32_val (g * 1) / d) * round32_val (px + -qx))))
        * (1 / 2))) := by
  obtain ⟨a1, b1, e1, e2, rfl⟩ := F32.add_eq_fin _ _ _ h
  obtain ⟨a2, b2, e3, e4, rfl⟩ := F32.mul_eq_fin _ _ _ e2
  obtain ⟨a3, b3, e5, e6, rfl⟩ := F32.add_eq_fin _ _ _ e3
  obtain ⟨a4, b4, e7, e8, rfl⟩ := F32.add_eq_fin _ _ _ e6
  obtain ⟨a5, b5, e9, e10, rfl⟩ := F32.mul_eq_fin _ _ _ e8
  obtain ⟨a6, e11, rfl⟩ := F32.div_eq_fin _ _ _ hd e9
  obtain ⟨a7, b7, e12, e13, rfl⟩ := F32.mul_eq_fin _ _ _ e11
  have e14 : F32.add (F32.fin px) (F32.fin (-qx)) = F32.fin b5 := e10
  obtain ⟨a8, b8, e15, e16, rfl⟩ := F32.add_eq_fin _ _ _ e14
  cases F32.fin.inj e1
  cases F32.fin.inj e4
  cases F32.fin.inj e5
  cases F32.fin.inj e7
  cases F32.fin.inj e12
  cases F32.fin.inj e13
  cases F32.fin.inj e15
  cases F32.fin.inj e16
  rfl

theorem sq_le_of_away (p q X : ℚ) (h1 : q ≤ p → p ≤ X) (h2 : p ≤ q → X ≤ p) :
    (p - q) * (p - q) ≤ (X - q) * (X - q) ∧
    (X ≠ p → (p - q) * (p - q) < (X - q) * (X - q)) := by
  rcases le_total q p with h | h
  · have hX := h1 h
    refine ⟨by nlinarith, fun hne => ?_⟩
    have : p < X := lt_of_le_of_ne hX (Ne.symm hne)
    nlinarith
  · have hX := h2 h
    refine ⟨by nlinarith, fun hne => ?_⟩
    have : X < p := lt_of_le_of_ne hX hne
    nlinarith

theorem sq_le_of_toward (p q X : ℚ) (h1 : q ≤ p → X ≤ p) (h2 : p ≤ q → p ≤ X)
    (h3 : q ≤ p → q ≤ X) (h4 : p ≤ q → X ≤ q) :
    (X - q) * (X - q) ≤ (p - q) * (p - q) ∧
    (X ≠ p → (X - q) * (X - q) < (p - q) * (p - q)) := by
  rcases le_total q p with h | h
  · have hX := h1 h
    have hY := h3 h
    refine ⟨by nlinarith, fun hne => ?_⟩
    have : X < p := lt_of_le_of_ne hX hne
    nlinarith
  · have hX := h2 h
    have hY := h4 h
    refine ⟨by nlinarith, fun hne => ?_⟩
    have : p < X := lt_of_le_of_ne hX (Ne.symm hne)
    nlinarith

/-- When the integrated position of particle `i` is a finite point inside the
world, no boundary statement fires and the call stores that point. -/
theorem update_particle_rule_inside32 (sqrtf : F32 → F32) (gs : Groups) (a b : Fin NUM_GROUPS)
    (gravity : F32) (i : Nat) (X Y : ℚ) (hi : i < (gs a).count.toNat)
    (hlen : (gs a).positions.length = (gs a).count.toNat)
    (hvel : (gs a).velocities.length = (gs a).count.toNat)
    (hS : integrated sqrtf gs a b gravity i = ⟨F32.fin X, F32.fin Y⟩)
    (hX0 : 0 ≤ X) (hX1 : X < 1280) (hY0 : 0 ≤ Y) (hY1 : Y < 720) :
    (update_particle_rule sqrtf gs a b gravity a).positions.getD i ⟨F32.fin 0, F32.fin 0⟩
      = ⟨F32.fin X, F32.fin Y⟩ := by
  obtain ⟨c1, -⟩ := update_particle_rule_cell32 sqrtf gs a b gravity i hi hlen hvel
    ⟨F32.fin 0, F32.fin 0⟩
  have e1279 : (1280 : ℚ) - 1 = 1279 := by norm_num
  have e719 : (720 : ℚ) - 1 = 719 := by norm_num
  obtain ⟨-, -, -, -, bx⟩ := bounce_spec32 1280 (integrated sqrtf gs a b gravity i).x
    (damped sqrtf gs a b gravity i).x (by norm_num) (by rw [e1279]; exact is_binary32_1279)
  obtain ⟨-, -, -, -, by5⟩ := bounce_spec32 720 (integrated sqrtf gs a b gravity i).y
    (damped sqrtf gs a b gravity i).y (by norm_num) (by rw [e719]; exact is_binary32_719)
  have wx : world_size.x = F32.fin 1280 := rfl
  have wy : world_size.y = F32.fin 720 := rfl
  have hl : ∀ (Z D : ℚ), 0 ≤ Z → Z < D →
      F32.lt (F32.fin Z) (F32.fin 0) = false ∧ F32.ge (F32.fin Z) (F32.fin D) = false := by
    intro Z D h0 h1
    simp only [F32.lt, F32.ge, decide_eq_false_iff_not, not_lt, not_le]
    exact ⟨h0, h1⟩
  rw [c1, wx, wy, bx (by rw [hS]; exact (hl X 1280 hX0 hX1).1)
    (by rw [hS]; exact (hl X 1280 hX0 hX1).2),
    by5 (by rw [hS]; exact (hl Y 720 hY0 hY1).1) (by rw [hS]; exact (hl Y 720 hY0 hY1).2), hS]

theorem raw_force_single32 (sqrtf : F32 → F32) (gs : Groups) (a b : Fin NUM_GROUPS)
    (gravity : F32) (i : Nat) (hab : b ≠ a) (hb : (gs b).count = 1) :
    raw_force sqrtf gs a b gravity i =
      force_step sqrtf gravity ((gs a).positions.getD i ⟨F32.fin 0, F32.fin 0⟩)
        ⟨F32.fin 0, F32.fin 0⟩ ((gs b).positions.getD 0 ⟨F32.fin 0, F32.fin 0⟩) := by
  unfold raw_force
  rw [rule_upto_other32 sqrtf gs a b b gravity hab,
    accumulate_force_single _ _ _ _ (by rw [hb]; rfl)]

/-- C10 amended: for a particle `p` of group `a` at rest and the single
particle `q` of another group `b`, both with finite coordinates, at a computed
distance `d` with `0 < d < max_distance`, when the integrated position the code
computes in binary32 is a finite point `(X, Y)` inside the world (no boundary
statement fires), one call of `update_particle_rule` leaves `q` in place and
stores `(X, Y)` for `p`. With a positive coefficient `p` is never moved toward
`q`: on each axis the new coordinate is the old one or lies farther from `q` on
the same side, so the exact distance to `q` does not shrink, and it grows
whenever `p` moved. With a negative coefficient `p` is never moved away: on
each axis the new coordinate is the old one or lies on the side of `q`, and as
long as `p` does not pass `q` on an axis the distance does not grow, and it
shrinks whenever `p` moved. -/
theorem gravity_sign_binary32 (sqrtf : F32 → F32) (gs : Groups) (a b : Fin NUM_GROUPS)
    (g : ℚ) (i : Nat) (px py qx qy X Y : ℚ)
    (hab : b ≠ a) (hi : i < (gs a).count.toNat)
    (hlen : (gs a).positions.length = (gs a).count.toNat)
    (hvel : (gs a).velocities.length = (gs a).count.toNat)
    (hb : (gs b).count = 1)
    (hp : (gs a).positions.getD i ⟨F32.fin 0, F32.fin 0⟩ = ⟨F32.fin px, F32.fin py⟩)
    (hpx : is_binary32 px) (hpy : is_binary32 py)
    (hq : (gs b).positions.getD 0 ⟨F32.fin 0, F32.fin 0⟩ = ⟨F32.fin qx, F32.fin qy⟩)
    (hrest : (gs a).velocities.getD i ⟨F32.fin 0, F32.fin 0⟩ = ⟨F32.fin 0, F32.fin 0⟩)
    (hd0 : F32.lt (F32.fin 0)
      (distance sqrtf ⟨F32.fin px, F32.fin py⟩ ⟨F32.fin qx, F32.fin qy⟩) = true)
    (hd1 : F32.lt (distance sqrtf ⟨F32.fin px, F32.fin py⟩ ⟨F32.fin qx, F32.fin qy⟩)
      max_distance = true)
    (hS : integrated sqrtf gs a b (F32.fin g) i = ⟨F32.fin X, F32.fin Y⟩)
    (hX0 : 0 ≤ X) (hX1 : X < 1280) (hY0 : 0 ≤ Y) (hY1 : Y < 720) :
    (update_particle_rule sqrtf gs a b (F32.fin g) b).positions.getD 0 ⟨F32.fin 0, F32.fin 0⟩
      = ⟨F32.fin qx, F32.fin qy⟩ ∧
    (update_particle_rule sqrtf gs a b (F32.fin g) a).positions.getD i ⟨F32.fin 0, F32.fin 0⟩
      = ⟨F32.fin X, F32.fin Y⟩ ∧
    (0 < g →
      (qx ≤ px → px ≤ X) ∧ (px ≤ qx → X ≤ px) ∧ (qy ≤ py → py ≤ Y) ∧ (py ≤ qy → Y ≤ py) ∧
      dist_sq px py qx qy ≤ dist_sq X Y qx qy ∧
      ((X ≠ px ∨ Y ≠ py) → dist_sq px py qx qy < dist_sq X Y qx qy)) ∧
    (g < 0 →
      (qx ≤ px → X ≤ px) ∧ (px ≤ qx → px ≤ X) ∧ (qy ≤ py → Y ≤ py) ∧ (py ≤ qy → py ≤ Y) ∧
      ((qx ≤ px → qx ≤ X) → (px ≤ qx → X ≤ qx) → (qy ≤ py → qy ≤ Y) → (py ≤ qy → Y ≤ qy) →
        dist_sq X Y qx qy ≤ dist_sq px py qx qy ∧
        ((X ≠ px ∨ Y ≠ py) → dist_sq X Y qx qy < dist_sq px py qx qy))) := by
  rw [max_distance_eq] at hd1
  obtain ⟨d, hd, hdpos, -⟩ := F32.lt_between _ _ hd0 hd1
  have hne : d ≠ 0 := ne_of_gt hdpos
  have hf : raw_force sqrtf gs a b (F32.fin g) i =
      ⟨F32.add (F32.fin 0) (F32.mul (F32.div (F32.mul (F32.fin g) (F32.fin 1)) (F32.fin d))
          (F32.sub (F32.fin px) (F32.fin qx))),
       F32.add (F32.fin 0) (F32.mul (F32.div (F32.mul (F32.fin g) (F32.fin 1)) (F32.fin d))
          (F32.sub (F32.fin py) (F32.fin qy)))⟩ := by
    rw [raw_force_single32 sqrtf gs a b _ i hab hb, hp, hq,
      force_step_in_range _ _ _ _ _ hd0 (by rw [max_distance_eq]; exact hd1), hd]
  have hSx : (integrated sqrtf gs a b (F32.fin g) i).x = F32.fin X := by rw [hS]
  have hSy : (integrated sqrtf gs a b (F32.fin g) i).y = F32.fin Y := by rw [hS]
  simp only [integrated, damped, hf, hp, hrest] at hSx hSy
  have eX := axis_eval g d px qx X hne hSx
  have eY := axis_eval g d py qy Y hne hSy
  obtain ⟨fp, fn⟩ := factor_sign g d hdpos
  obtain ⟨xp, xn⟩ := axis_displacement (round32_val (round32_val (g * 1) / d)) px qx hpx.1
  obtain ⟨yp, yn⟩ := axis_displacement (round32_val (round32_val (g * 1) / d)) py qy hpy.1
  rw [← eX] at xp xn
  rw [← eY] at yp yn
  have hpos := update_particle_rule_inside32 sqrtf gs a b (F32.fin g) i X Y hi hlen hvel hS
    hX0 hX1 hY0 hY1
  refine ⟨?_, hpos, ?_, ?_⟩
  · rw [update_particle_rule_eq_upto32, rule_upto_other32 sqrtf gs a b b _ hab, hq]
  · intro hg
    obtain ⟨x1, x2⟩ := xp (fp (le_of_lt hg))
    obtain ⟨y1, y2⟩ := yp (fp (le_of_lt hg))
    obtain ⟨sx, sx2⟩ := sq_le_of_away px qx X x1 x2
    obtain ⟨sy, sy2⟩ := sq_le_of_away py qy Y y1 y2
    refine ⟨x1, x2, y1, y2, ?_, ?_⟩
    · unfold dist_sq; linarith
    · rintro (h | h)
      · have := sx2 h; unfold dist_sq; linarith
      · have := sy2 h; unfold dist_sq; linarith
  · intro hg
    obtain ⟨x1, x2⟩ := xn (fn (le_of_lt hg))
    obtain ⟨y1, y2⟩ := yn (fn (le_of_lt hg))
    refine ⟨x1, x2, y1, y2, ?_⟩
    intro x3 x4 y3 y4
    obtain ⟨sx, sx2⟩ := sq_le_of_toward px qx X x1 x2 x3 x4
    obtain ⟨sy, sy2⟩ := sq_le_of_toward py qy Y y1 y2 y3 y4
    refine ⟨?_, ?_⟩
    · unfold dist_sq; linarith
    · rintro (h | h)
      · have := sx2 h; unfold dist_sq; linarith
      · have := sy2 h; unfold dist_sq; linarith

theorem is_binary32_one : is_binary32 1 :=
  is_binary32_of_nonneg _ 0 8388608 (by norm_num) (by norm_num) (by norm_num) (by norm_num)
    (by norm_num) (by norm_num)

theorem is_binary32_four : is_binary32 4 :=
  is_binary32_of_nonneg _ 2 8388608 (by norm_num) (by norm_num) (by norm_num) (by norm_num)
    (by norm_num) (by norm_num)

theorem is_binary32_sixteen : is_binary32 16 :=
  is_binary32_of_nonneg _ 4 8388608 (by norm_num) (by norm_num) (by norm_num) (by norm_num)
    (by norm_num) (by norm_num)

theorem is_binary32_100 : is_binary32 100 :=
  is_binary32_of_nonneg _ 6 13107200 (by norm_num) (by norm_num) (by norm_num) (by norm_num)
    (by norm_num) (by norm_num)

theorem is_binary32_104 : is_binary32 104 :=
  is_binary32_of_nonneg _ 6 13631488 (by norm_num) (by norm_num) (by norm_num) (by norm_num)
    (by norm_num) (by norm_num)

theorem is_binary32_209_2 : is_binary32 (209 / 2) :=
  is_binary32_of_nonneg _ 6 13697024 (by norm_num) (by norm_num) (by norm_num) (by norm_num)
    (by norm_num) (by norm_num)

theorem is_binary32_207_2 : is_binary32 (207 / 2) :=
  is_binary32_of_nonneg _ 6 13565952 (by norm_num) (by norm_num) (by norm_num) (by norm_num)
    (by norm_num) (by norm_num)

theorem pair_groups_red_position :
    (pair_groups 0).positions.getD 0 ⟨F32.fin 0, F32.fin 0⟩ = ⟨F32.fin 104, F32.fin 100⟩ := by
  simp only [pair_groups, particle, if_true, List.getD_cons_zero]

theorem pair_groups_red_velocity :
    (pair_groups 0).velocities.getD 0 ⟨F32.fin 0, F32.fin 0⟩ = ⟨F32.fin 0, F32.fin 0⟩ := by
  simp only [pair_groups, particle, if_true, List.getD_cons_zero]

theorem pair_groups_count (k : Fin NUM_GROUPS) : (pair_groups k).count = 1 := by
  unfold pair_groups particle
  split_ifs <;> rfl

theorem pair_groups_green_position :
    (pair_groups 1).positions.getD 0 ⟨F32.fin 0, F32.fin 0⟩ = ⟨F32.fin 100, F32.fin 100⟩ := by
  simp only [pair_groups, particle, Fin.isValue, one_ne_zero, if_false, List.getD_cons_zero]

theorem pair_groups_lengths :
    (pair_groups 0).positions.length = (pair_groups 0).count.toNat ∧
    (pair_groups 0).velocities.length = (pair_groups 0).count.toNat := by
  simp only [pair_groups, particle, if_true, List.length_singleton, Int.toNat_one, and_self]

theorem pair_groups_distance32 :
    distance sqrt32 ⟨F32.fin 104, F32.fin 100⟩ ⟨F32.fin 100, F32.fin 100⟩ = F32.fin 4 := by
  have sx := F32.sub_fin 104 100 4 (by norm_num) is_binary32_four
  have sy := F32.sub_fin 100 100 0 (by norm_num) is_binary32_zero
  have mx := F32.mul_fin 4 4 16 (by norm_num) is_binary32_sixteen
  have my := F32.mul_fin 0 0 0 (by norm_num) is_binary32_zero
  have ad := F32.add_fin 16 0 16 (by norm_num) is_binary32_sixteen
  unfold distance
  show sqrt32 (F32.add
    (F32.mul (F32.sub (F32.fin 104) (F32.fin 100)) (F32.sub (F32.fin 104) (F32.fin 100)))
    (F32.mul (F32.sub (F32.fin 100) (F32.fin 100)) (F32.sub (F32.fin 100) (F32.fin 100)))) = _
  rw [sx, sy, mx, my, ad]
  exact sqrt32_sixteen

theorem pair_groups_guard :
    F32.lt (F32.fin 0)
      (distance sqrt32 ⟨F32.fin 104, F32.fin 100⟩ ⟨F32.fin 100, F32.fin 100⟩) = true ∧
    F32.lt (distance sqrt32 ⟨F32.fin 104, F32.fin 100⟩ ⟨F32.fin 100, F32.fin 100⟩)
      max_distance = true := by
  rw [pair_groups_distance32, max_distance_eq]
  have h1 : (0 : ℚ) < 4 := by norm_num
  have h2 : (4 : ℚ) < 180 := by norm_num
  simp only [F32.lt, decide_eq_true h1, decide_eq_true h2, and_self]

/-- One call on `pair_groups` with a coefficient `g` for which `g`, `g / 4`
and `g / 2` are binary32 numbers: the force and the damped velocity are exact,
and the integrated position is `(X, 100)` with `X` the rounded sum
`104 + g / 2`. -/
theorem pair_groups_integrated (g X : ℚ) (h1 : is_binary32 g) (h2 : is_binary32 (g / 4))
    (h3 : is_binary32 (g / 2)) (h4 : round32 (104 + g / 2) = F32.fin X) :
    integrated sqrt32 pair_groups 0 1 (F32.fin g) 0 = ⟨F32.fin X, F32.fin 100⟩ := by
  have sx := F32.sub_fin 104 100 4 (by norm_num) is_binary32_four
  have sy := F32.sub_fin 100 100 0 (by norm_num) is_binary32_zero
  have mg := F32.mul_fin g 1 g (by ring) h1
  have dv := F32.div_fin g 4 (g / 4) (by norm_num) rfl h2
  have fx := F32.mul_fin (g / 4) 4 g (by ring) h1
  have fy := F32.mul_fin (g / 4) 0 0 (by ring) is_binary32_zero
  have ax := F32.add_fin 0 g g (by ring) h1
  have ay := F32.add_fin 0 0 0 (by ring) is_binary32_zero
  have hx := F32.mul_fin g (1 / 2) (g / 2) (by ring) h3
  have hy := F32.mul_fin 0 (1 / 2) 0 (by ring) is_binary32_zero
  have px : F32.add (F32.fin 104) (F32.fin (g / 2)) = F32.fin X := by
    simp only [F32.add]
    exact h4
  have py := F32.add_fin 100 0 100 (by ring) is_binary32_100
  have hf : raw_force sqrt32 pair_groups 0 1 (F32.fin g) 0 = ⟨F32.fin g, F32.fin 0⟩ := by
    rw [raw_force_single32 sqrt32 pair_groups 0 1 _ 0 (by decide) (pair_groups_count 1),
      pair_groups_red_position, pair_groups_green_position,
      force_step_in_range _ _ _ _ _ pair_groups_guard.1 pair_groups_guard.2,
      pair_groups_distance32]
    show (⟨F32.add (F32.fin 0) (F32.mul (F32.div (F32.mul (F32.fin g) (F32.fin 1)) (F32.fin 4))
        (F32.sub (F32.fin 104) (F32.fin 100))),
      F32.add (F32.fin 0) (F32.mul (F32.div (F32.mul (F32.fin g) (F32.fin 1)) (F32.fin 4))
        (F32.sub (F32.fin 100) (F32.fin 100)))⟩ : FPoint) = _
    rw [mg, dv, sx, sy, fx, fy, ax, ay]
  unfold integrated damped
  rw [hf, pair_groups_red_position, pair_groups_red_velocity]
  show (⟨F32.add (F32.fin 104) (F32.mul (F32.add (F32.fin 0) (F32.fin g)) (F32.fin (1 / 2))),
    F32.add (F32.fin 100) (F32.mul (F32.add (F32.fin 0) (F32.fin 0)) (F32.fin (1 / 2)))⟩ :
      FPoint) = _
  rw [ax, ay, hx, hy, px, py]

/-- The position stored for the RED particle of `pair_groups` when the
integrated position is `(X, 100)` inside the world. -/
theorem pair_groups_stored (g X : ℚ)
    (hS : integrated sqrt32 pair_groups 0 1 (F32.fin g) 0 = ⟨F32.fin X, F32.fin 100⟩)
    (h0 : 0 ≤ X) (h1 : X < 1280) :
    (update_particle_rule sqrt32 pair_groups 0 1 (F32.fin g) 0).positions.getD 0
      ⟨F32.fin 0, F32.fin 0⟩ = ⟨F32.fin X, F32.fin 100⟩ :=
  update_particle_rule_inside32 sqrt32 pair_groups 0 1 (F32.fin g) 0 X 100
    (by rw [pair_groups_count]; decide) pair_groups_lengths.1 pair_groups_lengths.2 hS h0 h1
    (by norm_num) (by norm_num)

theorem pair_groups_integrated_pos :
    integrated sqrt32 pair_groups 0 1 (F32.fin 1) 0 = ⟨F32.fin (209 / 2), F32.fin 100⟩ := by
  have e : (104 : ℚ) + 1 / 2 = 209 / 2 := by norm_num
  exact pair_groups_integrated 1 (209 / 2) is_binary32_one is_binary32_quarter is_binary32_half
    (by rw [e]; exact round32_of_binary32 _ is_binary32_209_2)

/-- C10 counterexample: a RED particle at rest at `(104, 100)` and a GREEN
particle at `(100, 100)`, at the computed distance 4, no boundary involved,
with the positive coefficient 1: the call leaves the GREEN particle in place
and moves the RED one to `(104.5, 100)`, away from it; the squared distance
grows from 16 to 81/4, so the particle is not attracted. -/
theorem positive_gravity_repels_binary32 :
    (pair_groups 0).velocities.getD 0 ⟨F32.fin 0, F32.fin 0⟩ = ⟨F32.fin 0, F32.fin 0⟩ ∧
    distance sqrt32 ((pair_groups 0).positions.getD 0 ⟨F32.fin 0, F32.fin 0⟩)
      ((pair_groups 1).positions.getD 0 ⟨F32.fin 0, F32.fin 0⟩) = F32.fin 4 ∧
    (update_particle_rule sqrt32 pair_groups 0 1 (F32.fin 1) 1).positions.getD 0
      ⟨F32.fin 0, F32.fin 0⟩ = ⟨F32.fin 100, F32.fin 100⟩ ∧
    (update_particle_rule sqrt32 pair_groups 0 1 (F32.fin 1) 0).positions.getD 0
      ⟨F32.fin 0, F32.fin 0⟩ = ⟨F32.fin (209 / 2), F32.fin 100⟩ ∧
    dist_sq 104 100 100 100 = 16 ∧
    dist_sq (209 / 2) 100 100 100 = 81 / 4 ∧
    ¬ (dist_sq (209 / 2) 100 100 100 < dist_sq 104 100 100 100) := by
  refine ⟨pair_groups_red_velocity, ?_, ?_,
    pair_groups_stored 1 (209 / 2) pair_groups_integrated_pos (by norm_num) (by norm_num),
    ?_, ?_, ?_⟩
  · rw [pair_groups_red_position, pair_groups_green_position]
    exact pair_groups_distance32
  · rw [update_particle_rule_eq_upto32, rule_upto_other32 sqrt32 pair_groups 0 1 1 _ (by decide),
      pair_groups_green_position]
  · norm_num [dist_sq]
  · norm_num [dist_sq]
  · norm_num [dist_sq]

theorem pair_groups_integrated_neg :
    integrated sqrt32 pair_groups 0 1 (F32.fin (-1)) 0 = ⟨F32.fin (207 / 2), F32.fin 100⟩ := by
  have e : (104 : ℚ) + -1 / 2 = 207 / 2 := by norm_num
  have e4 : (-1 : ℚ) / 4 = -(1 / 4) := by norm_num
  have e2 : (-1 : ℚ) / 2 = -(1 / 2) := by norm_num
  exact pair_groups_integrated (-1) (207 / 2) (is_binary32_neg _ is_binary32_one)
    (by rw [e4]; exact is_binary32_neg _ is_binary32_quarter)
    (by rw [e2]; exact is_binary32_neg _ is_binary32_half)
    (by rw [e]; exact round32_of_binary32 _ is_binary32_207_2)

/-- Witness of C10 amended: with the coefficient -1 the RED particle of
`pair_groups`, at distance 4 from the GREEN one, is moved to `(103.5, 100)`,
nearer to it. -/
theorem gravity_sign_binary32_witness :
    distance sqrt32 ⟨F32.fin 104, F32.fin 100⟩ ⟨F32.fin 100, F32.fin 100⟩ = F32.fin 4 ∧
    integrated sqrt32 pair_groups 0 1 (F32.fin (-1)) 0 = ⟨F32.fin (207 / 2), F32.fin 100⟩ ∧
    (update_particle_rule sqrt32 pair_groups 0 1 (F32.fin (-1)) 0).positions.getD 0
      ⟨F32.fin 0, F32.fin 0⟩ = ⟨F32.fin (207 / 2), F32.fin 100⟩ ∧
    dist_sq (207 / 2) 100 100 100 < dist_sq 104 100 100 100 :=
  ⟨pair_groups_distance32, pair_groups_integrated_neg,
   (gravity_sign_binary32 sqrt32 pair_groups 0 1 (-1) 0 104 100 100 100 (207 / 2) 100
      (by decide) (by rw [pair_groups_count]; decide) pair_groups_lengths.1
      pair_groups_lengths.2 (pair_groups_count 1) pair_groups_red_position is_binary32_104
      is_binary32_100 pair_groups_green_position pair_groups_red_velocity pair_groups_guard.1
      pair_groups_guard.2 pair_groups_integrated_neg (by norm_num) (by norm_num) (by norm_num)
      (by norm_num)).2.1,
   (((gravity_sign_binary32 sqrt32 pair_groups 0 1 (-1) 0 104 100 100 100 (207 / 2) 100
      (by decide) (by rw [pair_groups_count]; decide) pair_groups_lengths.1
      pair_groups_lengths.2 (pair_groups_count 1) pair_groups_red_position is_binary32_104
      is_binary32_100 pair_groups_green_position pair_groups_red_velocity pair_groups_guard.1
      pair_groups_guard.2 pair_groups_integrated_neg (by norm_num) (by norm_num) (by norm_num)
      (by norm_num)).2.2.2 (by norm_num)).2.2.2.2 (fun _ => by norm_num)
      (fun h => absurd h (by norm_num)) (fun _ => le_refl _) (fun _ => le_refl _)).2 (Or.inl (by norm_num))⟩

theorem is_binary32_pow (e : Int) (h3 : -126 ≤ e) (h5 : e ≤ 127) : is_binary32 (2 ^ e) := by
  have hp : (0 : ℚ) < 2 ^ e := by positivity
  refine is_binary32_of_nonneg _ e 8388608 (le_of_lt hp) (le_refl _) ?_ h3 h5 ?_
  · exact zpow_lt_zpow_right₀ (by norm_num) (by omega)
  · rw [zpow_sub₀ (by norm_num)]
    norm_num
    field_simp

theorem round32_absorbs_small :
    round32 (104 + 2 ^ (-20 : Int) / 2) = F32.fin 104 := by
  have hv : round32_val (104 + 2 ^ (-20 : Int) / 2) = 104 := by
    have h := round32_val_eval (104 + 2 ^ (-20 : Int) / 2) 6 13631488 (by norm_num)
      (by norm_num) (by norm_num)
      (round_half_even_below _ 13631488 (by norm_num) (by norm_num))
    rw [h]
    norm_num
  unfold round32
  rw [hv, if_neg (by norm_num)]

/-- Rounding absorbs a small coefficient: with the positive coefficient
`2 ^ -20` the RED particle of `pair_groups` has the damped velocity `2 ^ -21`,
less than half the spacing `2 ^ -17` of the binary32 numbers at 104, and the
position stored for it is the old one. The distance to the source is
unchanged, so the inequalities of the sign property are not strict. -/
theorem small_gravity_is_absorbed :
    (update_particle_rule sqrt32 pair_groups 0 1 (F32.fin (2 ^ (-20 : Int))) 0).positions.getD 0
      ⟨F32.fin 0, F32.fin 0⟩ = ⟨F32.fin 104, F32.fin 100⟩ := by
  have e4 : (2 : ℚ) ^ (-20 : Int) / 4 = 2 ^ (-22 : Int) := by norm_num
  have e2 : (2 : ℚ) ^ (-20 : Int) / 2 = 2 ^ (-21 : Int) := by norm_num
  have hS := pair_groups_integrated (2 ^ (-20 : Int)) 104
    (is_binary32_pow _ (by norm_num) (by norm_num))
    (by rw [e4]; exact is_binary32_pow _ (by norm_num) (by norm_num))
    (by rw [e2]; exact is_binary32_pow _ (by norm_num) (by norm_num))
    round32_absorbs_small
  exact pair_groups_stored _ 104 hS (by norm_num) (by norm_num)

theorem is_binary32_88 : is_binary32 88 :=
  is_binary32_of_nonneg _ 6 11534336 (by norm_num) (by norm_num) (by norm_num) (by norm_num)
    (by norm_num) (by norm_num)

/-- A strong negative coefficient carries the particle past the source: with
the coefficient -32 the RED particle of `pair_groups`, at distance 4 on the
right of the GREEN one, is moved to `(88, 100)`, at distance 12 on its left. -/
theorem strong_attraction_passes_source :
    (update_particle_rule sqrt32 pair_groups 0 1 (F32.fin (-32)) 0).positions.getD 0
      ⟨F32.fin 0, F32.fin 0⟩ = ⟨F32.fin 88, F32.fin 100⟩ ∧
    dist_sq 104 100 100 100 < dist_sq 88 100 100 100 := by
  have e : (104 : ℚ) + -32 / 2 = 88 := by norm_num
  have e4 : (-32 : ℚ) / 4 = -(2 ^ (3 : Int)) := by norm_num
  have e2 : (-32 : ℚ) / 2 = -(2 ^ (4 : Int)) := by norm_num
  have e1 : (-32 : ℚ) = -(2 ^ (5 : Int)) := by norm_num
  have hS := pair_groups_integrated (-32) 88
    (by rw [e1]; exact is_binary32_neg _ (is_binary32_pow _ (by norm_num) (by norm_num)))
    (by rw [e4]; exact is_binary32_neg _ (is_binary32_pow _ (by norm_num) (by norm_num)))
    (by rw [e2]; exact is_binary32_neg _ (is_binary32_pow _ (by norm_num) (by norm_num)))
    (by rw [e]; exact round32_of_binary32 _ is_binary32_88)
  refine ⟨pair_groups_stored _ 88 hS (by norm_num) (by norm_num), ?_⟩
  norm_num [dist_sq]

end Binary32

/-! ## Clipboard round trip with `float` fields -/

theorem sscanf_copy32 (gs : Groups) (h : in_ranges gs) :
    sscanf_f32 (copy snprintf_f gs) = (copy_args gs).map (fun v => round32_val (round6 v)) := by
  unfold sscanf_f32
  rw [sscanf_copy gs h, List.map_map]
  rfl

theorem paste_copy32 (RAND_MAX : Nat) (rand : Nat → Nat) (w : World) (h : in_ranges w.groups) :
    paste sscanf_f32 RAND_MAX rand (copy snprintf_f w.groups) w
      = spawn RAND_MAX rand
          { w with groups := (store_args w.groups
              ((copy_args w.groups).map (fun v => round32_val (round6 v)))) } := by
  unfold paste
  rw [if_neg (copy_ne_empty w.groups h), sscanf_copy32 w.groups h]
  have hl : ((copy_args w.groups).map (fun v => round32_val (round6 v))).length = 20 := rfl
  simp only []
  rw [if_pos hl]

theorem paste_copy_fields32 (RAND_MAX : Nat) (rand : Nat → Nat) (w : World)
    (h : in_ranges w.groups) (i : Fin NUM_GROUPS) :
    ((paste sscanf_f32 RAND_MAX rand (copy snprintf_f w.groups) w).groups i).spawn
      = round32_val (round6 (w.groups i).spawn) ∧
    (∀ j : Fin NUM_GROUPS,
      ((paste sscanf_f32 RAND_MAX rand (copy snprintf_f w.groups) w).groups i).gravity j
        = round32_val (round6 ((w.groups i).gravity j))) ∧
    ((paste sscanf_f32 RAND_MAX rand (copy snprintf_f w.groups) w).groups i).count
      = trunc_to_int (round32_val (round6 (w.groups i).spawn)) ∧
    ((paste sscanf_f32 RAND_MAX rand (copy snprintf_f w.groups) w).groups i).positions.length
      = (trunc_to_int (round32_val (round6 (w.groups i).spawn))).toNat ∧
    ((paste sscanf_f32 RAND_MAX rand (copy snprintf_f w.groups) w).groups i).velocities.length
      = (trunc_to_int (round32_val (round6 (w.groups i).spawn))).toNat := by
  rw [paste_copy32 RAND_MAX rand w h]
  obtain ⟨r1, r2, -, -, r5, r6, r7⟩ := spawn_fields RAND_MAX rand
    { w with groups := (store_args w.groups
        ((copy_args w.groups).map (fun v => round32_val (round6 v)))) } i
  obtain ⟨s1, s2, -, -, -, -, -⟩ :=
    store_args_spec w.groups ((copy_args w.groups).map (fun v => round32_val (round6 v))) rfl i
  obtain ⟨c1, c2⟩ := copy_args_getD w.groups (fun v => round32_val (round6 v)) i
  simp only [] at r1 r2 r5 r6 r7 c1 c2
  rw [s1, c1] at r1 r5 r6 r7
  refine ⟨r1, ?_, r5, r6, r7⟩
  intro j
  rw [r2, s2 j, c2 j]

theorem round_trip_close (v : ℚ) (hv : is_binary32 v) :
    |round32_val (round6 v) - v| ≤ 1 / 1000000 := by
  have h1 := round32_val_nearest (round6 v) v hv.1
  have h2 := round6_close v
  have h3 : |v - round6 v| ≤ 1 / 2000000 := by rw [abs_sub_comm]; exact h2
  have h4 : round32_val (round6 v) - v = (round32_val (round6 v) - round6 v) + (round6 v - v) := by
    ring
  rw [h4]
  have := abs_add (round32_val (round6 v) - round6 v) (round6 v - v)
  linarith

theorem is_binary32_200 : is_binary32 200 :=
  is_binary32_of_nonneg _ 7 13107200 (by norm_num) (by norm_num) (by norm_num) (by norm_num)
    (by norm_num) (by norm_num)

theorem is_binary32_three_halves : is_binary32 (3 / 2) :=
  is_binary32_of_nonneg _ 0 12582912 (by norm_num) (by norm_num) (by norm_num) (by norm_num)
    (by norm_num) (by norm_num)

theorem float_fields_initial : float_fields initial_groups := by
  intro i
  obtain ⟨h1, h2⟩ := initial_groups_fields i
  rw [h1]
  refine ⟨is_binary32_200, fun j => ?_⟩
  rw [h2 j]
  exact is_binary32_zero

/-- C5 as stated fails: with a spawn value of 1.5, a `float` inside `[1, 500]`,
the round trip reproduces the spawn value 1.5 but the count after the respawn
is 1, not the new spawn value. -/
theorem round_trip_count_is_truncated :
    in_ranges fractional_world.groups ∧
    (fractional_world.groups 0).spawn = 3 / 2 ∧
    is_binary32 (3 / 2) ∧
    ((paste sscanf_f32 32767 (fun _ => 0) (copy snprintf_f fractional_world.groups)
        fractional_world).groups 0).spawn = 3 / 2 ∧
    ((paste sscanf_f32 32767 (fun _ => 0) (copy snprintf_f fractional_world.groups)
        fractional_world).groups 0).count = 1 ∧
    (((paste sscanf_f32 32767 (fun _ => 0) (copy snprintf_f fractional_world.groups)
        fractional_world).groups 0).count : ℚ)
      ≠ ((paste sscanf_f32 32767 (fun _ => 0) (copy snprintf_f fractional_world.groups)
        fractional_world).groups 0).spawn := by
  obtain ⟨p1, -, p3, -⟩ :=
    paste_copy_fields32 32767 (fun _ => 0) fractional_world in_ranges_fractional 0
  have hs : (fractional_world.groups 0).spawn = 3 / 2 := by
    simp [fractional_world]
  rw [hs, round6_three_halves, is_binary32_three_halves.1] at p1 p3
  rw [trunc_three_halves] at p3
  refine ⟨in_ranges_fractional, hs, is_binary32_three_halves, p1, p3, ?_⟩
  rw [p1, p3]
  norm_num

/-- C5 amended: for every state whose 20 values are `float` values with spawn
in `[1, 500]` and gravity cells in `[-1, 1]`, `copy` produces the 20
conversions separated by single blanks in group-major order, `paste` scans
exactly 20 fields from that text, and after `paste` each of the 20 values is
the `float` nearest to the six-decimal rounding of the original value, which
differs from the original by at most one unit of the sixth decimal; every
group's count is its new spawn value truncated toward zero, and both arrays
have that many cells. -/
theorem config_round_trip_binary32 (RAND_MAX : Nat) (rand : Nat → Nat) (w : World)
    (h : in_ranges w.groups) (hf : float_fields w.groups) :
    copy snprintf_f w.groups = String.mk (join_spaces ((copy_args w.groups).map format_f)) ∧
    (copy_args w.groups).length = 20 ∧
    (sscanf_f32 (copy snprintf_f w.groups)).length = 20 ∧
    ∀ i : Fin NUM_GROUPS,
      ((paste sscanf_f32 RAND_MAX rand (copy snprintf_f w.groups) w).groups i).spawn
        = round32_val (round6 (w.groups i).spawn) ∧
      |((paste sscanf_f32 RAND_MAX rand (copy snprintf_f w.groups) w).groups i).spawn
          - (w.groups i).spawn| ≤ 1 / 1000000 ∧
      (∀ j : Fin NUM_GROUPS,
        ((paste sscanf_f32 RAND_MAX rand (copy snprintf_f w.groups) w).groups i).gravity j
          = round32_val (round6 ((w.groups i).gravity j)) ∧
        |((paste sscanf_f32 RAND_MAX rand (copy snprintf_f w.groups) w).groups i).gravity j
          - (w.groups i).gravity j| ≤ 1 / 1000000) ∧
      ((paste sscanf_f32 RAND_MAX rand (copy snprintf_f w.groups) w).groups i).count
        = trunc_to_int
            ((paste sscanf_f32 RAND_MAX rand (copy snprintf_f w.groups) w).groups i).spawn ∧
      ((paste sscanf_f32 RAND_MAX rand (copy snprintf_f w.groups) w).groups i).positions.length
        = ((paste sscanf_f32 RAND_MAX rand (copy snprintf_f w.groups) w).groups i).count.toNat ∧
      ((paste sscanf_f32 RAND_MAX rand (copy snprintf_f w.groups) w).groups i).velocities.length
        = ((paste sscanf_f32 RAND_MAX rand (copy snprintf_f w.groups) w).groups i).count.toNat := by
  refine ⟨copy_text w.groups h, rfl, by rw [sscanf_copy32 w.groups h]; rfl, ?_⟩
  intro i
  obtain ⟨p1, p2, p3, p4, p5⟩ := paste_copy_fields32 RAND_MAX rand w h i
  obtain ⟨f1, f2⟩ := hf i
  refine ⟨p1, ?_, ?_, ?_, ?_, ?_⟩
  · rw [p1]; exact round_trip_close _ f1
  · intro j
    refine ⟨p2 j, ?_⟩
    rw [p2 j]; exact round_trip_close _ (f2 j)
  · rw [p3, p1]
  · rw [p4, p3]
  · rw [p5, p3]

/-- Witness of C5 amended at the initial state (spawn 200, gravity 0). -/
theorem config_round_trip_binary32_witness :
    in_ranges initial_groups ∧
    float_fields initial_groups ∧
    (sscanf_f32 (copy snprintf_f initial_world.groups)).length = 20 ∧
    |((paste sscanf_f32 32767 (fun _ => 0) (copy snprintf_f initial_world.groups)
        initial_world).groups 0).spawn - (initial_world.groups 0).spawn| ≤ 1 / 1000000 ∧
    ((paste sscanf_f32 32767 (fun _ => 0) (copy snprintf_f initial_world.groups)
        initial_world).groups 0).count
      = trunc_to_int ((paste sscanf_f32 32767 (fun _ => 0)
          (copy snprintf_f initial_world.groups) initial_world).groups 0).spawn :=
  ⟨in_ranges_initial, float_fields_initial,
   (config_round_trip_binary32 32767 (fun _ => 0) initial_world in_ranges_initial
      float_fields_initial).2.2.1,
   ((config_round_trip_binary32 32767 (fun _ => 0) initial_world in_ranges_initial
      float_fields_initial).2.2.2 0).2.1,
   ((config_round_trip_binary32 32767 (fun _ => 0) initial_world in_ranges_initial
      float_fields_initial).2.2.2 0).2.2.2.1⟩

theorem round6_one_128 : round6 (1 / 128) = 7812 / 1000000 := by
  have hm : micro (1 / 128) = 7812 := by
    unfold micro
    rw [round_half_even_tie (|(1 / 128 : ℚ)| * 1000000) 7812
      (by rw [abs_of_pos (by norm_num)]; norm_num) (by decide)]
    rfl
  unfold round6
  rw [hm]
  norm_num

/-- The round trip of the gravity cell `1 / 128 = 0.0078125`: the text is
`0.007812` (the tie is rounded to even) and the `float` scanned from it is
`8388071 / 2 ^ 30`, which differs from the original by more than half a unit
of the sixth decimal and by less than one unit. -/
theorem round_trip_of_one_128 :
    is_binary32 (1 / 128) ∧
    round32_val (round6 (1 / 128)) = 8388071 / 1073741824 ∧
    1 / 2000000 < |round32_val (round6 (1 / 128)) - 1 / 128| ∧
    |round32_val (round6 (1 / 128)) - 1 / 128| ≤ 1 / 1000000 := by
  have hb : is_binary32 (1 / 128) :=
    is_binary32_of_nonneg _ (-7) 8388608 (by norm_num) (by norm_num) (by norm_num)
      (by norm_num) (by norm_num) (by norm_num)
  have hv : round32_val (round6 (1 / 128)) = 8388071 / 1073741824 := by
    rw [round6_one_128, round32_val_eval (7812 / 1000000) (-8) 16776142 (by norm_num)
      (by norm_num) (by norm_num)
      (round_half_even_below _ 16776142 (by norm_num) (by norm_num))]
    norm_num
  refine ⟨hb, hv, ?_, ?_⟩
  · rw [hv, abs_of_neg (by norm_num)]
    norm_num
  · rw [hv, abs_of_neg (by norm_num)]
    norm_num

end ParticlePets
